import Mathlib

/-! Snapshot drivers of containerd (overlay, naive, btrfs), the plugin registry,
the windows runtime's container list and the generated descriptor codec.

A shallow embedding of `snapshot/overlay/overlay.go`, `snapshot/naive/naive.go`
and `snapshot/btrfs/btrfs.go`.  Go strings are Lean strings, slices are lists,
`(value, error)` results are `Except`.  The metadata package
`snapshot/storage`, the btrfs binding and the host filesystem are not part of
the sources; they are modelled below and every such definition says so.

`plugin/plugin.go`, `windows/runtime.go` and
`api/types/descriptor/descriptor.pb.go` follow.  In the descriptor codec a
string is the list of its bytes, `int` is a 64-bit integer that wraps around,
and an access outside the bounds of a slice is an outcome of its own.
-/

/-! ## Go standard library: `strings.Join`, `path/filepath` -/

/-- Go `strings.Join(elems, sep)`. -/
def stringsJoin : List String → String → String
  | [], _ => ""
  | [a], _ => a
  | a :: b :: rest, sep => a ++ sep ++ stringsJoin (b :: rest) sep

/-- The elements of a path between its `/` separators (empty elements kept). -/
def splitSep : List Char → List (List Char)
  | [] => [[]]
  | c :: cs =>
    if c = '/' then [] :: splitSep cs
    else
      match splitSep cs with
      | [] => [[c]]
      | h :: t => (c :: h) :: t

/-- One element of the `filepath.Clean` loop.  `out` is the stack of elements
written so far, last written first.  Empty and `.` elements are skipped; `..`
removes the last written element when there is one to backtrack over, is
dropped at the root of a rooted path and is kept otherwise. -/
def cleanStep (rooted : Bool) (out : List (List Char)) (e : List Char) : List (List Char) :=
  if e = [] ∨ e = ['.'] then out
  else if e = ['.', '.'] then
    match out with
    | [] => if rooted then [] else [e]
    | top :: rest => if top = ['.', '.'] then e :: out else rest
  else e :: out

/-- Elements joined with single `/` separators. -/
def joinSep : List (List Char) → List Char
  | [] => []
  | [a] => a
  | a :: b :: rest => a ++ '/' :: joinSep (b :: rest)

/-- Go `filepath.Clean` for Unix paths: the shortest lexically equivalent path;
the empty result becomes `.`. -/
def Clean (path : String) : String :=
  if path.data = [] then "."
  else
    let rooted := path.data.head? = some '/'
    let out := (splitSep path.data).foldl (cleanStep rooted) []
    let body := joinSep out.reverse
    let res := if rooted then '/' :: body else body
    if res = [] then "." else String.mk res

/-- Go `filepath.Join(elem...)`: the elements from the first non-empty one on are
joined by `/` and the result is cleaned; no non-empty element gives `""`. -/
def Join (elem : List String) : String :=
  match elem.dropWhile (fun e => e = "") with
  | [] => ""
  | rest => Clean (stringsJoin rest "/")

/-- Go `strings.HasPrefix(s, p)`. -/
def hasPrefix (s p : String) : Bool := p.data.isPrefixOf s.data

/-! ## `containerd.Mount`, errors -/

/-- The struct `containerd.Mount`; its field `Type` is written `Type_`. -/
structure Mount where
  Type_ : String
  Source : String
  Options : List String
deriving DecidableEq, Repr

/-- Go `error` values: the kinds of the error taxonomy, the `os` error for a missing
file (the one `os.IsNotExist` recognises) and `errors.Wrap(cause, msg)`. -/
inductive Error where
  | NotFound
  | AlreadyExists
  | InvalidState
  | InUse
  | StoreUnavailable
  | StorageFailure
  | NotExist
  | wrap (cause : Error) (msg : String)
deriving DecidableEq, Repr

deriving instance DecidableEq for Except

/-- Go `os.IsNotExist(err)`. -/
def osIsNotExist : Error → Bool
  | .NotExist => true
  | _ => false

/-! ## `snapshot/storage`: the metadata store -/

namespace storage

/-- Modelled from the spec: the snapshot kind of package `snapshot`, the enum
`{Active, Committed}`. -/
inductive Kind where
  | KindActive
  | KindCommitted
deriving DecidableEq, Repr

/-- Modelled from the spec: the struct `storage.Active` is declared in
`snapshot/storage`, which is not among the sources.  The spec gives it as
`{ID, ParentIDs, Readonly, Key}` with `ParentIDs` ordered closest parent first. -/
structure Active where
  ID : String
  ParentIDs : List String
  Readonly : Bool
  Key : String
deriving DecidableEq, Repr

/-- Modelled from the spec: the Committed record `{ID, ParentIDs, Name}`. -/
structure Committed where
  ID : String
  ParentIDs : List String
  Name : String
deriving DecidableEq, Repr

/-- Modelled from the spec: the persisted record set of the metadata store
(`storage.MetaStore` is not among the sources).  `seq` is the last identifier
handed out; identifiers are its decimal numerals, so each is assigned once. -/
structure MetaStore where
  seq : Nat
  active : List Active
  committed : List Committed
deriving DecidableEq, Repr

/-- Modelled from the spec: `CreateActive(ctx, key, parentKey, readonly)` fails
with `AlreadyExists` if `key` is already an Active record and with `NotFound` if
`parentKey` is non-empty and does not resolve to a Committed record; it assigns
a fresh monotonically-unique ID.  The chain of the new record is the parent's ID
followed by the parent's own chain. -/
def CreateActive (ms : MetaStore) (key parent : String) (readonly : Bool) :
    Except Error (Active × MetaStore) :=
  if ms.active.any (fun a => a.Key = key) then .error .AlreadyExists
  else
    let create (parentIDs : List String) : Except Error (Active × MetaStore) :=
      let a : Active :=
        { ID := Nat.repr (ms.seq + 1), ParentIDs := parentIDs, Readonly := readonly, Key := key }
      .ok (a, { ms with seq := ms.seq + 1, active := a :: ms.active })
    if parent = "" then create []
    else
      match ms.committed.find? (fun c => c.Name = parent) with
      | none => .error .NotFound
      | some p => create (p.ID :: p.ParentIDs)

/-- Modelled from the spec: `GetActive(ctx, key)` fails with `NotFound` if absent. -/
def GetActive (ms : MetaStore) (key : String) : Except Error Active :=
  match ms.active.find? (fun a => a.Key = key) with
  | none => .error .NotFound
  | some a => .ok a

/-- Modelled from the spec: `CommitActive(ctx, key, name)` fails with
`AlreadyExists` if `name` already names a Committed record and with
`InvalidState` if the Active record is Readonly; it deletes the Active record
and inserts a Committed record sharing its ID and ParentIDs, and returns the ID.
A key that names no Active record gives `NotFound`. -/
def CommitActive (ms : MetaStore) (key name : String) : Except Error (String × MetaStore) :=
  if ms.committed.any (fun c => c.Name = name) then .error .AlreadyExists
  else
    match ms.active.find? (fun a => a.Key = key) with
    | none => .error .NotFound
    | some a =>
      if a.Readonly then .error .InvalidState
      else
        .ok (a.ID,
          { ms with
            active := ms.active.filter (fun b => ¬ b.Key = key),
            committed := { ID := a.ID, ParentIDs := a.ParentIDs, Name := name } :: ms.committed })

/-- Modelled from the spec: `Remove(ctx, key)` returns the ID and kind of the
deleted record (Active records are looked up first); it fails with `NotFound`
if `key` resolves to neither kind and with `InUse` if a Committed record still
has Active children referencing it as parent. -/
def Remove (ms : MetaStore) (key : String) : Except Error (String × Kind × MetaStore) :=
  match ms.active.find? (fun a => a.Key = key) with
  | some a =>
    .ok (a.ID, .KindActive, { ms with active := ms.active.filter (fun b => ¬ b.Key = key) })
  | none =>
    match ms.committed.find? (fun c => c.Name = key) with
    | none => .error .NotFound
    | some c =>
      if ms.active.any (fun a => a.ParentIDs.head? = some c.ID) then .error .InUse
      else
        .ok (c.ID, .KindCommitted,
          { ms with committed := ms.committed.filter (fun d => ¬ d.Name = key) })

/-- Modelled from the spec: `snapshot.Info`, the externally visible description
of a snapshot of either kind.  The times and labels are left out: the record set
holds none. -/
structure Info where
  Name : String
  Parent : String
  Kind : Kind
deriving DecidableEq, Repr

/-- The name of the Committed record that heads the chain `parentIDs`, or `""`. -/
def parentName (ms : MetaStore) (parentIDs : List String) : String :=
  match parentIDs.head? with
  | none => ""
  | some id =>
    match ms.committed.find? (fun c => c.ID = id) with
    | none => ""
    | some p => p.Name

/-- Modelled from the spec: `GetInfo(ctx, key)` resolves `key` against the Active
records first and then the Committed ones; it fails with `NotFound` if it is
absent in both. -/
def GetInfo (ms : MetaStore) (key : String) : Except Error Info :=
  match ms.active.find? (fun a => a.Key = key) with
  | some a => .ok { Name := a.Key, Parent := parentName ms a.ParentIDs, Kind := .KindActive }
  | none =>
    match ms.committed.find? (fun c => c.Name = key) with
    | none => .error .NotFound
    | some c => .ok { Name := c.Name, Parent := parentName ms c.ParentIDs, Kind := .KindCommitted }

end storage

/-! ## Failure injection and the outcome of a call -/

/-- The environment of one call: for each step that can fail for a reason outside
the program, the error it fails with (`none`: the step works).  `tempSuffix` is
the number `ioutil.TempDir` appends to its name. -/
structure Faults where
  Begin : Option Error := none
  Storage : Option Error := none
  Commit : Option Error := none
  tempSuffix : Nat := 0
  TempDir : Option Error := none
  MkdirFs : Option Error := none
  MkdirWork : Option Error := none
  CopyDir : Option Error := none
  Rename : Option Error := none
  RenameBack : Option Error := none
  RemoveTd : Option Error := none
  RemovePath : Option Error := none
  RemoveRenamed : Option Error := none
  SubvolCreate : Option Error := none
  SubvolSnapshot : Option Error := none
  SubvolInfo : Option Error := none
  SubvolDelete : Option Error := none
  SubvolCleanup : Option Error := none
  SubvolRestore : Option Error := none
deriving DecidableEq, Repr

/-- How the metadata transaction of a call ended: never opened, committed,
`Commit` failed (nothing persisted), rolled back, or neither committed nor rolled
back when the call returned. -/
inductive TxEnd where
  | unopened
  | committed
  | commitFailed
  | rolledBack
  | leftOpen
deriving DecidableEq, Repr

/-- What a call leaves behind: the persisted metadata, the filesystem, the end of
its transaction and the value it returns. -/
structure Outcome (φ : Type) (α : Type) where
  ms : storage.MetaStore
  fs : φ
  tx : TxEnd
  ret : Except Error α

/-! ## The host filesystem as the directory drivers use it -/

/-- The directories below a driver's `snapshots` directory: a path maps to the
names of the entries directly inside it, or to `none` when nothing is there. -/
abbrev DirFS := String → Option (List String)

/-- The filesystem with `path` set to `v`. -/
def DirFS.set (fs : DirFS) (path : String) (v : Option (List String)) : DirFS :=
  fun q => if q = path then v else fs q

/-- Go `ioutil.TempDir(dir, pfx)`: a new empty directory `dir/pfx<suffix>`.  It
fails when the name is taken (the retries are exhausted) or the environment fails. -/
def ioutilTempDir (f : Faults) (fs : DirFS) (dir pfx : String) : Except Error String × DirFS :=
  let name := Join [dir, pfx ++ Nat.repr f.tempSuffix]
  match f.TempDir with
  | some e => (.error e, fs)
  | none =>
    match fs name with
    | some _ => (.error .AlreadyExists, fs)
    | none => (.ok name, fs.set name (some []))

/-- Go `os.MkdirAll(filepath.Join(dir, name), perm)`: afterwards `dir` exists and
holds an entry `name`. -/
def osMkdirAll (fault : Option Error) (fs : DirFS) (dir name : String) : Option Error × DirFS :=
  match fault with
  | some e => (some e, fs)
  | none =>
    match fs dir with
    | none => (none, fs.set dir (some [name]))
    | some es => (none, fs.set dir (some (if name ∈ es then es else es ++ [name])))

/-- Go `os.Rename(src, dst)`: fails with the not-exist error when `src` is
missing; otherwise `dst` takes over the directory and `src` is gone. -/
def osRename (fault : Option Error) (fs : DirFS) (src dst : String) : Option Error × DirFS :=
  match fs src with
  | none => (some .NotExist, fs)
  | some d =>
    match fault with
    | some e => (some e, fs)
    | none => (none, (fs.set src none).set dst (some d))

/-- Go `os.RemoveAll(path)`: removes `path` and what it contains; a missing path
is no error. -/
def osRemoveAll (fault : Option Error) (fs : DirFS) (path : String) : Option Error × DirFS :=
  match fault with
  | some e => (some e, fs)
  | none => (none, fs.set path none)

/-- Go `fs.CopyDir(dst, src)` of containerd: the entries of `src` are copied into
the existing directory `dst`. -/
def fsCopyDir (fault : Option Error) (fs : DirFS) (dst src : String) : Option Error × DirFS :=
  match fs src, fs dst with
  | some es, some ds =>
    match fault with
    | some e => (some e, fs)
    | none => (none, fs.set dst (some (ds ++ es.filter (fun e => e ∉ ds))))
  | _, _ => (some .NotExist, fs)

/-- The deferred function of `createActive` in overlay.go and naive.go once the
local `err` is set: `os.RemoveAll(td)` if `td != ""`, then `os.RemoveAll(path)`
if `path != ""`.  The errors of the removals are wrapped into the local `err`
only; the function's results are unnamed, so the returned error is unaffected. -/
def deferredRemove (f : Faults) (fs : DirFS) (td path : String) : DirFS :=
  let fs := if td ≠ "" then (osRemoveAll f.RemoveTd fs td).2 else fs
  if path ≠ "" then (osRemoveAll f.RemovePath fs path).2 else fs

/-- A call into `snapshot/storage` inside an open transaction: the injected store
failure, if any, else the result of the operation. -/
def storageCall {α : Type} (f : Faults) (r : Except Error α) : Except Error α :=
  match f.Storage with
  | some e => .error e
  | none => r

/-! ## overlay -/

namespace overlay

/-- The struct `snapshotter` of overlay.go without its metadata store handle. -/
structure snapshotter where
  root : String

/-- Go `upperPath` of overlay.go. -/
def upperPath (o : snapshotter) (id : String) : String :=
  Join [o.root, "snapshots", id, "fs"]

/-- Go `workPath` of overlay.go. -/
def workPath (o : snapshotter) (id : String) : String :=
  Join [o.root, "snapshots", id, "work"]

/-- The loop `for i := range active.ParentIDs { parentPaths[i] = o.upperPath(active.ParentIDs[i]) }`
over a slice made with `make([]string, len(active.ParentIDs))`. -/
def parentPaths (o : snapshotter) (ParentIDs : List String) : List String :=
  (List.range ParentIDs.length).foldl
    (fun acc i => acc.set i (upperPath o (ParentIDs.getD i "")))
    (List.replicate ParentIDs.length "")

/-- Go `mounts` of overlay.go. -/
def mounts (o : snapshotter) (active : storage.Active) : List Mount :=
  if active.ParentIDs.length = 0 then
    let roFlag := if active.Readonly then "ro" else "rw"
    [{ Source := upperPath o active.ID, Type_ := "bind", Options := [roFlag, "rbind"] }]
  else
    let options : List String := []
    if active.Readonly = false then
      let options := options ++
        ["workdir=" ++ workPath o active.ID, "upperdir=" ++ upperPath o active.ID]
      let options := options ++ ["lowerdir=" ++ stringsJoin (parentPaths o active.ParentIDs) ":"]
      [{ Type_ := "overlay", Source := "overlay", Options := options }]
    else if active.ParentIDs.length = 1 then
      [{ Source := upperPath o (active.ParentIDs.getD 0 ""), Type_ := "bind",
         Options := ["ro", "rbind"] }]
    else
      let options := options ++ ["lowerdir=" ++ stringsJoin (parentPaths o active.ParentIDs) ":"]
      [{ Type_ := "overlay", Source := "overlay", Options := options }]

/-- Go `createActive` of overlay.go.  The metadata written inside the
transaction becomes the persisted metadata only when `t.Commit()` succeeds. -/
def createActive (o : snapshotter) (f : Faults) (ms : storage.MetaStore) (fs : DirFS)
    (key parent : String) (readonly : Bool) : Outcome DirFS (List Mount) :=
  let snapshotDir := Join [o.root, "snapshots"]
  match ioutilTempDir f fs snapshotDir "new-" with
  | (.error e, fs) => ⟨ms, fs, .unopened, .error (.wrap e "failed to create temp dir")⟩
  | (.ok td, fs) =>
    match osMkdirAll f.MkdirFs fs td "fs" with
    | (some e, fs) => ⟨ms, deferredRemove f fs td "", .unopened, .error e⟩
    | (none, fs) =>
      match (if readonly = false then osMkdirAll f.MkdirWork fs td "work" else (none, fs)) with
      | (some e, fs) => ⟨ms, deferredRemove f fs td "", .unopened, .error e⟩
      | (none, fs) =>
        match f.Begin with
        | some e => ⟨ms, deferredRemove f fs td "", .unopened, .error e⟩
        | none =>
          match storageCall f (storage.CreateActive ms key parent readonly) with
          | .error e =>
            ⟨ms, deferredRemove f fs td "", .rolledBack, .error (.wrap e "failed to create active")⟩
          | .ok (active, tx) =>
            let path := Join [snapshotDir, active.ID]
            match osRename f.Rename fs td path with
            | (some e, fs) =>
              ⟨ms, deferredRemove f fs td path, .rolledBack, .error (.wrap e "failed to rename")⟩
            | (none, fs) =>
              match f.Commit with
              | some e =>
                ⟨ms, deferredRemove f fs "" path, .commitFailed, .error (.wrap e "commit failed")⟩
              | none => ⟨tx, fs, .committed, .ok (mounts o active)⟩

/-- Go `Prepare` of overlay.go. -/
def Prepare (o : snapshotter) (f : Faults) (ms : storage.MetaStore) (fs : DirFS)
    (key parent : String) : Outcome DirFS (List Mount) :=
  createActive o f ms fs key parent false

/-- Go `View` of overlay.go. -/
def View (o : snapshotter) (f : Faults) (ms : storage.MetaStore) (fs : DirFS)
    (key parent : String) : Outcome DirFS (List Mount) :=
  createActive o f ms fs key parent true

/-- Go `Mounts` of overlay.go: a read-only transaction that is rolled back after
`storage.GetActive`. -/
def Mounts (o : snapshotter) (f : Faults) (ms : storage.MetaStore) (fs : DirFS)
    (key : String) : Outcome DirFS (List Mount) :=
  match f.Begin with
  | some e => ⟨ms, fs, .unopened, .error e⟩
  | none =>
    match storageCall f (storage.GetActive ms key) with
    | .error e => ⟨ms, fs, .rolledBack, .error (.wrap e "failed to get active mount")⟩
    | .ok active => ⟨ms, fs, .rolledBack, .ok (mounts o active)⟩

/-- Go `Commit` of overlay.go. -/
def Commit (_o : snapshotter) (f : Faults) (ms : storage.MetaStore) (fs : DirFS)
    (name key : String) : Outcome DirFS Unit :=
  match f.Begin with
  | some e => ⟨ms, fs, .unopened, .error e⟩
  | none =>
    match storageCall f (storage.CommitActive ms key name) with
    | .error e => ⟨ms, fs, .rolledBack, .error (.wrap e "failed to commit snapshot")⟩
    | .ok (_, tx) =>
      match f.Commit with
      | some e => ⟨ms, fs, .commitFailed, .error e⟩
      | none => ⟨tx, fs, .committed, .ok ()⟩

/-- Go `Remove` of overlay.go. -/
def Remove (o : snapshotter) (f : Faults) (ms : storage.MetaStore) (fs : DirFS)
    (key : String) : Outcome DirFS Unit :=
  match f.Begin with
  | some e => ⟨ms, fs, .unopened, .error e⟩
  | none =>
    match storageCall f (storage.Remove ms key) with
    | .error e => ⟨ms, fs, .rolledBack, .error (.wrap e "failed to remove")⟩
    | .ok (id, _, tx) =>
      let path := Join [o.root, "snapshots", id]
      let renamed := Join [o.root, "snapshots", "rm-" ++ id]
      match osRename f.Rename fs path renamed with
      | (some e, fs) => ⟨ms, fs, .rolledBack, .error (.wrap e "failed to rename")⟩
      | (none, fs) =>
        match f.Commit with
        | some e =>
          ⟨ms, (osRename f.RenameBack fs renamed path).2, .commitFailed,
            .error (.wrap e "failed to commit")⟩
        | none => ⟨tx, (osRemoveAll f.RemoveRenamed fs renamed).2, .committed, .ok ()⟩

/-- Go `Stat` of overlay.go: a read-only transaction that the deferred `t.Rollback()`
ends after `storage.GetInfo`. -/
def Stat (_o : snapshotter) (f : Faults) (ms : storage.MetaStore) (fs : DirFS)
    (key : String) : Outcome DirFS storage.Info :=
  match f.Begin with
  | some e => ⟨ms, fs, .unopened, .error e⟩
  | none => ⟨ms, fs, .rolledBack, storageCall f (storage.GetInfo ms key)⟩

end overlay

/-! ## naive -/

namespace naive

/-- The struct `snapshotter` of naive.go without its metadata store handle. -/
structure snapshotter where
  root : String

/-- Go `getSnapshotDir` of naive.go. -/
def getSnapshotDir (o : snapshotter) (id : String) : String :=
  Join [o.root, "snapshots", id]

/-- Go `mounts` of naive.go. -/
def mounts (o : snapshotter) (active : storage.Active) : List Mount :=
  let roFlag := if active.Readonly then "ro" else "rw"
  let source :=
    if active.ParentIDs.length = 0 ∨ active.Readonly = false then getSnapshotDir o active.ID
    else getSnapshotDir o (active.ParentIDs.getD 0 "")
  [{ Source := source, Type_ := "bind", Options := [roFlag, "rbind"] }]

/-- Go `createActive` of naive.go.  The deferred removal is registered only when
the temporary directory is made, and it looks at the function's own `err`: the
`err` of `fs.CopyDir`, `os.Rename` and `t.Commit` is declared in the `if`
statement, so after these three the deferred function finds `err == nil`.  After
a failed `fs.CopyDir` the function returns without `t.Rollback()`. -/
def createActive (o : snapshotter) (f : Faults) (ms : storage.MetaStore) (fs : DirFS)
    (key parent : String) (readonly : Bool) : Outcome DirFS (List Mount) :=
  let deferred : Bool := readonly = false ∨ parent = ""
  let made : Except Error String × DirFS :=
    if deferred then ioutilTempDir f fs (Join [o.root, "snapshots"]) "new-" else (.ok "", fs)
  match made with
  | (.error e, fs) => ⟨ms, fs, .unopened, .error (.wrap e "failed to create temp dir")⟩
  | (.ok td, fs) =>
    let onErr (fs : DirFS) : DirFS := if deferred then deferredRemove f fs td "" else fs
    match f.Begin with
    | some e => ⟨ms, onErr fs, .unopened, .error e⟩
    | none =>
      match storageCall f (storage.CreateActive ms key parent readonly) with
      | .error e => ⟨ms, onErr fs, .rolledBack, .error (.wrap e "failed to create active")⟩
      | .ok (active, tx) =>
        let commit (fs : DirFS) : Outcome DirFS (List Mount) :=
          match f.Commit with
          | some e => ⟨ms, fs, .commitFailed, .error (.wrap e "commit failed")⟩
          | none => ⟨tx, fs, .committed, .ok (mounts o active)⟩
        if td ≠ "" then
          let copied : Option Error × DirFS :=
            if active.ParentIDs.length > 0 then
              fsCopyDir f.CopyDir fs td (getSnapshotDir o (active.ParentIDs.getD 0 ""))
            else (none, fs)
          match copied with
          | (some e, fs) => ⟨ms, fs, .leftOpen, .error (.wrap e "copying of parent failed")⟩
          | (none, fs) =>
            let path := getSnapshotDir o active.ID
            match osRename f.Rename fs td path with
            | (some e, fs) => ⟨ms, fs, .rolledBack, .error (.wrap e "failed to rename")⟩
            | (none, fs) => commit fs
        else commit fs

/-- Go `Prepare` of naive.go. -/
def Prepare (o : snapshotter) (f : Faults) (ms : storage.MetaStore) (fs : DirFS)
    (key parent : String) : Outcome DirFS (List Mount) :=
  createActive o f ms fs key parent false

/-- Go `View` of naive.go. -/
def View (o : snapshotter) (f : Faults) (ms : storage.MetaStore) (fs : DirFS)
    (key parent : String) : Outcome DirFS (List Mount) :=
  createActive o f ms fs key parent true

/-- Go `Mounts` of naive.go. -/
def Mounts (o : snapshotter) (f : Faults) (ms : storage.MetaStore) (fs : DirFS)
    (key : String) : Outcome DirFS (List Mount) :=
  match f.Begin with
  | some e => ⟨ms, fs, .unopened, .error e⟩
  | none =>
    match storageCall f (storage.GetActive ms key) with
    | .error e => ⟨ms, fs, .rolledBack, .error (.wrap e "failed to get active mount")⟩
    | .ok active => ⟨ms, fs, .rolledBack, .ok (mounts o active)⟩

/-- Go `Commit` of naive.go. -/
def Commit (_o : snapshotter) (f : Faults) (ms : storage.MetaStore) (fs : DirFS)
    (name key : String) : Outcome DirFS Unit :=
  match f.Begin with
  | some e => ⟨ms, fs, .unopened, .error e⟩
  | none =>
    match storageCall f (storage.CommitActive ms key name) with
    | .error e => ⟨ms, fs, .rolledBack, .error (.wrap e "failed to commit snapshot")⟩
    | .ok (_, tx) =>
      match f.Commit with
      | some e => ⟨ms, fs, .commitFailed, .error e⟩
      | none => ⟨tx, fs, .committed, .ok ()⟩

/-- Go `Remove` of naive.go: a rename that fails because the directory does not
exist is skipped (`renamed = ""`). -/
def Remove (o : snapshotter) (f : Faults) (ms : storage.MetaStore) (fs : DirFS)
    (key : String) : Outcome DirFS Unit :=
  match f.Begin with
  | some e => ⟨ms, fs, .unopened, .error e⟩
  | none =>
    match storageCall f (storage.Remove ms key) with
    | .error e => ⟨ms, fs, .rolledBack, .error (.wrap e "failed to remove")⟩
    | .ok (id, _, tx) =>
      let path := getSnapshotDir o id
      let finish (fs : DirFS) (renamed : String) : Outcome DirFS Unit :=
        match f.Commit with
        | some e =>
          ⟨ms, if renamed ≠ "" then (osRename f.RenameBack fs renamed path).2 else fs,
            .commitFailed, .error (.wrap e "failed to commit")⟩
        | none =>
          ⟨tx, if renamed ≠ "" then (osRemoveAll f.RemoveRenamed fs renamed).2 else fs,
            .committed, .ok ()⟩
      let renamed := Join [o.root, "snapshots", "rm-" ++ id]
      match osRename f.Rename fs path renamed with
      | (some e, fs) =>
        if osIsNotExist e = false then ⟨ms, fs, .rolledBack, .error (.wrap e "failed to rename")⟩
        else finish fs ""
      | (none, fs) => finish fs renamed

/-- Go `Stat` of naive.go: a read-only transaction that the deferred `t.Rollback()`
ends after `storage.GetInfo`. -/
def Stat (_o : snapshotter) (f : Faults) (ms : storage.MetaStore) (fs : DirFS)
    (key : String) : Outcome DirFS storage.Info :=
  match f.Begin with
  | some e => ⟨ms, fs, .unopened, .error e⟩
  | none => ⟨ms, fs, .rolledBack, storageCall f (storage.GetInfo ms key)⟩

end naive

/-! ## btrfs -/

namespace btrfs

/-- Modelled from the spec: a volume of the copy-on-write backend (the binding
`go-btrfs` is not among the sources): its subvolume identifier, its read-only
flag and `tree`, which names the file tree it holds (a snapshot holds the tree
of its source). -/
structure Subvol where
  ID : Nat
  Readonly : Bool
  tree : Nat
deriving DecidableEq, Repr

/-- The volumes below the driver's root by path, and the next subvolume identifier
the filesystem hands out. -/
structure VolFS where
  vols : String → Option Subvol
  nextID : Nat

/-- The volumes with `path` set to `v`. -/
def VolFS.set (fs : VolFS) (path : String) (v : Option Subvol) : VolFS :=
  { fs with vols := fun q => if q = path then v else fs.vols q }

/-- Modelled from the spec: `btrfs.SubvolCreate(path)` ("btrfs subvolume create"),
a new empty writable volume; it fails when `path` is taken. -/
def SubvolCreate (fault : Option Error) (fs : VolFS) (path : String) : Option Error × VolFS :=
  match fault with
  | some e => (some e, fs)
  | none =>
    match fs.vols path with
    | some _ => (some .AlreadyExists, fs)
    | none =>
      (none, { (fs.set path (some ⟨fs.nextID, false, fs.nextID⟩)) with nextID := fs.nextID + 1 })

/-- Modelled from the spec: `btrfs.SubvolSnapshot(dst, src, readonly)` ("btrfs
subvolume snapshot"), a copy-on-write clone of `src` at `dst` with the given
read-only flag; it fails when `src` is missing or `dst` is taken. -/
def SubvolSnapshot (fault : Option Error) (fs : VolFS) (dst src : String) (readonly : Bool) :
    Option Error × VolFS :=
  match fs.vols src with
  | none => (some .NotExist, fs)
  | some v =>
    match fault with
    | some e => (some e, fs)
    | none =>
      match fs.vols dst with
      | some _ => (some .AlreadyExists, fs)
      | none =>
        (none, { (fs.set dst (some ⟨fs.nextID, readonly, v.tree⟩)) with nextID := fs.nextID + 1 })

/-- Modelled from the spec: `btrfs.SubvolDelete(path)`; it fails when there is no
volume at `path`. -/
def SubvolDelete (fault : Option Error) (fs : VolFS) (path : String) : Option Error × VolFS :=
  match fs.vols path with
  | none => (some .NotExist, fs)
  | some _ =>
    match fault with
    | some e => (some e, fs)
    | none => (none, fs.set path none)

/-- Modelled from the spec: `btrfs.SubvolInfo(path)`, the identifier and read-only
flag of the volume at `path`. -/
def SubvolInfo (fault : Option Error) (fs : VolFS) (path : String) : Except Error Subvol :=
  match fs.vols path with
  | none => .error .NotExist
  | some v =>
    match fault with
    | some e => .error e
    | none => .ok v

/-- The struct `Snapshotter` of btrfs.go without its metadata store handle. -/
structure Snapshotter where
  device : String
  root : String

/-- Go `mounts` of btrfs.go. -/
def mounts (b : Snapshotter) (f : Faults) (fs : VolFS) (dir : String) : Except Error (List Mount) :=
  let options : List String := []
  match SubvolInfo f.SubvolInfo fs dir with
  | .error e => .error e
  | .ok info =>
    let options := options ++ ["subvolid=" ++ Nat.repr info.ID]
    let options := if info.Readonly then options ++ ["ro"] else options
    .ok [{ Type_ := "btrfs", Source := b.device, Options := options }]

/-- Go `makeActive` of btrfs.go. -/
def makeActive (b : Snapshotter) (f : Faults) (ms : storage.MetaStore) (fs : VolFS)
    (key parent : String) (readonly : Bool) : Outcome VolFS (List Mount) :=
  match f.Begin with
  | some e => ⟨ms, fs, .unopened, .error e⟩
  | none =>
    match storageCall f (storage.CreateActive ms key parent readonly) with
    | .error e => ⟨ms, fs, .rolledBack, .error e⟩
    | .ok (a, tx) =>
      let target := Join [b.root, "active", a.ID]
      let made : Option Error × VolFS :=
        if a.ParentIDs.length = 0 then SubvolCreate f.SubvolCreate fs target
        else
          let parentp := Join [b.root, "snapshots", a.ParentIDs.getD 0 ""]
          SubvolSnapshot f.SubvolSnapshot fs target parentp a.Readonly
      match made with
      | (some e, fs) => ⟨ms, fs, .rolledBack, .error e⟩
      | (none, fs) =>
        match f.Commit with
        | some e => ⟨ms, (SubvolDelete f.SubvolCleanup fs target).2, .commitFailed, .error e⟩
        | none => ⟨tx, fs, .committed, mounts b f fs target⟩

/-- Go `Prepare` of btrfs.go. -/
def Prepare (b : Snapshotter) (f : Faults) (ms : storage.MetaStore) (fs : VolFS)
    (key parent : String) : Outcome VolFS (List Mount) :=
  makeActive b f ms fs key parent false

/-- Go `View` of btrfs.go. -/
def View (b : Snapshotter) (f : Faults) (ms : storage.MetaStore) (fs : VolFS)
    (key parent : String) : Outcome VolFS (List Mount) :=
  makeActive b f ms fs key parent true

/-- Go `Commit` of btrfs.go. -/
def Commit (b : Snapshotter) (f : Faults) (ms : storage.MetaStore) (fs : VolFS)
    (name key : String) : Outcome VolFS Unit :=
  match f.Begin with
  | some e => ⟨ms, fs, .unopened, .error e⟩
  | none =>
    match storageCall f (storage.CommitActive ms key name) with
    | .error e => ⟨ms, fs, .rolledBack, .error (.wrap e "failed to commit")⟩
    | .ok (id, tx) =>
      let source := Join [b.root, "active", id]
      let target := Join [b.root, "snapshots", id]
      match SubvolSnapshot f.SubvolSnapshot fs target source true with
      | (some e, fs) => ⟨ms, fs, .rolledBack, .error e⟩
      | (none, fs) =>
        match f.Commit with
        | some e => ⟨ms, (SubvolDelete f.SubvolCleanup fs target).2, .commitFailed, .error e⟩
        | none => ⟨tx, (SubvolDelete f.SubvolDelete fs source).2, .committed, .ok ()⟩

/-- Go `Mounts` of btrfs.go. -/
def Mounts (b : Snapshotter) (f : Faults) (ms : storage.MetaStore) (fs : VolFS)
    (key : String) : Outcome VolFS (List Mount) :=
  match f.Begin with
  | some e => ⟨ms, fs, .unopened, .error e⟩
  | none =>
    match storageCall f (storage.GetActive ms key) with
    | .error e => ⟨ms, fs, .rolledBack, .error (.wrap e "failed to get active snapshot")⟩
    | .ok a => ⟨ms, fs, .rolledBack, mounts b f fs (Join [b.root, "active", a.ID])⟩

/-- Go `Remove` of btrfs.go.  The deferred function rolls the transaction back when
`err` is set and `t` is not yet `nil`, and deletes `removed` when it is not `""`. -/
def Remove (b : Snapshotter) (f : Faults) (ms : storage.MetaStore) (fs : VolFS)
    (key : String) : Outcome VolFS Unit :=
  match f.Begin with
  | some e => ⟨ms, fs, .unopened, .error e⟩
  | none =>
    match storageCall f (storage.Remove ms key) with
    | .error e => ⟨ms, fs, .rolledBack, .error (.wrap e "failed to remove snapshot")⟩
    | .ok (id, k, tx) =>
      let rest (source removed : String) (readonly : Bool) : Outcome VolFS Unit :=
        match SubvolSnapshot f.SubvolSnapshot fs removed source readonly with
        | (some e, fs) => ⟨ms, fs, .rolledBack, .error e⟩
        | (none, fs) =>
          match SubvolDelete f.SubvolDelete fs source with
          | (some e, fs) =>
            ⟨ms, (SubvolDelete f.SubvolCleanup fs removed).2, .rolledBack,
              .error (.wrap e "failed to remove snapshot")⟩
          | (none, fs) =>
            match f.Commit with
            | some e =>
              match SubvolSnapshot f.SubvolRestore fs source removed readonly with
              | (some _, fs) => ⟨ms, fs, .commitFailed, .error e⟩
              | (none, fs) =>
                ⟨ms, (SubvolDelete f.SubvolCleanup fs removed).2, .commitFailed, .error e⟩
            | none => ⟨tx, (SubvolDelete f.SubvolCleanup fs removed).2, .committed, .ok ()⟩
      if k = .KindActive then
        let source := Join [b.root, "active", id]
        match SubvolInfo f.SubvolInfo fs source with
        | .error e => ⟨ms, fs, .rolledBack, .error e⟩
        | .ok info => rest source (Join [b.root, "active", "rm-" ++ id]) info.Readonly
      else
        rest (Join [b.root, "snapshots", id]) (Join [b.root, "snapshots", "rm-" ++ id]) true

/-- Go `Stat` of btrfs.go: a read-only transaction that the deferred `t.Rollback()`
ends after `storage.GetInfo`. -/
def Stat (_b : Snapshotter) (f : Faults) (ms : storage.MetaStore) (fs : VolFS)
    (key : String) : Outcome VolFS storage.Info :=
  match f.Begin with
  | some e => ⟨ms, fs, .unopened, .error e⟩
  | none => ⟨ms, fs, .rolledBack, storageCall f (storage.GetInfo ms key)⟩

end btrfs


/-! ## plugin -/

namespace plugin

/-- Go `PluginType` of plugin.go. -/
inductive PluginType where
  | RuntimePlugin
  | GRPCPlugin
  | SnapshotPlugin
  | ContainerMonitorPlugin
deriving DecidableEq, Repr

/-- The struct `Registration` of plugin.go.  `Config` is a value and `Init` a
function of the registering package; a number names each. -/
structure Registration where
  Type_ : PluginType
  Config : Nat
  Init : Nat
deriving DecidableEq, Repr

/-- A Go value that is not an `error`: a string or an integer. -/
inductive Value where
  | str (s : String)
  | int (n : Int)
deriving DecidableEq, Repr

/-- Go `error` values as plugin.go makes and passes them: the result of
`fmt.Errorf(format, arg)`, kept with its format and argument, or an error of
another package, named by its message. -/
inductive error where
  | Errorf (format : String) (arg : Value)
  | other (msg : String)
deriving DecidableEq, Repr

/-- A Go `interface{}` value: `nil`, an `error`, or another value. -/
inductive Any where
  | nil
  | err (e : error)
  | val (v : Value)
deriving DecidableEq, Repr

/-- How the call of a function with the result type `error` ends: it returns its
result (`none`: the nil error), or it panics with a value. -/
inductive Completion where
  | returns (err : Option error)
  | panics (v : Any)
deriving DecidableEq, Repr

/-- Go `recover()` in a deferred function: the value `panic` was called with, which
stops the panic; `nil` when the function is not panicking. -/
def recover (body : Completion) : Any :=
  match body with
  | .returns _ => .nil
  | .panics v => v

/-- Go `Load` of plugin.go.  `loadPlugins` is not among the sources: `body` is how
its call ends.  The named result `err` holds what `return loadPlugins(path)`
stored, or nil when that call panicked; the deferred function then runs: with
`v := recover()` it does nothing when `v == nil`, and else sets `err` to `v` if
`v` is an error and to `fmt.Errorf("%s", v)` if not.  Since it has called
`recover()`, `Load` returns `err`. -/
def Load (body : Completion) : Completion :=
  let err : Option error :=
    match body with
    | .returns r => r
    | .panics _ => none
  let err : Option error :=
    match recover body with
    | .nil => err
    | .err e => some e
    | .val x => some (.Errorf "%s" x)
  .returns err

/-- The map `register.r` of plugin.go: a name is absent (`none`) or maps to a
`*Registration`, which may be the nil pointer (`some none`). -/
abbrev Registry := String → Option (Option Registration)

/-- Go `Register` of plugin.go: the registry afterwards and the returned error.
The mutex is held for the whole call. -/
def Register (reg : Registry) (name : String) (r : Option Registration) :
    Registry × Option error :=
  match reg name with
  | some _ => (reg, some (.Errorf "plugin already registered as %q" (.str name)))
  | none => (fun k => if k = name then some r else reg k, none)

/-- Go `Registrations` of plugin.go. -/
def Registrations (reg : Registry) : Registry := reg

end plugin

/-! ## windows -/

namespace windows

/-- The struct `container` of package windows (container.go is not among the
sources), named by the ID it was created with. -/
structure container where
  id : String
deriving DecidableEq, Repr

/-- The errors `ctx.Err()` gives for a context that is done. -/
inductive ctxErr where
  | Canceled
  | DeadlineExceeded
deriving DecidableEq, Repr

/-- The loop `for _, c := range r.containers` of `Containers`: `containers` lists
the entries of the map in the order `range` visits them, `done` is the state of
`ctx.Done()` (`none`: not done), `list` the slice built so far. -/
def containersLoop (done : Option ctxErr) :
    List (String × container) → List (Option container) → Except ctxErr (List (Option container))
  | [], list => .ok list
  | (_, c) :: rest, list =>
    match done with
    | some e => .error e
    | none => containersLoop done rest (list ++ [some c])

/-- Go `Containers` of runtime.go.  An entry of the result is a
`containerd.Container` interface value: `none` is nil.
`make([]containerd.Container, len(r.containers))` is a slice of that many nil
entries. -/
def Containers (containers : List (String × container)) (done : Option ctxErr) :
    Except ctxErr (List (Option container)) :=
  let list : List (Option container) := List.replicate containers.length none
  containersLoop done containers list

end windows

/-! ## descriptor: the generated `Marshal`, `Size` and `Unmarshal` -/

namespace descriptor

/-- The struct `Descriptor` of descriptor.pb.go.  A Go string is the list of its
bytes, each a number below 256; `MediaSize` is an `int64`. -/
structure Descriptor where
  MediaType : List Nat
  Digest : List Nat
  MediaSize : Int
deriving DecidableEq, Repr

/-- Go `uint8(x)`. -/
def uint8 (x : Nat) : Nat := x % 2 ^ 8

/-- Go `uint64(x)` of an `int64` or `int`: the bits in two's complement. -/
def uint64 (x : Int) : Nat := (x % 2 ^ 64).toNat

/-- Go `int64(x)` and, on a 64-bit platform, `int(x)` of a `uint64`. -/
def int64 (x : Nat) : Int :=
  if x % 2 ^ 64 < 2 ^ 63 then ((x % 2 ^ 64 : Nat) : Int) else ((x % 2 ^ 64 : Nat) : Int) - 2 ^ 64

/-- Go `int32(x)` of a `uint64`. -/
def int32 (x : Nat) : Int :=
  if x % 2 ^ 32 < 2 ^ 31 then ((x % 2 ^ 32 : Nat) : Int) else ((x % 2 ^ 32 : Nat) : Int) - 2 ^ 32

/-- The value an `int` holds after an addition whose exact result is `x`: the
result wraps around at 64 bits. -/
def wrapInt (x : Int) : Int := int64 (uint64 x)

/-- The errors `Unmarshal` and `skipDescriptor` return. -/
inductive Err where
  | ErrInvalidLengthDescriptor
  | ErrIntOverflowDescriptor
  | ErrUnexpectedEOF
  | Errorf (format : String) (args : List Int)
deriving DecidableEq, Repr

/-- The run-time panics of indexing and slicing, and `panic("unreachable")`. -/
inductive Panic where
  | indexOutOfRange (i : Int) (len : Nat)
  | sliceBoundsOutOfRange (lo hi : Int) (cap : Nat)
  | unreachable
deriving DecidableEq, Repr

/-- How a call ends: with a value, with an error, with a panic, or not within the
rounds the model allows its loops. -/
inductive Res (α : Type) where
  | ok (a : α)
  | error (e : Err)
  | panic (p : Panic)
  | outOfFuel
deriving DecidableEq, Repr

/-- The rest of a computation after a step that ended with a value. -/
def Res.bind {α β : Type} (r : Res α) (k : α → Res β) : Res β :=
  match r with
  | .ok a => k a
  | .error e => .error e
  | .panic p => .panic p
  | .outOfFuel => .outOfFuel

/-- The loop of Go `sovDescriptor`: `for { n++; x >>= 7; if x == 0 { break } }`.
A `uint64` is 0 after ten rounds at the latest. -/
def sovLoop : Nat → Nat → Nat → Nat
  | 0, _, n => n
  | fuel + 1, x, n =>
    let n := n + 1
    let x := x >>> 7
    if x = 0 then n else sovLoop fuel x n

/-- Go `sovDescriptor`. -/
def sovDescriptor (x : Nat) : Nat := sovLoop 10 x 0

/-- Go `Size` of descriptor.pb.go.  The sum is taken as it is: a slice of
`2 ^ 63` bytes or more cannot be made. -/
def Size (m : Descriptor) : Nat :=
  let n := 0
  let l := m.MediaType.length
  let n := if l > 0 then n + (1 + l + sovDescriptor l) else n
  let l := m.Digest.length
  let n := if l > 0 then n + (1 + l + sovDescriptor l) else n
  let n := if m.MediaSize ≠ 0 then n + (1 + sovDescriptor (uint64 m.MediaSize)) else n
  n

/-- The assignment `dAtA[i] = b`. -/
def store (dAtA : List Nat) (i : Nat) (b : Nat) : Res (List Nat) :=
  if i < dAtA.length then .ok (dAtA.set i b) else .panic (.indexOutOfRange i dAtA.length)

/-- Go `copy(dAtA[i:], s)`: the slice afterwards and the number of bytes copied. -/
def copyAt (dAtA : List Nat) (i : Nat) (s : List Nat) : Res (List Nat × Nat) :=
  if i ≤ dAtA.length then
    let n := min (dAtA.length - i) s.length
    .ok (dAtA.take i ++ s.take n ++ dAtA.drop (i + n), n)
  else .panic (.sliceBoundsOutOfRange i dAtA.length dAtA.length)

/-- Go `encodeVarintDescriptor`: the slice afterwards and the returned offset. -/
def encodeVarintDescriptor : Nat → List Nat → Nat → Nat → Res (List Nat × Nat)
  | 0, _, _, _ => .outOfFuel
  | fuel + 1, dAtA, offset, v =>
    if v ≥ 1 <<< 7 then
      (store dAtA offset (uint8 ((v &&& 0x7f) ||| 0x80))).bind fun dAtA =>
        encodeVarintDescriptor fuel dAtA (offset + 1) (v >>> 7)
    else
      (store dAtA offset (uint8 v)).bind fun dAtA => .ok (dAtA, offset + 1)

/-- Go `MarshalTo` of descriptor.pb.go: the slice afterwards and the returned
count.  A `uint64` takes at most ten bytes. -/
def MarshalTo (m : Descriptor) (dAtA : List Nat) : Res (List Nat × Nat) :=
  let i := 0
  (if m.MediaType.length > 0 then
    (store dAtA i 0xa).bind fun dAtA =>
    (encodeVarintDescriptor 10 dAtA (i + 1) m.MediaType.length).bind fun (dAtA, i) =>
    (copyAt dAtA i m.MediaType).bind fun (dAtA, n) => .ok (dAtA, i + n)
  else .ok (dAtA, i)).bind fun (dAtA, i) =>
  (if m.Digest.length > 0 then
    (store dAtA i 0x12).bind fun dAtA =>
    (encodeVarintDescriptor 10 dAtA (i + 1) m.Digest.length).bind fun (dAtA, i) =>
    (copyAt dAtA i m.Digest).bind fun (dAtA, n) => .ok (dAtA, i + n)
  else .ok (dAtA, i)).bind fun (dAtA, i) =>
  if m.MediaSize ≠ 0 then
    (store dAtA i 0x18).bind fun dAtA =>
    encodeVarintDescriptor 10 dAtA (i + 1) (uint64 m.MediaSize)
  else .ok (dAtA, i)

/-- Go `Marshal` of descriptor.pb.go. -/
def Marshal (m : Descriptor) : Res (List Nat) :=
  let size := Size m
  let dAtA := List.replicate size 0
  (MarshalTo m dAtA).bind fun (dAtA, n) =>
    if n ≤ dAtA.length then .ok (dAtA.take n)
    else .panic (.sliceBoundsOutOfRange 0 n dAtA.length)

/-- The expression `dAtA[i]`. -/
def index (dAtA : List Nat) (i : Int) : Res Nat :=
  if 0 ≤ i ∧ i < dAtA.length then .ok (dAtA.getD i.toNat 0)
  else .panic (.indexOutOfRange i dAtA.length)

/-- The expression `dAtA[lo:hi]`. -/
def slice (dAtA : List Nat) (lo hi : Int) : Res (List Nat) :=
  if 0 ≤ lo ∧ lo ≤ hi ∧ hi ≤ dAtA.length then
    .ok ((dAtA.drop lo.toNat).take (hi - lo).toNat)
  else .panic (.sliceBoundsOutOfRange lo hi dAtA.length)

/-- The loop `for shift := uint(0); ; shift += 7 { ... }` that reads a varint, as
it stands in `Unmarshal` and `skipDescriptor`: the bits read (as a `uint64`; an
`int` or `int64` accumulator holds the same bits) and the index after it.  The
loop leaves at the eleventh round at the latest. -/
def readVarint (dAtA : List Nat) (l : Int) : Nat → Nat → Int → Nat → Res (Nat × Int)
  | 0, _, _, _ => .outOfFuel
  | fuel + 1, shift, iNdEx, acc =>
    if shift ≥ 64 then .error .ErrIntOverflowDescriptor
    else if iNdEx ≥ l then .error .ErrUnexpectedEOF
    else
      (index dAtA iNdEx).bind fun b =>
      let iNdEx := iNdEx + 1
      let acc := acc ||| (((b &&& 0x7F) <<< shift) % 2 ^ 64)
      if b < 0x80 then .ok (acc, iNdEx)
      else readVarint dAtA l fuel (shift + 7) iNdEx acc

/-- The loop of case 0 of `skipDescriptor`, which steps over a varint. -/
def skipVarint (dAtA : List Nat) (l : Int) : Nat → Nat → Int → Res Int
  | 0, _, _ => .outOfFuel
  | fuel + 1, shift, iNdEx =>
    if shift ≥ 64 then .error .ErrIntOverflowDescriptor
    else if iNdEx ≥ l then .error .ErrUnexpectedEOF
    else
      let iNdEx := iNdEx + 1
      (index dAtA (iNdEx - 1)).bind fun b =>
      if b < 0x80 then .ok iNdEx
      else skipVarint dAtA l fuel (shift + 7) iNdEx

/-- Go `skipDescriptor`.  With `group = none` it is the call `skipDescriptor(dAtA)`
from its start; with `group = some iNdEx` it is the loop of case 3 (a group) at
its head, inside the call for `dAtA`. -/
def skipDescriptor : Nat → List Nat → Option Int → Res Int
  | 0, _, _ => .outOfFuel
  | fuel + 1, dAtA, none =>
    let l : Int := dAtA.length
    let iNdEx : Int := 0
    if iNdEx < l then
      (readVarint dAtA l 11 0 iNdEx 0).bind fun (wire, iNdEx) =>
      let wireType := wire &&& 0x7
      match wireType with
      | 0 => skipVarint dAtA l 11 0 iNdEx
      | 1 => .ok (wrapInt (iNdEx + 8))
      | 2 =>
        (readVarint dAtA l 11 0 iNdEx 0).bind fun (length, iNdEx) =>
        let length := int64 length
        let iNdEx := wrapInt (iNdEx + length)
        if length < 0 then .error .ErrInvalidLengthDescriptor else .ok iNdEx
      | 3 => skipDescriptor fuel dAtA (some iNdEx)
      | 4 => .ok iNdEx
      | 5 => .ok (wrapInt (iNdEx + 4))
      | _ => .error (.Errorf "proto: illegal wireType %d" [wireType])
    else .panic .unreachable
  | fuel + 1, dAtA, some iNdEx =>
    let l : Int := dAtA.length
    let start := iNdEx
    (readVarint dAtA l 11 0 iNdEx 0).bind fun (innerWire, iNdEx) =>
    let innerWireType := innerWire &&& 0x7
    if innerWireType = 4 then .ok iNdEx
    else
      (slice dAtA start dAtA.length).bind fun sub =>
      (skipDescriptor fuel sub none).bind fun next =>
      skipDescriptor fuel dAtA (some (wrapInt (start + next)))

/-- The loop `for iNdEx < l { ... }` of Go `Unmarshal` and the check after it. -/
def unmarshalLoop (dAtA : List Nat) : Nat → Descriptor → Int → Res Descriptor
  | 0, _, _ => .outOfFuel
  | fuel + 1, m, iNdEx =>
    let l : Int := dAtA.length
    if iNdEx < l then
      let preIndex := iNdEx
      (readVarint dAtA l 11 0 iNdEx 0).bind fun (wire, iNdEx) =>
      let fieldNum := int32 (wire >>> 3)
      let wireType := wire &&& 0x7
      if wireType = 4 then
        .error (.Errorf "proto: Descriptor: wiretype end group for non-group" [])
      else if fieldNum ≤ 0 then
        .error (.Errorf "proto: Descriptor: illegal tag %d (wire type %d)" [fieldNum, wire])
      else if fieldNum = 1 then
        if wireType ≠ 2 then
          .error (.Errorf "proto: wrong wireType = %d for field MediaType" [wireType])
        else
          (readVarint dAtA l 11 0 iNdEx 0).bind fun (stringLen, iNdEx) =>
          let intStringLen := int64 stringLen
          if intStringLen < 0 then .error .ErrInvalidLengthDescriptor
          else
            let postIndex := wrapInt (iNdEx + intStringLen)
            if postIndex > l then .error .ErrUnexpectedEOF
            else
              (slice dAtA iNdEx postIndex).bind fun s =>
              unmarshalLoop dAtA fuel { m with MediaType := s } postIndex
      else if fieldNum = 2 then
        if wireType ≠ 2 then
          .error (.Errorf "proto: wrong wireType = %d for field Digest" [wireType])
        else
          (readVarint dAtA l 11 0 iNdEx 0).bind fun (stringLen, iNdEx) =>
          let intStringLen := int64 stringLen
          if intStringLen < 0 then .error .ErrInvalidLengthDescriptor
          else
            let postIndex := wrapInt (iNdEx + intStringLen)
            if postIndex > l then .error .ErrUnexpectedEOF
            else
              (slice dAtA iNdEx postIndex).bind fun s =>
              unmarshalLoop dAtA fuel { m with Digest := s } postIndex
      else if fieldNum = 3 then
        if wireType ≠ 0 then
          .error (.Errorf "proto: wrong wireType = %d for field MediaSize" [wireType])
        else
          (readVarint dAtA l 11 0 iNdEx 0).bind fun (bits, iNdEx) =>
          unmarshalLoop dAtA fuel { m with MediaSize := int64 bits } iNdEx
      else
        let iNdEx := preIndex
        (slice dAtA iNdEx dAtA.length).bind fun sub =>
        (skipDescriptor (2 * sub.length + 4) sub none).bind fun skippy =>
        if skippy < 0 then .error .ErrInvalidLengthDescriptor
        else if wrapInt (iNdEx + skippy) > l then .error .ErrUnexpectedEOF
        else unmarshalLoop dAtA fuel m (wrapInt (iNdEx + skippy))
    else if iNdEx > l then .error .ErrUnexpectedEOF
    else .ok m

/-- Go `Unmarshal` of descriptor.pb.go, called on the descriptor `m`.  Every round
of the loop that does not end the call moves the index forward, so it takes at
most one round per byte. -/
def Unmarshal (m : Descriptor) (dAtA : List Nat) : Res Descriptor :=
  unmarshalLoop dAtA (dAtA.length + 1) m 0

end descriptor

/-! ## Auxiliary notions for the proofs -/

/-- A path element that `filepath.Clean` keeps as it is: not empty, without `/`,
and neither `.` nor `..`. -/
def plainElem (e : List Char) : Prop :=
  e ≠ [] ∧ '/' ∉ e ∧ e ≠ ['.'] ∧ e ≠ ['.', '.']

/-- The stacks `filepath.Clean` can have written: every element is non-empty,
without `/` and not `.`; a `..` stands only in an unrooted path, on top of
nothing or of another `..`. -/
def cleanStack (rooted : Bool) : List (List Char) → Prop
  | [] => True
  | e :: st =>
    e ≠ [] ∧ e ≠ ['.'] ∧ '/' ∉ e ∧
      (e = ['.', '.'] → rooted = false ∧ (st = [] ∨ st.head? = some ['.', '.'])) ∧
      cleanStack rooted st

/-- The stack `filepath.Clean` has written when it reaches the end of `p`. -/
def cleanOut (p : List Char) : List (List Char) :=
  (splitSep p).foldl (cleanStep (decide (p.head? = some '/'))) []

/-- The path `filepath.Clean` returns for a non-empty stack: the elements, oldest
first, joined by `/`, after the leading `/` of a rooted path. -/
def renderOut (rooted : Bool) (out : List (List Char)) : List Char :=
  if rooted then '/' :: joinSep out.reverse else joinSep out.reverse

/-! ## Sequences of calls on a driver -/

/-- A call of one of the operations of a driver, with its arguments. -/
inductive Call where
  | Prepare (key parent : String)
  | View (key parent : String)
  | Commit (name key : String)
  | Remove (key : String)
  | Mounts (key : String)
  | Stat (key : String)
deriving DecidableEq, Repr

/-- The call is neither a `Commit` nor a `Remove` of `key`. -/
def Call.spares (key : String) : Call → Bool
  | .Commit _ k => decide (k ≠ key)
  | .Remove k => decide (k ≠ key)
  | _ => true

/-- The persisted metadata and the filesystem after one call of the overlay driver
in its environment, whether the call succeeds or fails. -/
def overlay.after (o : overlay.snapshotter) (s : storage.MetaStore × DirFS)
    (c : Faults × Call) : storage.MetaStore × DirFS :=
  match c.2 with
  | .Prepare key parent =>
    ((overlay.Prepare o c.1 s.1 s.2 key parent).ms, (overlay.Prepare o c.1 s.1 s.2 key parent).fs)
  | .View key parent =>
    ((overlay.View o c.1 s.1 s.2 key parent).ms, (overlay.View o c.1 s.1 s.2 key parent).fs)
  | .Commit name key =>
    ((overlay.Commit o c.1 s.1 s.2 name key).ms, (overlay.Commit o c.1 s.1 s.2 name key).fs)
  | .Remove key => ((overlay.Remove o c.1 s.1 s.2 key).ms, (overlay.Remove o c.1 s.1 s.2 key).fs)
  | .Mounts key => ((overlay.Mounts o c.1 s.1 s.2 key).ms, (overlay.Mounts o c.1 s.1 s.2 key).fs)
  | .Stat key => ((overlay.Stat o c.1 s.1 s.2 key).ms, (overlay.Stat o c.1 s.1 s.2 key).fs)

/-- The state after a sequence of calls of the overlay driver, each in its own
environment. -/
def overlay.run (o : overlay.snapshotter) (s : storage.MetaStore × DirFS)
    (calls : List (Faults × Call)) : storage.MetaStore × DirFS :=
  calls.foldl (overlay.after o) s

/-- The persisted metadata and the filesystem after one call of the naive driver in
its environment, whether the call succeeds or fails. -/
def naive.after (o : naive.snapshotter) (s : storage.MetaStore × DirFS)
    (c : Faults × Call) : storage.MetaStore × DirFS :=
  match c.2 with
  | .Prepare key parent =>
    ((naive.Prepare o c.1 s.1 s.2 key parent).ms, (naive.Prepare o c.1 s.1 s.2 key parent).fs)
  | .View key parent =>
    ((naive.View o c.1 s.1 s.2 key parent).ms, (naive.View o c.1 s.1 s.2 key parent).fs)
  | .Commit name key =>
    ((naive.Commit o c.1 s.1 s.2 name key).ms, (naive.Commit o c.1 s.1 s.2 name key).fs)
  | .Remove key => ((naive.Remove o c.1 s.1 s.2 key).ms, (naive.Remove o c.1 s.1 s.2 key).fs)
  | .Mounts key => ((naive.Mounts o c.1 s.1 s.2 key).ms, (naive.Mounts o c.1 s.1 s.2 key).fs)
  | .Stat key => ((naive.Stat o c.1 s.1 s.2 key).ms, (naive.Stat o c.1 s.1 s.2 key).fs)

/-- The state after a sequence of calls of the naive driver, each in its own
environment. -/
def naive.run (o : naive.snapshotter) (s : storage.MetaStore × DirFS)
    (calls : List (Faults × Call)) : storage.MetaStore × DirFS :=
  calls.foldl (naive.after o) s

/-! ## Where the storage of a recorded ID lies -/

/-- The identifiers of a store are the decimal numerals of numbers the store has
handed out, and no two records share one. -/
def storage.WellFormed (ms : storage.MetaStore) : Prop :=
  (∀ a ∈ ms.active, ∃ n, n ≤ ms.seq ∧ a.ID = Nat.repr n) ∧
  (∀ c ∈ ms.committed, ∃ n, n ≤ ms.seq ∧ c.ID = Nat.repr n) ∧
  (∀ a ∈ ms.active, ∀ b ∈ ms.active, a.ID = b.ID → a = b) ∧
  (∀ c ∈ ms.committed, ∀ d ∈ ms.committed, c.ID = d.ID → c = d) ∧
  (∀ a ∈ ms.active, ∀ c ∈ ms.committed, a.ID ≠ c.ID)

/-- overlay keeps Active and Committed snapshots in the one area `snapshots`: every
recorded ID has its directory `<root>/snapshots/<ID>`. -/
def overlay.Consistent (o : overlay.snapshotter) (ms : storage.MetaStore) (fs : DirFS) : Prop :=
  storage.WellFormed ms ∧
  (∀ a ∈ ms.active, (fs (Join [o.root, "snapshots", a.ID])).isSome = true) ∧
  (∀ c ∈ ms.committed, (fs (Join [o.root, "snapshots", c.ID])).isSome = true)

/-- naive keeps Active and Committed snapshots in the one area `snapshots`: every
recorded ID has its directory `<root>/snapshots/<ID>`, except the Readonly Active
records with a parent, which have none; and no directory stands at the place of
an ID that was not handed out yet. -/
def naive.Consistent (o : naive.snapshotter) (ms : storage.MetaStore) (fs : DirFS) : Prop :=
  storage.WellFormed ms ∧
  (∀ a ∈ ms.active, (a.Readonly = false ∨ a.ParentIDs = []) →
    (fs (Join [o.root, "snapshots", a.ID])).isSome = true) ∧
  (∀ a ∈ ms.active, a.Readonly = true → a.ParentIDs ≠ [] →
    fs (Join [o.root, "snapshots", a.ID]) = none) ∧
  (∀ c ∈ ms.committed, (fs (Join [o.root, "snapshots", c.ID])).isSome = true) ∧
  (∀ n, ms.seq < n → fs (Join [o.root, "snapshots", Nat.repr n]) = none)

/-- btrfs keeps the volume of an Active record at `<root>/active/<ID>` and the
volume of a Committed record at `<root>/snapshots/<ID>`: every recorded ID has
the one and not the other; and no volume stands at the place of an ID that was
not handed out yet. -/
def btrfs.Consistent (b : btrfs.Snapshotter) (ms : storage.MetaStore) (fs : btrfs.VolFS) : Prop :=
  storage.WellFormed ms ∧
  (∀ a ∈ ms.active, (fs.vols (Join [b.root, "active", a.ID])).isSome = true ∧
    fs.vols (Join [b.root, "snapshots", a.ID]) = none) ∧
  (∀ c ∈ ms.committed, (fs.vols (Join [b.root, "snapshots", c.ID])).isSome = true ∧
    fs.vols (Join [b.root, "active", c.ID]) = none) ∧
  (∀ n, ms.seq < n → fs.vols (Join [b.root, "active", Nat.repr n]) = none ∧
    fs.vols (Join [b.root, "snapshots", Nat.repr n]) = none)

/-! ## The wire format of a descriptor -/

/-- The varint of `v`: its base-128 digits, least significant first, each but the
last with the bit `0x80` set. -/
def descriptor.varintBytes (v : Nat) : List Nat :=
  if v < 128 then [v] else (v % 128 + 128) :: descriptor.varintBytes (v / 128)
decreasing_by omega

/-- The field of a string on the wire: nothing for the empty string, else the
tag, the varint of the length and the bytes. -/
def descriptor.stringField (tag : Nat) (s : List Nat) : List Nat :=
  if s.length > 0 then tag :: (descriptor.varintBytes s.length ++ s) else []

/-- The field `MediaSize` on the wire: nothing for 0, else the tag and the varint
of the 64 bits. -/
def descriptor.sizeField (x : Int) : List Nat :=
  if x ≠ 0 then 0x18 :: descriptor.varintBytes (descriptor.uint64 x) else []

/-- The bytes of a descriptor on the wire: the fields `MediaType`, `Digest` and
`MediaSize` in this order. -/
def descriptor.wireBytes (m : descriptor.Descriptor) : List Nat :=
  descriptor.stringField 0xa m.MediaType ++
    (descriptor.stringField 0x12 m.Digest ++ descriptor.sizeField m.MediaSize)

/-! ## Mount specifications: overlay -/

theorem foldl_set_range_aux {β : Type} (g : Nat → β) (d : β) (n : Nat) :
    ∀ k, k ≤ n →
      (List.range k).foldl (fun acc i => acc.set i (g i)) (List.replicate n d) =
        (List.range k).map g ++ List.replicate (n - k) d := by
  intro k
  induction k with
  | zero => intro _; simp
  | succ k ih =>
    intro hk
    have hk1 : k ≤ n := Nat.le_of_succ_le hk
    rw [List.range_succ, List.foldl_append, ih hk1]
    obtain ⟨j, hj⟩ : ∃ j, n - k = j + 1 := ⟨n - k - 1, by omega⟩
    have hj2 : n - (k + 1) = j := by omega
    simp [hj, hj2, List.replicate_succ, List.set_append]

theorem parentPaths_eq_map (o : overlay.snapshotter) (ids : List String) :
    overlay.parentPaths o ids = ids.map (overlay.upperPath o) := by
  unfold overlay.parentPaths
  rw [foldl_set_range_aux (fun i => overlay.upperPath o (ids.getD i "")) "" ids.length ids.length
    (Nat.le_refl _)]
  simp only [Nat.sub_self, List.replicate_zero, List.append_nil]
  apply List.ext_getElem
  · simp
  · intro i h1 h2
    simp at h1
    simp [List.getElem?_eq_getElem h1]

theorem overlay_mounts_noparents (o : overlay.snapshotter) (active : storage.Active)
    (h : active.ParentIDs = []) :
    overlay.mounts o active =
      [⟨"bind", Join [o.root, "snapshots", active.ID, "fs"],
        [if active.Readonly then "ro" else "rw", "rbind"]⟩] := by
  simp [overlay.mounts, h, overlay.upperPath]

theorem overlay_mounts_mutable (o : overlay.snapshotter) (active : storage.Active)
    (h : active.ParentIDs ≠ []) (hro : active.Readonly = false) :
    overlay.mounts o active =
      [⟨"overlay", "overlay",
        ["workdir=" ++ Join [o.root, "snapshots", active.ID, "work"],
         "upperdir=" ++ Join [o.root, "snapshots", active.ID, "fs"],
         "lowerdir=" ++
           stringsJoin (active.ParentIDs.map (fun id => Join [o.root, "snapshots", id, "fs"])) ":"]⟩] := by
  have hlen : active.ParentIDs.length ≠ 0 := fun h0 => h (List.length_eq_zero.mp h0)
  have hpp : overlay.parentPaths o active.ParentIDs =
      active.ParentIDs.map (fun id => Join [o.root, "snapshots", id, "fs"]) :=
    parentPaths_eq_map o active.ParentIDs
  simp [overlay.mounts, hlen, hro, hpp, overlay.upperPath, overlay.workPath]

theorem overlay_mounts_view_one (o : overlay.snapshotter) (active : storage.Active) (p : String)
    (h : active.ParentIDs = [p]) (hro : active.Readonly = true) :
    overlay.mounts o active =
      [⟨"bind", Join [o.root, "snapshots", p, "fs"], ["ro", "rbind"]⟩] := by
  simp [overlay.mounts, h, hro, overlay.upperPath]

theorem overlay_mounts_view_many (o : overlay.snapshotter) (active : storage.Active)
    (h : 2 ≤ active.ParentIDs.length) (hro : active.Readonly = true) :
    overlay.mounts o active =
      [⟨"overlay", "overlay",
        ["lowerdir=" ++
           stringsJoin (active.ParentIDs.map (fun id => Join [o.root, "snapshots", id, "fs"])) ":"]⟩] := by
  have hlen : active.ParentIDs.length ≠ 0 := by omega
  have hlen1 : active.ParentIDs.length ≠ 1 := by omega
  have hpp : overlay.parentPaths o active.ParentIDs =
      active.ParentIDs.map (fun id => Join [o.root, "snapshots", id, "fs"]) :=
    parentPaths_eq_map o active.ParentIDs
  simp [overlay.mounts, hlen, hlen1, hro, hpp]

/-- The three shapes of a non-empty parent chain seen by overlay `mounts`. -/
theorem overlay_mounts_cases (active : storage.Active) (h : active.ParentIDs ≠ []) :
    active.Readonly = false ∨
      (active.Readonly = true ∧ ∃ p, active.ParentIDs = [p]) ∨
      (active.Readonly = true ∧ 2 ≤ active.ParentIDs.length) := by
  cases hr : active.Readonly
  · exact Or.inl rfl
  · right
    rcases hp : active.ParentIDs with _ | ⟨p, _ | ⟨q, rest⟩⟩
    · exact absurd hp h
    · exact Or.inl ⟨rfl, p, rfl⟩
    · exact Or.inr ⟨rfl, by simp⟩

/-- Claim C1 (overlay `mounts`, order of `lowerdir`).  For an Active record with a
non-empty `ParentIDs` and a mount of type `overlay` returned for it, exactly one
option starts with `lowerdir=`, and its value is the `:`-joined list of
`<root>/snapshots/<ParentIDs[i]>/fs` in the order of `ParentIDs`. -/
theorem overlay_mounts_lowerdir_order (o : overlay.snapshotter) (active : storage.Active)
    (m : Mount) (hparents : active.ParentIDs ≠ []) (hm : m ∈ overlay.mounts o active)
    (ht : m.Type_ = "overlay") :
    m.Options.filter (fun opt => hasPrefix opt "lowerdir=") =
      ["lowerdir=" ++
        stringsJoin (active.ParentIDs.map (fun id => Join [o.root, "snapshots", id, "fs"])) ":"] := by
  rcases overlay_mounts_cases active hparents with hro | ⟨hro, p, hp⟩ | ⟨hro, h2⟩
  · rw [overlay_mounts_mutable o active hparents hro, List.mem_singleton] at hm
    subst hm
    simp [List.filter, hasPrefix, String.data_append, List.isPrefixOf,
      List.isPrefixOf_iff_prefix]
  · rw [overlay_mounts_view_one o active p hp hro, List.mem_singleton] at hm
    subst hm
    simp at ht
  · rw [overlay_mounts_view_many o active h2 hro, List.mem_singleton] at hm
    subst hm
    simp [List.filter, hasPrefix, String.data_append, List.isPrefixOf,
      List.isPrefixOf_iff_prefix]

/-- Witness for C1: the chain `base ← mid ← top` seen from a view on `top`. -/
theorem overlay_mounts_lowerdir_order_witness :
    (["3", "2", "1"] : List String) ≠ [] ∧
    (⟨"overlay", "overlay",
        ["lowerdir=/r/snapshots/3/fs:/r/snapshots/2/fs:/r/snapshots/1/fs"]⟩ : Mount) ∈
      overlay.mounts ⟨"/r"⟩ ⟨"4", ["3", "2", "1"], true, "v"⟩ ∧
    ["lowerdir=/r/snapshots/3/fs:/r/snapshots/2/fs:/r/snapshots/1/fs"].filter
        (fun opt => hasPrefix opt "lowerdir=") =
      ["lowerdir=" ++
        stringsJoin (["3", "2", "1"].map (fun id => Join ["/r", "snapshots", id, "fs"])) ":"] :=
  ⟨by decide, by decide,
    overlay_mounts_lowerdir_order ⟨"/r"⟩ ⟨"4", ["3", "2", "1"], true, "v"⟩
      ⟨"overlay", "overlay", ["lowerdir=/r/snapshots/3/fs:/r/snapshots/2/fs:/r/snapshots/1/fs"]⟩
      (by decide) (by decide) rfl⟩

/-- Claim C2 (overlay `mounts`, `upperdir` and `workdir`).  For an Active record with
at least one parent and a mount of type `overlay` returned for it: an option
starting with `upperdir=` exists iff the record is not Readonly, and likewise for
`workdir=`; such options are `upperdir=<root>/snapshots/<ID>/fs` and
`workdir=<root>/snapshots/<ID>/work` of the record's own ID; and a Readonly record
has the `lowerdir` entry as its only option. -/
theorem overlay_mounts_upper_work (o : overlay.snapshotter) (active : storage.Active)
    (m : Mount) (hparents : active.ParentIDs ≠ []) (hm : m ∈ overlay.mounts o active)
    (ht : m.Type_ = "overlay") :
    ((∃ opt ∈ m.Options, hasPrefix opt "upperdir=" = true) ↔ active.Readonly = false) ∧
    ((∃ opt ∈ m.Options, hasPrefix opt "workdir=" = true) ↔ active.Readonly = false) ∧
    (∀ opt ∈ m.Options, hasPrefix opt "upperdir=" = true →
      opt = "upperdir=" ++ Join [o.root, "snapshots", active.ID, "fs"]) ∧
    (∀ opt ∈ m.Options, hasPrefix opt "workdir=" = true →
      opt = "workdir=" ++ Join [o.root, "snapshots", active.ID, "work"]) ∧
    (active.Readonly = true →
      2 ≤ active.ParentIDs.length ∧
      m.Options =
        ["lowerdir=" ++
          stringsJoin (active.ParentIDs.map (fun id => Join [o.root, "snapshots", id, "fs"]))
            ":"]) := by
  rcases overlay_mounts_cases active hparents with hro | ⟨hro, p, hp⟩ | ⟨hro, h2⟩
  · rw [overlay_mounts_mutable o active hparents hro, List.mem_singleton] at hm
    subst hm
    simp [hro, hasPrefix, String.data_append, List.isPrefixOf, List.isPrefixOf_iff_prefix]
  · rw [overlay_mounts_view_one o active p hp hro, List.mem_singleton] at hm
    subst hm
    simp at ht
  · rw [overlay_mounts_view_many o active h2 hro, List.mem_singleton] at hm
    subst hm
    simp [hro, h2, hasPrefix, String.data_append, List.isPrefixOf, List.isPrefixOf_iff_prefix]

/-- Witness for C2: a mutable snapshot on a chain of two parents. -/
theorem overlay_mounts_upper_work_witness :
    (["2", "1"] : List String) ≠ [] ∧
    (⟨"overlay", "overlay",
        ["workdir=/r/snapshots/3/work", "upperdir=/r/snapshots/3/fs",
         "lowerdir=/r/snapshots/2/fs:/r/snapshots/1/fs"]⟩ : Mount) ∈
      overlay.mounts ⟨"/r"⟩ ⟨"3", ["2", "1"], false, "k"⟩ ∧
    ((∃ opt ∈ ["workdir=/r/snapshots/3/work", "upperdir=/r/snapshots/3/fs",
         "lowerdir=/r/snapshots/2/fs:/r/snapshots/1/fs"], hasPrefix opt "upperdir=" = true) ↔
      false = false) :=
  ⟨by decide, by decide,
    (overlay_mounts_upper_work ⟨"/r"⟩ ⟨"3", ["2", "1"], false, "k"⟩
      ⟨"overlay", "overlay",
        ["workdir=/r/snapshots/3/work", "upperdir=/r/snapshots/3/fs",
         "lowerdir=/r/snapshots/2/fs:/r/snapshots/1/fs"]⟩
      (by decide) (by decide) rfl).1⟩

/-- Claim C3 (overlay `mounts`, readonly view on one parent).  For a Readonly Active
record with exactly one parent the result is exactly one mount, of type `bind`,
whose source is the parent's directory `<root>/snapshots/<ParentIDs[0]>/fs` and
whose options are `["ro", "rbind"]`; no mount of type `overlay` is returned. -/
theorem overlay_mounts_view_single_parent (o : overlay.snapshotter) (active : storage.Active)
    (p : String) (hro : active.Readonly = true) (hp : active.ParentIDs = [p]) :
    overlay.mounts o active =
        [⟨"bind", Join [o.root, "snapshots", p, "fs"], ["ro", "rbind"]⟩] ∧
    ∀ m ∈ overlay.mounts o active, m.Type_ ≠ "overlay" := by
  have h := overlay_mounts_view_one o active p hp hro
  refine ⟨h, ?_⟩
  intro m hm
  rw [h, List.mem_singleton] at hm
  subst hm
  simp

/-- Witness for C3: a view with ID 2 on the committed snapshot with ID 1. -/
theorem overlay_mounts_view_single_parent_witness :
    overlay.mounts ⟨"/r"⟩ ⟨"2", ["1"], true, "v"⟩ =
        [⟨"bind", Join ["/r", "snapshots", "1", "fs"], ["ro", "rbind"]⟩] ∧
    ∀ m ∈ overlay.mounts ⟨"/r"⟩ ⟨"2", ["1"], true, "v"⟩, m.Type_ ≠ "overlay" :=
  overlay_mounts_view_single_parent ⟨"/r"⟩ ⟨"2", ["1"], true, "v"⟩ "1" rfl rfl

/-- Claim C4 (overlay `mounts`, no parents).  For an Active record with an empty
`ParentIDs` the result is exactly one mount, of type `bind`, whose source is the
record's own directory `<root>/snapshots/<ID>/fs`, with options `["rw", "rbind"]`
when the record is mutable and `["ro", "rbind"]` when it is Readonly; no mount of
type `overlay` is returned. -/
theorem overlay_mounts_base_layer (o : overlay.snapshotter) (active : storage.Active)
    (hp : active.ParentIDs = []) :
    overlay.mounts o active =
        [⟨"bind", Join [o.root, "snapshots", active.ID, "fs"],
          [if active.Readonly then "ro" else "rw", "rbind"]⟩] ∧
    (active.Readonly = false →
      overlay.mounts o active =
        [⟨"bind", Join [o.root, "snapshots", active.ID, "fs"], ["rw", "rbind"]⟩]) ∧
    (active.Readonly = true →
      overlay.mounts o active =
        [⟨"bind", Join [o.root, "snapshots", active.ID, "fs"], ["ro", "rbind"]⟩]) ∧
    ∀ m ∈ overlay.mounts o active, m.Type_ ≠ "overlay" := by
  have h := overlay_mounts_noparents o active hp
  refine ⟨h, ?_, ?_, ?_⟩
  · intro hro; rw [h, hro]; rfl
  · intro hro; rw [h, hro]; rfl
  · intro m hm
    rw [h, List.mem_singleton] at hm
    subst hm
    simp

/-- Witness for C4: a mutable base layer. -/
theorem overlay_mounts_base_layer_witness :
    overlay.mounts ⟨"/r"⟩ ⟨"1", [], false, "k"⟩ =
      [⟨"bind", Join ["/r", "snapshots", "1", "fs"], ["rw", "rbind"]⟩] :=
  (overlay_mounts_base_layer ⟨"/r"⟩ ⟨"1", [], false, "k"⟩ rfl).2.1 rfl

/-! ## Mount specifications: naive -/

/-- Counterexample to C5 as stated: for the Readonly record with ID 2 and parent
chain `[1]`, naive `mounts` binds `<root>/snapshots/1`, the directory of the
parent, and not `<root>/snapshots/2`. -/
theorem naive_mounts_view_binds_parent :
    naive.mounts ⟨"/r"⟩ ⟨"2", ["1"], true, "v"⟩ =
        [⟨"bind", "/r/snapshots/1", ["ro", "rbind"]⟩] ∧
    naive.getSnapshotDir ⟨"/r"⟩ "2" = "/r/snapshots/2" ∧
    naive.getSnapshotDir ⟨"/r"⟩ "1" = "/r/snapshots/1" ∧
    ¬ (∀ (o : naive.snapshotter) (active : storage.Active), ∀ m ∈ naive.mounts o active,
        m.Source = Join [o.root, "snapshots", active.ID] ∧
        ∀ p ∈ active.ParentIDs, m.Source ≠ Join [o.root, "snapshots", p]) := by
  refine ⟨by decide, by decide, by decide, ?_⟩
  intro h
  have h1 := (h ⟨"/r"⟩ ⟨"2", ["1"], true, "v"⟩ ⟨"bind", "/r/snapshots/1", ["ro", "rbind"]⟩
    (by decide)).1
  revert h1
  decide

/-- Claim C5, amended (naive `mounts`).  For every Active record the result is exactly
one mount, of type `bind`, with options `[ro|rw, "rbind"]`.  Its source is the
record's own directory `<root>/snapshots/<ID>` when the record is mutable or has
no parents, and the directory `<root>/snapshots/<ParentIDs[0]>` of the nearest
parent when the record is Readonly with a non-empty `ParentIDs`. -/
theorem naive_mounts_source (o : naive.snapshotter) (active : storage.Active) :
    (active.ParentIDs = [] ∨ active.Readonly = false →
      naive.mounts o active =
        [⟨"bind", Join [o.root, "snapshots", active.ID],
          [if active.Readonly then "ro" else "rw", "rbind"]⟩]) ∧
    (∀ p rest, active.ParentIDs = p :: rest → active.Readonly = true →
      naive.mounts o active =
        [⟨"bind", Join [o.root, "snapshots", p], ["ro", "rbind"]⟩]) := by
  constructor
  · rintro (h | h) <;> simp [naive.mounts, naive.getSnapshotDir, h]
  · intro p rest hp hro
    simp [naive.mounts, naive.getSnapshotDir, hp, hro]

/-- Witness for C5, amended: both cases at concrete records. -/
theorem naive_mounts_source_witness :
    naive.mounts ⟨"/r"⟩ ⟨"3", ["1"], false, "k"⟩ =
        [⟨"bind", Join ["/r", "snapshots", "3"], ["rw", "rbind"]⟩] ∧
    naive.mounts ⟨"/r"⟩ ⟨"2", ["1"], true, "v"⟩ =
        [⟨"bind", Join ["/r", "snapshots", "1"], ["ro", "rbind"]⟩] :=
  ⟨(naive_mounts_source ⟨"/r"⟩ ⟨"3", ["1"], false, "k"⟩).1 (Or.inr rfl),
   (naive_mounts_source ⟨"/r"⟩ ⟨"2", ["1"], true, "v"⟩).2 "1" [] rfl rfl⟩

/-! ## Successful `createActive` and `Mounts` -/

theorem storage_CreateActive_ok {ms tx : storage.MetaStore} {key parent : String} {ro : Bool}
    {a : storage.Active} (h : storage.CreateActive ms key parent ro = .ok (a, tx)) :
    a.Key = key ∧ a.ID = Nat.repr (ms.seq + 1) ∧ a.Readonly = ro ∧
    tx = ⟨ms.seq + 1, a :: ms.active, ms.committed⟩ ∧
    (∀ b ∈ ms.active, b.Key ≠ key) ∧
    (parent = "" → a.ParentIDs = []) ∧
    (parent ≠ "" → ∃ p ∈ ms.committed, p.Name = parent ∧ a.ParentIDs = p.ID :: p.ParentIDs) := by
  unfold storage.CreateActive at h
  split at h
  · cases h
  · rename_i hany
    have hfresh : ∀ b ∈ ms.active, b.Key ≠ key := by
      intro b hb hk
      apply hany
      simp only [List.any_eq_true, decide_eq_true_eq]
      exact ⟨b, hb, hk⟩
    by_cases hp : parent = ""
    · simp only [hp, if_true, Except.ok.injEq, Prod.mk.injEq] at h
      obtain ⟨h1, h2⟩ := h
      subst h1
      subst h2
      exact ⟨rfl, rfl, rfl, rfl, hfresh, fun _ => rfl, fun hne => absurd hp (by simpa using hne)⟩
    · simp only [hp, if_false] at h
      split at h
      · cases h
      · rename_i p hfind
        simp only [Except.ok.injEq, Prod.mk.injEq] at h
        obtain ⟨h1, h2⟩ := h
        subst h1
        subst h2
        refine ⟨rfl, rfl, rfl, rfl, hfresh, fun h0 => absurd h0 hp, fun _ => ?_⟩
        refine ⟨p, List.mem_of_find?_eq_some hfind, ?_, rfl⟩
        have := List.find?_some hfind
        simpa using this

theorem storage_GetActive_after_create {ms tx : storage.MetaStore} {key parent : String}
    {ro : Bool} {a : storage.Active} (h : storage.CreateActive ms key parent ro = .ok (a, tx)) :
    storage.GetActive tx key = .ok a := by
  obtain ⟨hk, -, -, htx, -⟩ := storage_CreateActive_ok h
  subst htx
  simp [storage.GetActive, List.find?, hk]

theorem overlay_createActive_ok {o : overlay.snapshotter} {f : Faults} {ms : storage.MetaStore}
    {fs : DirFS} {key parent : String} {ro : Bool} {M : List Mount}
    (h : (overlay.createActive o f ms fs key parent ro).ret = .ok M) :
    ∃ a tx, storage.CreateActive ms key parent ro = .ok (a, tx) ∧
      M = overlay.mounts o a ∧
      (overlay.createActive o f ms fs key parent ro).ms = tx ∧
      (overlay.createActive o f ms fs key parent ro).tx = .committed ∧
      fs (Join [Join [o.root, "snapshots"], "new-" ++ Nat.repr f.tempSuffix]) = none ∧
      ∀ q, (overlay.createActive o f ms fs key parent ro).fs q =
        if q = Join [Join [o.root, "snapshots"], a.ID] then
          some (if ro = true then ["fs"] else ["fs", "work"])
        else if q = Join [Join [o.root, "snapshots"], "new-" ++ Nat.repr f.tempSuffix] then none
        else fs q := by
  unfold overlay.createActive at h ⊢
  simp only [ioutilTempDir] at h ⊢
  cases h1 : f.TempDir with
  | some e => simp [h1] at h
  | none =>
    cases h2 : fs (Join [Join [o.root, "snapshots"], "new-" ++ Nat.repr f.tempSuffix]) with
    | some d => simp [h1, h2] at h
    | none =>
      cases h3 : f.MkdirFs with
      | some e => simp [h1, h2, h3, osMkdirAll] at h
      | none =>
        cases h5 : f.Begin with
        | some e => cases ro <;> cases h4 : f.MkdirWork <;> simp [h1, h2, h3, h4, h5, osMkdirAll, DirFS.set] at h
        | none =>
          cases h6 : f.Storage with
          | some e =>
            cases ro <;> cases h4 : f.MkdirWork <;>
              simp [h1, h2, h3, h4, h5, h6, osMkdirAll, DirFS.set, storageCall] at h
          | none =>
            cases h7 : storage.CreateActive ms key parent ro with
            | error e =>
              cases ro <;> cases h4 : f.MkdirWork <;>
                simp [h1, h2, h3, h4, h5, h6, h7, osMkdirAll, DirFS.set, storageCall] at h
            | ok r =>
              obtain ⟨a, tx⟩ := r
              cases h8 : f.Rename with
              | some e =>
                cases ro <;> cases h4 : f.MkdirWork <;>
                  simp [h1, h2, h3, h4, h5, h6, h7, h8, osMkdirAll, DirFS.set, storageCall,
                    osRename] at h
              | none =>
                cases h9 : f.Commit with
                | some e =>
                  cases ro <;> cases h4 : f.MkdirWork <;>
                    simp [h1, h2, h3, h4, h5, h6, h7, h8, h9, osMkdirAll, DirFS.set, storageCall,
                      osRename] at h
                | none =>
                  refine ⟨a, tx, rfl, ?_⟩
                  cases ro
                  · cases h4 : f.MkdirWork with
                    | some e =>
                      simp [h1, h2, h3, h4, h5, h6, h7, h8, h9, osMkdirAll, DirFS.set,
                        storageCall, osRename] at h
                    | none =>
                      simp [h1, h2, h3, h4, h5, h6, h7, h8, h9, osMkdirAll, DirFS.set,
                        storageCall, osRename] at h ⊢
                      refine ⟨h.symm, fun q => ?_⟩
                      split_ifs <;> rfl
                  · simp [h1, h2, h3, h5, h6, h7, h8, h9, osMkdirAll, DirFS.set,
                      storageCall, osRename] at h ⊢
                    refine ⟨h.symm, fun q => ?_⟩
                    split_ifs <;> rfl

theorem String_mk_ne_empty (l : List Char) (h : l ≠ []) : String.mk l ≠ "" := by
  intro h0
  exact h (congrArg String.data h0)

theorem Clean_ne_empty (p : String) : Clean p ≠ "" := by
  unfold Clean
  by_cases h0 : p.data = []
  · rw [if_pos h0]; decide
  · rw [if_neg h0]
    simp only
    split_ifs with h1 h2 h3
    · decide
    · exact String_mk_ne_empty _ (List.cons_ne_nil _ _)
    · decide
    · exact String_mk_ne_empty _ h3

theorem Join_pair_ne_empty (x y : String) (hy : y ≠ "") : Join [x, y] ≠ "" := by
  unfold Join
  by_cases hx : x = ""
  · simp only [hx, List.dropWhile, decide_True, hy, decide_False]
    exact Clean_ne_empty _
  · simp only [List.dropWhile, hx, decide_False]
    exact Clean_ne_empty _

theorem String_append_ne_empty (p s : String) (hp : p ≠ "") : p ++ s ≠ "" := by
  intro h
  apply hp
  have := congrArg String.data h
  simp only [String.data_append] at this
  have h2 : p.data = [] := (List.append_eq_nil.mp this).1
  exact String.ext h2

theorem tempName_ne_empty (dir : String) (n : Nat) : Join [dir, "new-" ++ Nat.repr n] ≠ "" :=
  Join_pair_ne_empty _ _ (String_append_ne_empty _ _ (by decide))

theorem DirFS_set_set (fs : DirFS) (p : String) (v w : Option (List String)) :
    (fs.set p v).set p w = fs.set p w := by
  funext q
  simp only [DirFS.set]
  split_ifs <;> rfl

theorem fsCopyDir_ok {fault : Option Error} {fs fs' : DirFS} {dst src : String}
    (h : fsCopyDir fault fs dst src = (none, fs')) : ∃ d, fs' = fs.set dst (some d) := by
  unfold fsCopyDir at h
  split at h
  · rename_i es ds _ _
    cases fault with
    | some e => simp at h
    | none =>
      simp only [Prod.mk.injEq, true_and] at h
      exact ⟨_, h.symm⟩
  · simp at h

theorem osRename_ok {fault : Option Error} {fs fs' : DirFS} {src dst : String}
    (h : osRename fault fs src dst = (none, fs')) :
    ∃ d, fs src = some d ∧ fs' = (fs.set src none).set dst (some d) := by
  unfold osRename at h
  split at h
  · simp at h
  · rename_i d hd
    cases fault with
    | some e => simp at h
    | none =>
      simp only [Prod.mk.injEq, true_and] at h
      exact ⟨d, hd, h.symm⟩

theorem naive_createActive_ok {o : naive.snapshotter} {f : Faults} {ms : storage.MetaStore}
    {fs : DirFS} {key parent : String} {ro : Bool} {M : List Mount}
    (h : (naive.createActive o f ms fs key parent ro).ret = .ok M) :
    ∃ a tx, storage.CreateActive ms key parent ro = .ok (a, tx) ∧
      M = naive.mounts o a ∧
      (naive.createActive o f ms fs key parent ro).ms = tx ∧
      (naive.createActive o f ms fs key parent ro).tx = .committed ∧
      ((ro = true ∧ parent ≠ "" ∧ (naive.createActive o f ms fs key parent ro).fs = fs) ∨
       ((ro = false ∨ parent = "") ∧
        fs (Join [Join [o.root, "snapshots"], "new-" ++ Nat.repr f.tempSuffix]) = none ∧
        ∃ d, ∀ q, (naive.createActive o f ms fs key parent ro).fs q =
          if q = naive.getSnapshotDir o a.ID then some d
          else if q = Join [Join [o.root, "snapshots"], "new-" ++ Nat.repr f.tempSuffix] then none
          else fs q)) := by
  have htd := tempName_ne_empty (Join [o.root, "snapshots"]) f.tempSuffix
  unfold naive.createActive at h ⊢
  by_cases hdef : ro = false ∨ parent = ""
  · simp only [hdef, decide_True, if_true, ioutilTempDir] at h ⊢
    cases h1 : f.TempDir with
    | some e => simp [h1] at h
    | none =>
      cases h2 : fs (Join [Join [o.root, "snapshots"], "new-" ++ Nat.repr f.tempSuffix]) with
      | some d => simp [h1, h2] at h
      | none =>
        cases h5 : f.Begin with
        | some e => simp [h1, h2, h5] at h
        | none =>
          cases h6 : f.Storage with
          | some e => simp [h1, h2, h5, h6, storageCall] at h
          | none =>
            cases h7 : storage.CreateActive ms key parent ro with
            | error e => simp [h1, h2, h5, h6, h7, storageCall] at h
            | ok r =>
              obtain ⟨a, tx⟩ := r
              refine ⟨a, tx, rfl, ?_⟩
              simp only [h1, h2, h5, h6, h7, storageCall, htd, ne_eq, not_false_eq_true,
                if_true] at h ⊢
              generalize hc : (if a.ParentIDs.length > 0 then
                  fsCopyDir f.CopyDir
                    (fs.set (Join [Join [o.root, "snapshots"], "new-" ++ Nat.repr f.tempSuffix])
                      (some []))
                    (Join [Join [o.root, "snapshots"], "new-" ++ Nat.repr f.tempSuffix])
                    (naive.getSnapshotDir o (a.ParentIDs.getD 0 ""))
                else (none,
                  fs.set (Join [Join [o.root, "snapshots"], "new-" ++ Nat.repr f.tempSuffix])
                    (some []))) = c at h ⊢
              obtain ⟨ce, cfs⟩ := c
              cases ce with
              | some e => simp at h
              | none =>
                have hcfs : ∃ d, cfs =
                    fs.set (Join [Join [o.root, "snapshots"], "new-" ++ Nat.repr f.tempSuffix])
                      (some d) := by
                  split at hc
                  · obtain ⟨d, hd⟩ := fsCopyDir_ok hc
                    exact ⟨d, by rw [hd, DirFS_set_set]⟩
                  · simp only [Prod.mk.injEq, true_and] at hc
                    exact ⟨[], hc.symm⟩
                obtain ⟨d, hd⟩ := hcfs
                subst hd
                simp only at h ⊢
                generalize hr : osRename f.Rename
                  (fs.set (Join [Join [o.root, "snapshots"], "new-" ++ Nat.repr f.tempSuffix])
                    (some d))
                  (Join [Join [o.root, "snapshots"], "new-" ++ Nat.repr f.tempSuffix])
                  (naive.getSnapshotDir o a.ID) = r at h ⊢
                obtain ⟨re, rfs⟩ := r
                cases re with
                | some e => simp at h
                | none =>
                  obtain ⟨d', hd', hrfs⟩ := osRename_ok hr
                  subst hrfs
                  cases h9 : f.Commit with
                  | some e => simp [h9] at h
                  | none =>
                    simp only [h9] at h ⊢
                    simp only [Except.ok.injEq] at h
                    refine ⟨h.symm, trivial, trivial, Or.inr ⟨trivial, trivial, d', fun q => ?_⟩⟩
                    simp only [DirFS.set]
                    split_ifs <;> rfl
  · have hro : ro = true := by
      cases ro
      · exact absurd (Or.inl rfl) hdef
      · rfl
    have hpar : parent ≠ "" := fun hp => hdef (Or.inr hp)
    simp only [hdef, decide_False, Bool.false_eq_true, if_false] at h ⊢
    cases h5 : f.Begin with
    | some e => simp [h5] at h
    | none =>
      cases h6 : f.Storage with
      | some e => simp [h5, h6, storageCall] at h
      | none =>
        cases h7 : storage.CreateActive ms key parent ro with
        | error e => simp [h5, h6, h7, storageCall] at h
        | ok r =>
          obtain ⟨a, tx⟩ := r
          refine ⟨a, tx, rfl, ?_⟩
          cases h9 : f.Commit with
          | some e => simp [h5, h6, h7, h9, storageCall] at h
          | none =>
            simp [h5, h6, h7, h9, storageCall] at h ⊢
            exact ⟨h.symm, hro, hpar⟩

theorem overlay_Mounts_frame (o : overlay.snapshotter) (g : Faults) (ms : storage.MetaStore)
    (fs : DirFS) (key : String) :
    (overlay.Mounts o g ms fs key).ms = ms ∧ (overlay.Mounts o g ms fs key).fs = fs := by
  unfold overlay.Mounts
  cases g.Begin <;> simp only [and_self]
  cases storageCall g (storage.GetActive ms key) <;> simp only [and_self]

theorem naive_Mounts_frame (o : naive.snapshotter) (g : Faults) (ms : storage.MetaStore)
    (fs : DirFS) (key : String) :
    (naive.Mounts o g ms fs key).ms = ms ∧ (naive.Mounts o g ms fs key).fs = fs := by
  unfold naive.Mounts
  cases g.Begin <;> simp only [and_self]
  cases storageCall g (storage.GetActive ms key) <;> simp only [and_self]

theorem overlay_Mounts_after_createActive (o : overlay.snapshotter) (f g : Faults)
    (ms : storage.MetaStore) (fs : DirFS) (key parent : String) (ro : Bool) (M : List Mount)
    (hbegin : g.Begin = none) (hstore : g.Storage = none)
    (h : (overlay.createActive o f ms fs key parent ro).ret = .ok M) :
    (overlay.Mounts o g (overlay.createActive o f ms fs key parent ro).ms
      (overlay.createActive o f ms fs key parent ro).fs key).ret = .ok M := by
  obtain ⟨a, tx, hc, hM, hms, -⟩ := overlay_createActive_ok h
  rw [hms, hM]
  simp [overlay.Mounts, hbegin, hstore, storageCall, storage_GetActive_after_create hc]

theorem naive_Mounts_after_createActive (o : naive.snapshotter) (f g : Faults)
    (ms : storage.MetaStore) (fs : DirFS) (key parent : String) (ro : Bool) (M : List Mount)
    (hbegin : g.Begin = none) (hstore : g.Storage = none)
    (h : (naive.createActive o f ms fs key parent ro).ret = .ok M) :
    (naive.Mounts o g (naive.createActive o f ms fs key parent ro).ms
      (naive.createActive o f ms fs key parent ro).fs key).ret = .ok M := by
  obtain ⟨a, tx, hc, hM, hms, -⟩ := naive_createActive_ok h
  rw [hms, hM]
  simp [naive.Mounts, hbegin, hstore, storageCall, storage_GetActive_after_create hc]

/-! ## btrfs `Commit` under a failing transaction commit -/

theorem storage_CommitActive_ok {ms tx : storage.MetaStore} {key name id : String}
    (h : storage.CommitActive ms key name = .ok (id, tx)) :
    (∀ c ∈ ms.committed, c.Name ≠ name) ∧
    ∃ a ∈ ms.active, a.Key = key ∧ a.ID = id ∧ a.Readonly = false ∧
      tx = ⟨ms.seq, ms.active.filter (fun b => ¬ b.Key = key),
        ⟨a.ID, a.ParentIDs, name⟩ :: ms.committed⟩ := by
  unfold storage.CommitActive at h
  split at h
  · cases h
  · rename_i hany
    have hfresh : ∀ c ∈ ms.committed, c.Name ≠ name := by
      intro c hc hn
      apply hany
      simp only [List.any_eq_true, decide_eq_true_eq]
      exact ⟨c, hc, hn⟩
    refine ⟨hfresh, ?_⟩
    split at h
    · cases h
    · rename_i a hfind
      split at h
      · cases h
      · rename_i hro
        simp only [Except.ok.injEq, Prod.mk.injEq] at h
        obtain ⟨h1, h2⟩ := h
        refine ⟨a, List.mem_of_find?_eq_some hfind, ?_, h1, ?_, h2.symm⟩
        · have := List.find?_some hfind
          simpa using this
        · simpa using hro

theorem btrfs_SubvolSnapshot_ok {fault : Option Error} {fs fs' : btrfs.VolFS} {dst src : String}
    {ro : Bool} (h : btrfs.SubvolSnapshot fault fs dst src ro = (none, fs')) :
    fs.vols dst = none ∧ ∃ v, fs.vols src = some v ∧
      fs' = { (fs.set dst (some ⟨fs.nextID, ro, v.tree⟩)) with nextID := fs.nextID + 1 } := by
  unfold btrfs.SubvolSnapshot at h
  split at h
  · simp at h
  · rename_i v hv
    cases fault with
    | some e => simp at h
    | none =>
      simp only at h
      split at h
      · simp at h
      · rename_i hd
        simp only [Prod.mk.injEq, true_and] at h
        exact ⟨hd, v, hv, h.symm⟩

theorem btrfs_SubvolDelete_other (fault : Option Error) (fs : btrfs.VolFS) (path q : String)
    (hq : q ≠ path) : (btrfs.SubvolDelete fault fs path).2.vols q = fs.vols q := by
  unfold btrfs.SubvolDelete
  split
  · rfl
  · cases fault with
    | some e => rfl
    | none => simp [btrfs.VolFS.set, hq]

/-- Claim C8 (btrfs `Commit`, failure of the transaction commit after the snapshot).
When the transaction opened, `CommitActive` succeeded, the snapshot of
`active/<ID>` into `snapshots/<ID>` was taken and `t.Commit()` then fails with
`e`, `Commit` returns `e` and afterwards (a) the Active record for `key` exists
with its volume `active/<ID>`, while (b) no Committed record for `name` exists:
exactly one of (a) and (b) holds, whatever the deletion of `snapshots/<ID>` did. -/
theorem btrfs_commit_failure_keeps_active (b : btrfs.Snapshotter) (f : Faults)
    (ms tx : storage.MetaStore) (fs fs1 : btrfs.VolFS) (name key id : String) (e : Error)
    (hbegin : f.Begin = none) (hstore : f.Storage = none)
    (hmeta : storage.CommitActive ms key name = .ok (id, tx))
    (hsnap : btrfs.SubvolSnapshot f.SubvolSnapshot fs (Join [b.root, "snapshots", id])
      (Join [b.root, "active", id]) true = (none, fs1))
    (hcommit : f.Commit = some e) :
    (btrfs.Commit b f ms fs name key).ret = .error e ∧
    (btrfs.Commit b f ms fs name key).tx = .commitFailed ∧
    ((∃ a ∈ (btrfs.Commit b f ms fs name key).ms.active, a.Key = key ∧
        ((btrfs.Commit b f ms fs name key).fs.vols (Join [b.root, "active", a.ID])).isSome) ∧
     ¬ (∃ c ∈ (btrfs.Commit b f ms fs name key).ms.committed, c.Name = name ∧
        ((btrfs.Commit b f ms fs name key).fs.vols (Join [b.root, "snapshots", c.ID])).isSome)) := by
  obtain ⟨hfresh, a, ha, hkey, hid, -, -⟩ := storage_CommitActive_ok hmeta
  obtain ⟨hdst, v, hsrc, hfs1⟩ := btrfs_SubvolSnapshot_ok hsnap
  have hne : Join [b.root, "active", id] ≠ Join [b.root, "snapshots", id] := by
    intro heq
    rw [heq, hdst] at hsrc
    cases hsrc
  have hC : btrfs.Commit b f ms fs name key =
      ⟨ms, (btrfs.SubvolDelete f.SubvolCleanup fs1 (Join [b.root, "snapshots", id])).2,
        .commitFailed, .error e⟩ := by
    simp [btrfs.Commit, hbegin, hstore, storageCall, hmeta, hsnap, hcommit]
  rw [hC]
  refine ⟨rfl, rfl, ⟨a, ha, hkey, ?_⟩, ?_⟩
  · simp only [hid]
    rw [btrfs_SubvolDelete_other _ _ _ _ hne, hfs1]
    simp [btrfs.VolFS.set, hne, hsrc]
  · rintro ⟨c, hc, hn, -⟩
    exact hfresh c hc hn

/-- Witness for C8: `Prepare("k", "")`, then `Commit("n", "k")` whose transaction
commit fails. -/
theorem btrfs_commit_failure_keeps_active_witness :
    (btrfs.Commit ⟨"/dev/sda1", "/r"⟩ { Commit := some .StoreUnavailable }
        ⟨1, [⟨"1", [], false, "k"⟩], []⟩
        ⟨fun q => if q = "/r/active/1" then some ⟨256, false, 256⟩ else none, 257⟩
        "n" "k").ret = .error .StoreUnavailable :=
  (btrfs_commit_failure_keeps_active ⟨"/dev/sda1", "/r"⟩ { Commit := some .StoreUnavailable }
    ⟨1, [⟨"1", [], false, "k"⟩], []⟩ ⟨1, [], [⟨"1", [], "n"⟩]⟩
    ⟨fun q => if q = "/r/active/1" then some ⟨256, false, 256⟩ else none, 257⟩
    { (btrfs.VolFS.set
        ⟨fun q => if q = "/r/active/1" then some ⟨256, false, 256⟩ else none, 257⟩
        "/r/snapshots/1" (some ⟨257, true, 256⟩)) with nextID := 258 }
    "n" "k" "1" .StoreUnavailable rfl rfl (by decide) (by rfl) rfl).1

/-! ## `filepath.Join` on plain elements -/

theorem splitSep_ne_nil (p : List Char) : splitSep p ≠ [] := by
  cases p with
  | nil => simp [splitSep]
  | cons c cs =>
    unfold splitSep
    split_ifs
    · simp
    · split <;> simp

theorem splitSep_append_sep (x y : List Char) :
    splitSep (x ++ '/' :: y) = splitSep x ++ splitSep y := by
  induction x with
  | nil => simp [splitSep]
  | cons c cs ih =>
    by_cases hc : c = '/'
    · simp [splitSep, hc, ih]
    · cases hs : splitSep cs with
      | nil => exact absurd hs (splitSep_ne_nil cs)
      | cons h t =>
        have e1 : splitSep (c :: cs) = (c :: h) :: t := by simp [splitSep, hc, hs]
        have e2 : splitSep (c :: (cs ++ '/' :: y)) = (c :: h) :: (t ++ splitSep y) := by
          simp [splitSep, hc, ih, hs]
        rw [List.cons_append, e2, e1]
        rfl

theorem splitSep_noslash (a : List Char) (h : '/' ∉ a) : splitSep a = [a] := by
  induction a with
  | nil => rfl
  | cons c cs ih =>
    have hc : c ≠ '/' := fun h0 => h (by simp [h0])
    have hcs : '/' ∉ cs := fun h0 => h (List.mem_cons_of_mem _ h0)
    simp [splitSep, hc, ih hcs]

theorem splitSep_noslash_elems (p : List Char) : ∀ e ∈ splitSep p, '/' ∉ e := by
  induction p with
  | nil => simp [splitSep]
  | cons c cs ih =>
    by_cases hc : c = '/'
    · simp only [splitSep, hc, if_true, List.mem_cons]
      rintro e (rfl | he)
      · simp
      · exact ih e he
    · simp only [splitSep, hc, if_false]
      cases hs : splitSep cs with
      | nil => exact absurd hs (splitSep_ne_nil cs)
      | cons h t =>
        rw [hs] at ih
        simp only [List.mem_cons]
        rintro e (rfl | he)
        · intro hmem
          rcases List.mem_cons.mp hmem with h1 | h1
          · exact hc h1.symm
          · exact ih h (List.mem_cons_self _ _) h1
        · exact ih e (List.mem_cons_of_mem _ he)

theorem cleanStep_plain (rt : Bool) (st : List (List Char)) (a : List Char) (ha : plainElem a) :
    cleanStep rt st a = a :: st := by
  obtain ⟨h1, _, h3, h4⟩ := ha
  simp [cleanStep, h1, h3, h4]

theorem joinSep_snoc (xs : List (List Char)) (a : List Char) :
    joinSep (xs ++ [a]) = if xs = [] then a else joinSep xs ++ '/' :: a := by
  induction xs with
  | nil => rfl
  | cons x rest ih =>
    cases rest with
    | nil => simp [joinSep]
    | cons y rest' =>
      have ih' : joinSep (y :: (rest' ++ [a])) = joinSep (y :: rest') ++ '/' :: a := by
        simpa using ih
      have e1 : joinSep (x :: y :: rest' ++ [a]) = x ++ '/' :: joinSep (y :: (rest' ++ [a])) := rfl
      rw [e1, ih']
      simp [joinSep]

theorem cleanStack_tail {rt : Bool} {e : List Char} {st : List (List Char)}
    (h : cleanStack rt (e :: st)) : cleanStack rt st := h.2.2.2.2

theorem cleanStack_cons_iff (rt : Bool) (e : List Char) (st : List (List Char)) :
    cleanStack rt (e :: st) ↔
      (e ≠ [] ∧ e ≠ ['.'] ∧ '/' ∉ e ∧
        (e = ['.', '.'] → rt = false ∧ (st = [] ∨ st.head? = some ['.', '.'])) ∧
        cleanStack rt st) := Iff.rfl

theorem cleanStack_step (rt : Bool) (st : List (List Char)) (e : List Char)
    (hst : cleanStack rt st) (he : '/' ∉ e) : cleanStack rt (cleanStep rt st e) := by
  unfold cleanStep
  by_cases h1 : e = [] ∨ e = ['.']
  · rw [if_pos h1]; exact hst
  · rw [if_neg h1]
    push_neg at h1
    by_cases h2 : e = ['.', '.']
    · rw [if_pos h2]
      cases st with
      | nil =>
        cases rt
        · simp [cleanStack, h2]
        · simp [cleanStack]
      | cons top rest =>
        simp only
        by_cases h3 : top = ['.', '.']
        · rw [if_pos h3, cleanStack_cons_iff]
          refine ⟨h1.1, h1.2, he, fun _ => ⟨?_, Or.inr (by simp [h3])⟩, hst⟩
          exact (((cleanStack_cons_iff rt top rest).mp hst).2.2.2.1 h3).1
        · rw [if_neg h3]
          exact cleanStack_tail hst
    · rw [if_neg h2, cleanStack_cons_iff]
      exact ⟨h1.1, h1.2, he, fun h => absurd h h2, hst⟩

theorem cleanStack_foldl (rt : Bool) (es : List (List Char)) :
    ∀ st, cleanStack rt st → (∀ e ∈ es, '/' ∉ e) → cleanStack rt (es.foldl (cleanStep rt) st) := by
  induction es with
  | nil => intro st hst _; exact hst
  | cons e rest ih =>
    intro st hst hes
    simp only [List.foldl_cons]
    exact ih _ (cleanStack_step rt st e hst (hes e (List.mem_cons_self _ _)))
      (fun x hx => hes x (List.mem_cons_of_mem _ hx))

theorem cleanStack_refold (rt : Bool) (st : List (List Char)) (hst : cleanStack rt st) :
    st.reverse.foldl (cleanStep rt) [] = st := by
  induction st with
  | nil => rfl
  | cons e rest ih =>
    rw [List.reverse_cons, List.foldl_append, ih (cleanStack_tail hst)]
    obtain ⟨h1, h2, _, h4, _⟩ := hst
    simp only [List.foldl_cons, List.foldl_nil]
    by_cases hdd : e = ['.', '.']
    · obtain ⟨hrt, hrest⟩ := h4 hdd
      rcases hrest with hnil | hhead
      · simp [cleanStep, hdd, hnil, hrt]
      · cases rest with
        | nil => simp at hhead
        | cons top r' =>
          simp only [List.head?_cons, Option.some.injEq] at hhead
          simp [cleanStep, hdd, hhead]
    · simp [cleanStep, h1, h2, hdd]

theorem Clean_data (p : String) (h0 : p.data ≠ [])
    (h1 : renderOut (decide (p.data.head? = some '/')) (cleanOut p.data) ≠ []) :
    (Clean p).data = renderOut (decide (p.data.head? = some '/')) (cleanOut p.data) := by
  unfold Clean
  rw [if_neg h0]
  simp only [renderOut, cleanOut] at h1 ⊢
  by_cases hr : p.data.head? = some '/'
  · simp [hr]
  · simp only [hr, decide_False, Bool.false_eq_true, if_false] at h1 ⊢
    rw [if_neg h1]

theorem renderOut_cons (rt : Bool) (a : List Char) (st : List (List Char)) :
    renderOut rt (a :: st) =
      (if st = [] then (if rt then ['/'] else []) else renderOut rt st ++ ['/']) ++ a := by
  unfold renderOut
  rw [List.reverse_cons, joinSep_snoc]
  by_cases hst : st = []
  · subst hst
    cases rt <;> simp
  · have hrev : st.reverse ≠ [] := by simpa using hst
    cases rt <;> simp [hst, hrev]

theorem renderOut_cons_ne_nil (rt : Bool) (a : List Char) (st : List (List Char)) (ha : a ≠ []) :
    renderOut rt (a :: st) ≠ [] := by
  rw [renderOut_cons]
  intro h
  exact ha (List.append_eq_nil.mp h).2

theorem head?_append_of_ne_nil (X Y : List Char) (h : X ≠ []) : (X ++ Y).head? = X.head? := by
  cases X with
  | nil => exact absurd rfl h
  | cons c cs => rfl

theorem cleanOut_append_plain (X a : List Char) (hX : X ≠ []) (ha : plainElem a) :
    cleanOut (X ++ '/' :: a) = a :: cleanOut X := by
  unfold cleanOut
  rw [head?_append_of_ne_nil X _ hX, splitSep_append_sep, splitSep_noslash a ha.2.1,
    List.foldl_append]
  simp only [List.foldl_cons, List.foldl_nil]
  exact cleanStep_plain _ _ a ha

theorem cleanOut_plain (s : List Char) (hs : plainElem s) : cleanOut s = [s] := by
  unfold cleanOut
  rw [splitSep_noslash s hs.2.1]
  simp only [List.foldl_cons, List.foldl_nil]
  exact cleanStep_plain _ _ s hs

theorem head?_plain (s : List Char) (hs : plainElem s) : s.head? ≠ some '/' := by
  cases s with
  | nil => simp
  | cons c cs =>
    simp only [List.head?_cons, ne_eq, Option.some.injEq]
    intro h
    exact hs.2.1 (by simp [h])

theorem cleanOut_cleanStack (p : List Char) :
    cleanStack (decide (p.head? = some '/')) (cleanOut p) :=
  cleanStack_foldl _ _ [] trivial (splitSep_noslash_elems p)

/-- Cleaning `X/a` for a plain element `a`, when the stack of `X` is not empty. -/
theorem Clean_append_plain (X a : String) (e : List Char) (st : List (List Char))
    (hX : X.data ≠ []) (hst : cleanOut X.data = e :: st) (he : e ≠ []) (ha : plainElem a.data) :
    Clean (X ++ "/" ++ a) = Clean X ++ "/" ++ a := by
  apply String.ext
  have hdata : (X ++ "/" ++ a).data = X.data ++ '/' :: a.data := by
    simp [String.data_append]
  have hne : (X ++ "/" ++ a).data ≠ [] := by rw [hdata]; simp
  have hhead : (X ++ "/" ++ a).data.head? = X.data.head? := by
    rw [hdata]; exact head?_append_of_ne_nil _ _ hX
  have hout : cleanOut (X ++ "/" ++ a).data = a.data :: e :: st := by
    rw [hdata, cleanOut_append_plain _ _ hX ha, hst]
  have h1 : (Clean (X ++ "/" ++ a)).data =
      renderOut (decide (X.data.head? = some '/')) (a.data :: e :: st) := by
    rw [Clean_data _ hne, hhead, hout]
    rw [hhead, hout]
    exact renderOut_cons_ne_nil _ _ _ ha.1
  have h2 : (Clean X).data = renderOut (decide (X.data.head? = some '/')) (e :: st) := by
    rw [Clean_data _ hX, hst]
    rw [hst]
    exact renderOut_cons_ne_nil _ _ _ he
  rw [h1, renderOut_cons]
  simp [String.data_append, h2]

theorem head?_plain_aux (x : List Char) (h1 : x ≠ []) (h2 : '/' ∉ x) : x.head? ≠ some '/' := by
  cases x with
  | nil => exact absurd rfl h1
  | cons c cs =>
    simp only [List.head?_cons, ne_eq, Option.some.injEq]
    intro h
    exact h2 (by simp [h])

theorem joinSep_head (x : List Char) (rest : List (List Char)) (hx : x ≠ []) :
    (joinSep (x :: rest)).head? = x.head? := by
  cases rest with
  | nil => rfl
  | cons y r => exact head?_append_of_ne_nil x _ hx

theorem splitSep_joinSep (xs : List (List Char)) (hne : xs ≠ []) (h : ∀ e ∈ xs, '/' ∉ e) :
    splitSep (joinSep xs) = xs := by
  induction xs with
  | nil => exact absurd rfl hne
  | cons x rest ih =>
    cases rest with
    | nil => exact splitSep_noslash x (h x (List.mem_cons_self _ _))
    | cons y r =>
      have e1 : joinSep (x :: y :: r) = x ++ '/' :: joinSep (y :: r) := rfl
      rw [e1, splitSep_append_sep, splitSep_noslash x (h x (List.mem_cons_self _ _)),
        ih (by simp) (fun e he => h e (List.mem_cons_of_mem _ he))]
      rfl

theorem cleanStack_elems (rt : Bool) (st : List (List Char)) (h : cleanStack rt st) :
    ∀ e ∈ st, e ≠ [] ∧ '/' ∉ e := by
  induction st with
  | nil => simp
  | cons x rest ih =>
    intro e he
    rcases List.mem_cons.mp he with rfl | he'
    · exact ⟨h.1, h.2.2.1⟩
    · exact ih (cleanStack_tail h) e he'

/-- What `filepath.Clean` returns is clean: its stack is the one it was written
from, and it is rooted exactly when the input was. -/
theorem cleanOut_renderOut (rt : Bool) (e : List Char) (st : List (List Char))
    (hst : cleanStack rt (e :: st)) :
    decide ((renderOut rt (e :: st)).head? = some '/') = rt ∧
    cleanOut (renderOut rt (e :: st)) = e :: st := by
  have helems := cleanStack_elems rt (e :: st) hst
  have hxs : (e :: st).reverse ≠ [] := by simp
  have hsl : ∀ x ∈ (e :: st).reverse, '/' ∉ x := fun x hx =>
    (helems x (List.mem_reverse.mp hx)).2
  have hsplit := splitSep_joinSep (e :: st).reverse hxs hsl
  have hrefold := cleanStack_refold rt (e :: st) hst
  have hhead : rt = false → (joinSep (e :: st).reverse).head? ≠ some '/' := by
    intro _
    cases hrev : (e :: st).reverse with
    | nil => exact absurd hrev hxs
    | cons x rest =>
      have hx : x ∈ (e :: st).reverse := by rw [hrev]; exact List.mem_cons_self _ _
      have hxe := helems x (List.mem_reverse.mp hx)
      rw [joinSep_head x rest hxe.1]
      exact head?_plain_aux x hxe.1 hxe.2
  cases rt with
  | true =>
    have h1 : decide ((renderOut true (e :: st)).head? = some '/') = true := by
      simp [renderOut]
    refine ⟨h1, ?_⟩
    unfold cleanOut
    rw [h1]
    have h2 : splitSep (renderOut true (e :: st)) = [] :: (e :: st).reverse := by
      have e1 : renderOut true (e :: st) = '/' :: joinSep (e :: st).reverse := rfl
      have e2 : splitSep ('/' :: joinSep (e :: st).reverse) =
          [] :: splitSep (joinSep (e :: st).reverse) := by simp [splitSep]
      rw [e1, e2, hsplit]
    rw [h2]
    simp only [List.foldl_cons]
    have h3 : cleanStep true [] [] = [] := by simp [cleanStep]
    rw [h3]
    exact hrefold
  | false =>
    have h1 : decide ((renderOut false (e :: st)).head? = some '/') = false := by
      simp only [renderOut, Bool.false_eq_true, if_false, decide_eq_false_iff_not]
      exact hhead rfl
    refine ⟨h1, ?_⟩
    unfold cleanOut
    rw [h1]
    have h2 : splitSep (renderOut false (e :: st)) = (e :: st).reverse := by
      simp only [renderOut, Bool.false_eq_true, if_false]
      exact hsplit
    rw [h2]
    exact hrefold

theorem Clean_top (X : String) (e : List Char) (st : List (List Char)) (hX : X.data ≠ [])
    (hst : cleanOut X.data = e :: st) :
    e ≠ [] ∧
    (Clean X).data = renderOut (decide (X.data.head? = some '/')) (e :: st) ∧
    (Clean X).data ≠ [] ∧
    cleanOut (Clean X).data = e :: st := by
  have hcs : cleanStack (decide (X.data.head? = some '/')) (e :: st) := by
    rw [← hst]; exact cleanOut_cleanStack X.data
  have he : e ≠ [] := hcs.1
  have hne := renderOut_cons_ne_nil (decide (X.data.head? = some '/')) e st he
  have hdata : (Clean X).data = renderOut (decide (X.data.head? = some '/')) (e :: st) := by
    rw [Clean_data X hX (by rw [hst]; exact hne), hst]
  refine ⟨he, hdata, by rw [hdata]; exact hne, ?_⟩
  rw [hdata]
  exact (cleanOut_renderOut _ e st hcs).2

/-- Joining a plain element to a cleaned path gives the path cleaned from the
joined input. -/
theorem Clean_Clean_append_plain (X a : String) (e : List Char) (st : List (List Char))
    (hX : X.data ≠ []) (hst : cleanOut X.data = e :: st) (ha : plainElem a.data) :
    Clean (Clean X ++ "/" ++ a) = Clean (X ++ "/" ++ a) ∧
    Clean (X ++ "/" ++ a) = Clean X ++ "/" ++ a := by
  obtain ⟨he, hdata, hne, hout⟩ := Clean_top X e st hX hst
  have h1 := Clean_append_plain X a e st hX hst he ha
  have h2 := Clean_append_plain (Clean X) a e st hne hout he ha
  have hcs : cleanStack (decide (X.data.head? = some '/')) (e :: st) := by
    rw [← hst]; exact cleanOut_cleanStack X.data
  have h3 : Clean (Clean X) = Clean X := by
    apply String.ext
    obtain ⟨-, hdata2, -, -⟩ := Clean_top (Clean X) e st hne hout
    rw [hdata2, hdata, (cleanOut_renderOut _ e st hcs).1]
  rw [h2, h3, h1]
  exact ⟨rfl, rfl⟩

theorem plain_ne_empty (s : String) (hs : plainElem s.data) : s ≠ "" := by
  intro h
  exact hs.1 (by rw [h])

theorem Join_two (r s : String) (hs : s ≠ "") :
    Join [r, s] = Clean (if r = "" then s else r ++ "/" ++ s) := by
  unfold Join
  by_cases hr : r = ""
  · simp [hr, List.dropWhile, hs, stringsJoin]
  · simp [hr, List.dropWhile, stringsJoin]

theorem Join_three (r s a : String) (hs : s ≠ "") :
    Join [r, s, a] = Clean ((if r = "" then s else r ++ "/" ++ s) ++ "/" ++ a) := by
  unfold Join
  by_cases hr : r = ""
  · simp [hr, List.dropWhile, hs, stringsJoin]
  · simp [hr, List.dropWhile, stringsJoin, String.append_assoc]

theorem Join_pair_clean (c a : String) (hc : c ≠ "") : Join [c, a] = Clean (c ++ "/" ++ a) := by
  unfold Join
  simp [hc, List.dropWhile, stringsJoin]

theorem String_data_ne_nil (s : String) (h : s ≠ "") : s.data ≠ [] := by
  intro h0
  exact h (String.ext h0)

/-- The path `filepath.Join(r, s, a)` for plain `s` and `a`: it is `Join(r, s)`
followed by `/a`, it is what `Join(Join(r, s), a)` gives, and `Join(r, s)` ends in
`s` after a part that depends on `r` alone. -/
theorem Join_plain (r : String) : ∃ pre : List Char, ∀ s a : String,
    plainElem s.data → plainElem a.data →
      (Join [r, s]).data = pre ++ s.data ∧
      Join [r, s, a] = Join [r, s] ++ "/" ++ a ∧
      Join [Join [r, s], a] = Join [r, s, a] := by
  by_cases hr : r = ""
  · refine ⟨[], fun s a hs ha => ?_⟩
    have hsne := plain_ne_empty s hs
    have hout : cleanOut s.data = [s.data] := cleanOut_plain s.data hs
    obtain ⟨-, hdata, hne, -⟩ := Clean_top s s.data [] hs.1 hout
    obtain ⟨h1, h2⟩ := Clean_Clean_append_plain s a s.data [] hs.1 hout ha
    have hJ2 : Join [r, s] = Clean s := by rw [Join_two r s hsne, if_pos hr]
    have hJ3 : Join [r, s, a] = Clean (s ++ "/" ++ a) := by rw [Join_three r s a hsne, if_pos hr]
    have hrt : decide (s.data.head? = some '/') = false := by
      simpa using head?_plain s.data hs
    refine ⟨?_, ?_, ?_⟩
    · rw [hJ2, hdata, hrt]
      simp [renderOut, joinSep]
    · rw [hJ3, hJ2, h2]
    · rw [hJ3, hJ2, Join_pair_clean _ _ (fun h => hne (by rw [h])), h1]
  · have hrd : r.data ≠ [] := String_data_ne_nil r hr
    refine ⟨(if cleanOut r.data = [] then
        (if decide (r.data.head? = some '/') = true then ['/'] else [])
      else renderOut (decide (r.data.head? = some '/')) (cleanOut r.data) ++ ['/']),
      fun s a hs ha => ?_⟩
    have hsne := plain_ne_empty s hs
    have hXd : (r ++ "/" ++ s).data = r.data ++ '/' :: s.data := by simp [String.data_append]
    have hX : (r ++ "/" ++ s).data ≠ [] := by rw [hXd]; simp [hrd]
    have hhead : (r ++ "/" ++ s).data.head? = r.data.head? := by
      rw [hXd]; exact head?_append_of_ne_nil _ _ hrd
    have hout : cleanOut (r ++ "/" ++ s).data = s.data :: cleanOut r.data := by
      rw [hXd]; exact cleanOut_append_plain _ _ hrd hs
    obtain ⟨-, hdata, hne, -⟩ := Clean_top (r ++ "/" ++ s) s.data _ hX hout
    obtain ⟨h1, h2⟩ := Clean_Clean_append_plain (r ++ "/" ++ s) a s.data _ hX hout ha
    have hJ2 : Join [r, s] = Clean (r ++ "/" ++ s) := by rw [Join_two r s hsne, if_neg hr]
    have hJ3 : Join [r, s, a] = Clean (r ++ "/" ++ s ++ "/" ++ a) := by
      rw [Join_three r s a hsne, if_neg hr]
    refine ⟨?_, ?_, ?_⟩
    · rw [hJ2, hdata, hhead, renderOut_cons]
    · rw [hJ3, hJ2, h2]
    · rw [hJ3, hJ2, Join_pair_clean _ _ (fun h => hne (by rw [h])), h1]

theorem append_sep_inj (s s' a a' : List Char) (hs : '/' ∉ s) (hs' : '/' ∉ s')
    (h : s ++ '/' :: a = s' ++ '/' :: a') : s = s' ∧ a = a' := by
  induction s generalizing s' with
  | nil =>
    cases s' with
    | nil => simpa using h
    | cons c cs =>
      simp only [List.nil_append, List.cons_append, List.cons.injEq] at h
      exact absurd (by simp [← h.1]) hs'
  | cons c cs ih =>
    cases s' with
    | nil =>
      simp only [List.nil_append, List.cons_append, List.cons.injEq] at h
      exact absurd (by simp [h.1]) hs
    | cons d ds =>
      simp only [List.cons_append, List.cons.injEq] at h
      obtain ⟨h1, h2⟩ := ih ds (fun h0 => hs (List.mem_cons_of_mem _ h0))
        (fun h0 => hs' (List.mem_cons_of_mem _ h0)) h.2
      exact ⟨by rw [h.1, h1], h2⟩

/-- Distinct plain names in distinct or equal areas give distinct paths. -/
theorem Join_plain_inj (r s s' a a' : String) (hs : plainElem s.data) (hs' : plainElem s'.data)
    (ha : plainElem a.data) (ha' : plainElem a'.data) (h : Join [r, s, a] = Join [r, s', a']) :
    s = s' ∧ a = a' := by
  obtain ⟨pre, hpre⟩ := Join_plain r
  obtain ⟨h1, h2, -⟩ := hpre s a hs ha
  obtain ⟨h1', h2', -⟩ := hpre s' a' hs' ha'
  have hd := congrArg String.data h
  rw [h2, h2'] at hd
  simp only [String.data_append, h1, h1', List.append_assoc] at hd
  have hd2 := List.append_cancel_left hd
  have hd3 : s.data ++ '/' :: a.data = s'.data ++ '/' :: a'.data := by simpa using hd2
  obtain ⟨e1, e2⟩ := append_sep_inj _ _ _ _ hs.2.1 hs'.2.1 hd3
  exact ⟨String.ext e1, String.ext e2⟩

/-! ## Identifiers: decimal numerals -/

theorem digitChar_mem (k : Nat) (hk : k < 10) :
    Nat.digitChar k ∈ ['0', '1', '2', '3', '4', '5', '6', '7', '8', '9'] := by
  interval_cases k <;> decide

theorem digitChar_val (k : Nat) (hk : k < 10) : (Nat.digitChar k).toNat - 48 = k := by
  interval_cases k <;> decide

theorem toDigitsCore_mem (fuel : Nat) : ∀ (n : Nat) (ds : List Char) (c : Char),
    c ∈ Nat.toDigitsCore 10 fuel n ds →
      c ∈ ds ∨ c ∈ ['0', '1', '2', '3', '4', '5', '6', '7', '8', '9'] := by
  induction fuel with
  | zero => intro n ds c h; exact Or.inl h
  | succ fuel ih =>
    intro n ds c h
    unfold Nat.toDigitsCore at h
    simp only at h
    split_ifs at h with h0
    · rcases List.mem_cons.mp h with rfl | h'
      · exact Or.inr (digitChar_mem _ (Nat.mod_lt _ (by decide)))
      · exact Or.inl h'
    · rcases ih _ _ c h with h' | h'
      · rcases List.mem_cons.mp h' with rfl | h''
        · exact Or.inr (digitChar_mem _ (Nat.mod_lt _ (by decide)))
        · exact Or.inl h''
      · exact Or.inr h'

theorem toDigitsCore_ne_nil (fuel : Nat) : ∀ (n : Nat) (ds : List Char),
    (fuel ≠ 0 ∨ ds ≠ []) → Nat.toDigitsCore 10 fuel n ds ≠ [] := by
  induction fuel with
  | zero =>
    intro n ds h
    rcases h with h | h
    · exact absurd rfl h
    · exact h
  | succ fuel ih =>
    intro n ds _
    unfold Nat.toDigitsCore
    simp only
    split_ifs
    · simp
    · exact ih _ _ (Or.inr (by simp))

theorem toDigitsCore_value (fuel : Nat) : ∀ (n : Nat) (ds : List Char), n < fuel →
    (Nat.toDigitsCore 10 fuel n ds).foldl (fun acc c => acc * 10 + (c.toNat - 48)) 0 =
      ds.foldl (fun acc c => acc * 10 + (c.toNat - 48)) n := by
  induction fuel with
  | zero => intro n ds h; omega
  | succ fuel ih =>
    intro n ds h
    unfold Nat.toDigitsCore
    simp only
    split_ifs with h0
    · simp only [List.foldl_cons, Nat.zero_mul, Nat.zero_add]
      rw [digitChar_val _ (Nat.mod_lt _ (by decide))]
      have : n % 10 = n := by omega
      rw [this]
    · have hlt : n / 10 < fuel := by omega
      rw [ih _ _ hlt]
      simp only [List.foldl_cons]
      rw [digitChar_val _ (Nat.mod_lt _ (by decide))]
      have : n / 10 * 10 + n % 10 = n := by omega
      rw [this]

theorem repr_data (n : Nat) : (Nat.repr n).data = Nat.toDigitsCore 10 (n + 1) n [] := rfl

theorem repr_inj {n m : Nat} (h : Nat.repr n = Nat.repr m) : n = m := by
  have hd := congrArg String.data h
  rw [repr_data, repr_data] at hd
  have hn := toDigitsCore_value (n + 1) n [] (Nat.lt_succ_self n)
  have hm := toDigitsCore_value (m + 1) m [] (Nat.lt_succ_self m)
  rw [hd, hm] at hn
  simpa using hn.symm

theorem repr_chars (n : Nat) (c : Char) (h : c ∈ (Nat.repr n).data) :
    c ∈ ['0', '1', '2', '3', '4', '5', '6', '7', '8', '9'] := by
  rw [repr_data] at h
  rcases toDigitsCore_mem _ _ _ _ h with h' | h'
  · simp at h'
  · exact h'

theorem repr_ne_nil (n : Nat) : (Nat.repr n).data ≠ [] := by
  rw [repr_data]
  exact toDigitsCore_ne_nil _ _ _ (Or.inl (by simp))

theorem plain_of_digits (l : List Char) (hne : l ≠ [])
    (h : ∀ c ∈ l, c ∈ ['0', '1', '2', '3', '4', '5', '6', '7', '8', '9']) : plainElem l := by
  refine ⟨hne, ?_, ?_, ?_⟩
  · intro hm
    have := h _ hm
    revert this
    decide
  · intro he
    have := h '.' (by rw [he]; simp)
    revert this
    decide
  · intro he
    have := h '.' (by rw [he]; simp)
    revert this
    decide

theorem plain_repr (n : Nat) : plainElem (Nat.repr n).data :=
  plain_of_digits _ (repr_ne_nil n) (repr_chars n)

theorem plain_tagged (c : Char) (p : List Char) (n : Nat) (hc : c ≠ '/') (hc2 : c ≠ '.')
    (hp : '/' ∉ p) : plainElem (String.mk (c :: p) ++ Nat.repr n).data := by
  have hdata : (String.mk (c :: p) ++ Nat.repr n).data = c :: (p ++ (Nat.repr n).data) := by
    simp [String.data_append]
  rw [hdata]
  refine ⟨by simp, ?_, ?_, ?_⟩
  · intro hm
    rcases List.mem_cons.mp hm with h | h
    · exact hc h.symm
    · rcases List.mem_append.mp h with h | h
      · exact hp h
      · exact (plain_repr n).2.1 h
  · intro he
    simp only [List.cons.injEq] at he
    exact hc2 he.1
  · intro he
    simp only [List.cons.injEq] at he
    exact hc2 he.1

theorem plain_rm (n : Nat) : plainElem ("rm-" ++ Nat.repr n).data :=
  plain_tagged 'r' ['m', '-'] n (by decide) (by decide) (by decide)

theorem plain_new (n : Nat) : plainElem ("new-" ++ Nat.repr n).data :=
  plain_tagged 'n' ['e', 'w', '-'] n (by decide) (by decide) (by decide)

theorem tagged_ne_repr (c : Char) (p : List Char) (x : String) (n : Nat)
    (hc : c ∉ ['0', '1', '2', '3', '4', '5', '6', '7', '8', '9']) :
    String.mk (c :: p) ++ x ≠ Nat.repr n := by
  intro h
  have hd := congrArg String.data h
  have hmem : c ∈ (Nat.repr n).data := by
    rw [← hd]; simp [String.data_append]
  exact hc (repr_chars n c hmem)

theorem rm_ne_repr (x : String) (n : Nat) : "rm-" ++ x ≠ Nat.repr n :=
  tagged_ne_repr 'r' ['m', '-'] x n (by decide)

theorem new_ne_repr (x : String) (n : Nat) : "new-" ++ x ≠ Nat.repr n :=
  tagged_ne_repr 'n' ['e', 'w', '-'] x n (by decide)

theorem plain_snapshots : plainElem "snapshots".data := by
  refine ⟨by decide, by decide, by decide, by decide⟩

theorem plain_active : plainElem "active".data := by
  refine ⟨by decide, by decide, by decide, by decide⟩

/-! ## The metadata operations keep the store well-formed -/

theorem WellFormed_create {ms tx : storage.MetaStore} {key parent : String} {ro : Bool}
    {a : storage.Active} (hwf : storage.WellFormed ms)
    (h : storage.CreateActive ms key parent ro = .ok (a, tx)) : storage.WellFormed tx := by
  obtain ⟨-, hid, -, htx, -⟩ := storage_CreateActive_ok h
  obtain ⟨h1, h2, h3, h4, h5⟩ := hwf
  subst htx
  have hfresh : ∀ b ∈ ms.active, b.ID ≠ a.ID := by
    intro b hb heq
    obtain ⟨n, hn, hbn⟩ := h1 b hb
    rw [hbn, hid] at heq
    have := repr_inj heq
    omega
  have hfresh2 : ∀ c ∈ ms.committed, c.ID ≠ a.ID := by
    intro c hc heq
    obtain ⟨n, hn, hcn⟩ := h2 c hc
    rw [hcn, hid] at heq
    have := repr_inj heq
    omega
  refine ⟨?_, ?_, ?_, h4, ?_⟩
  · intro b hb
    rcases List.mem_cons.mp hb with rfl | hb'
    · exact ⟨ms.seq + 1, Nat.le_refl _, hid⟩
    · obtain ⟨n, hn, hbn⟩ := h1 b hb'
      exact ⟨n, Nat.le_succ_of_le hn, hbn⟩
  · intro c hc
    obtain ⟨n, hn, hcn⟩ := h2 c hc
    exact ⟨n, Nat.le_succ_of_le hn, hcn⟩
  · intro x hx y hy hxy
    rcases List.mem_cons.mp hx with rfl | hx' <;> rcases List.mem_cons.mp hy with rfl | hy'
    · rfl
    · exact absurd hxy.symm (hfresh y hy')
    · exact absurd hxy (hfresh x hx')
    · exact h3 x hx' y hy' hxy
  · intro x hx c hc
    rcases List.mem_cons.mp hx with rfl | hx'
    · exact fun heq => hfresh2 c hc heq.symm
    · exact h5 x hx' c hc

theorem WellFormed_commit {ms tx : storage.MetaStore} {key name id : String}
    (hwf : storage.WellFormed ms) (h : storage.CommitActive ms key name = .ok (id, tx)) :
    storage.WellFormed tx := by
  obtain ⟨-, a, ha, hkey, hid, -, htx⟩ := storage_CommitActive_ok h
  obtain ⟨h1, h2, h3, h4, h5⟩ := hwf
  subst htx
  have hfilter : ∀ x, x ∈ ms.active.filter (fun b => ¬ b.Key = key) → x ∈ ms.active ∧ x.ID ≠ a.ID := by
    intro x hx
    have hx' := List.mem_filter.mp hx
    refine ⟨hx'.1, fun heq => ?_⟩
    have := h3 x hx'.1 a ha heq
    rw [this] at hx'
    simp [hkey] at hx'
  refine ⟨?_, ?_, ?_, ?_, ?_⟩
  · intro x hx
    exact h1 x (hfilter x hx).1
  · intro c hc
    rcases List.mem_cons.mp hc with rfl | hc'
    · exact h1 a ha
    · exact h2 c hc'
  · intro x hx y hy hxy
    exact h3 x (hfilter x hx).1 y (hfilter y hy).1 hxy
  · intro c hc d hd hcd
    rcases List.mem_cons.mp hc with rfl | hc' <;> rcases List.mem_cons.mp hd with rfl | hd'
    · rfl
    · exact absurd hcd (h5 a ha d hd')
    · exact absurd hcd.symm (h5 a ha c hc')
    · exact h4 c hc' d hd' hcd
  · intro x hx c hc
    rcases List.mem_cons.mp hc with rfl | hc'
    · exact (hfilter x hx).2
    · exact h5 x (hfilter x hx).1 c hc'

theorem storage_Remove_ok {ms tx : storage.MetaStore} {key id : String} {k : storage.Kind}
    (h : storage.Remove ms key = .ok (id, k, tx)) :
    (k = .KindActive ∧ ∃ a ∈ ms.active, a.Key = key ∧ a.ID = id ∧
      tx = ⟨ms.seq, ms.active.filter (fun b => ¬ b.Key = key), ms.committed⟩) ∨
    (k = .KindCommitted ∧ ∃ c ∈ ms.committed, c.Name = key ∧ c.ID = id ∧
      (∀ a ∈ ms.active, a.ParentIDs.head? ≠ some c.ID) ∧
      tx = ⟨ms.seq, ms.active, ms.committed.filter (fun d => ¬ d.Name = key)⟩) := by
  unfold storage.Remove at h
  split at h
  · rename_i a hfind
    simp only [Except.ok.injEq, Prod.mk.injEq] at h
    obtain ⟨h1, h2, h3⟩ := h
    left
    refine ⟨h2.symm, a, List.mem_of_find?_eq_some hfind, ?_, h1, h3.symm⟩
    have := List.find?_some hfind
    simpa using this
  · split at h
    · cases h
    · rename_i c hfind
      split at h
      · cases h
      · rename_i hany
        simp only [Except.ok.injEq, Prod.mk.injEq] at h
        obtain ⟨h1, h2, h3⟩ := h
        right
        refine ⟨h2.symm, c, List.mem_of_find?_eq_some hfind, ?_, h1, ?_, h3.symm⟩
        · have := List.find?_some hfind
          simpa using this
        · intro a ha heq
          apply hany
          simp only [List.any_eq_true, decide_eq_true_eq]
          exact ⟨a, ha, heq⟩

theorem WellFormed_remove {ms tx : storage.MetaStore} {key id : String} {k : storage.Kind}
    (hwf : storage.WellFormed ms) (h : storage.Remove ms key = .ok (id, k, tx)) :
    storage.WellFormed tx := by
  obtain ⟨h1, h2, h3, h4, h5⟩ := hwf
  rcases storage_Remove_ok h with ⟨-, a, -, -, -, htx⟩ | ⟨-, c, -, -, -, -, htx⟩
  · subst htx
    exact ⟨fun x hx => h1 x (List.mem_filter.mp hx).1, h2,
      fun x hx y hy => h3 x (List.mem_filter.mp hx).1 y (List.mem_filter.mp hy).1, h4,
      fun x hx => h5 x (List.mem_filter.mp hx).1⟩
  · subst htx
    exact ⟨h1, fun x hx => h2 x (List.mem_filter.mp hx).1, h3,
      fun x hx y hy => h4 x (List.mem_filter.mp hx).1 y (List.mem_filter.mp hy).1,
      fun x hx y hy => h5 x hx y (List.mem_filter.mp hy).1⟩

theorem storage_Remove_others {ms tx : storage.MetaStore} {key id : String} {k : storage.Kind}
    (hwf : storage.WellFormed ms) (h : storage.Remove ms key = .ok (id, k, tx)) :
    (∀ x ∈ tx.active, x ∈ ms.active ∧ x.ID ≠ id) ∧
    (∀ c ∈ tx.committed, c ∈ ms.committed ∧ c.ID ≠ id) ∧
    (∃ n, n ≤ ms.seq ∧ id = Nat.repr n) ∧ tx.seq = ms.seq ∧
    ((k = .KindActive ∧ ∃ a ∈ ms.active, a.ID = id) ∨
     (k = .KindCommitted ∧ ∃ c ∈ ms.committed, c.ID = id)) := by
  obtain ⟨h1, h2, h3, h4, h5⟩ := hwf
  rcases storage_Remove_ok h with ⟨hk, a, ha, hkey, hid, htx⟩ | ⟨hk, c, hc, hname, hid, -, htx⟩
  · subst htx
    refine ⟨?_, ?_, ?_, rfl, Or.inl ⟨hk, a, ha, hid⟩⟩
    · intro x hx
      have hx' := List.mem_filter.mp hx
      refine ⟨hx'.1, fun heq => ?_⟩
      have := h3 x hx'.1 a ha (heq.trans hid.symm)
      rw [this] at hx'
      simp [hkey] at hx'
    · intro c hc
      exact ⟨hc, fun heq => h5 a ha c hc (hid.trans heq.symm)⟩
    · obtain ⟨n, hn, han⟩ := h1 a ha
      exact ⟨n, hn, hid.symm.trans han⟩
  · subst htx
    refine ⟨?_, ?_, ?_, rfl, Or.inr ⟨hk, c, hc, hid⟩⟩
    · intro x hx
      exact ⟨hx, fun heq => h5 x hx c hc (heq.trans hid.symm)⟩
    · intro d hd
      have hd' := List.mem_filter.mp hd
      refine ⟨hd'.1, fun heq => ?_⟩
      have := h4 d hd'.1 c hc (heq.trans hid.symm)
      rw [this] at hd'
      simp [hname] at hd'
    · obtain ⟨n, hn, hcn⟩ := h2 c hc
      exact ⟨n, hn, hid.symm.trans hcn⟩

theorem storage_CommitActive_others {ms tx : storage.MetaStore} {key name id : String}
    (hwf : storage.WellFormed ms) (h : storage.CommitActive ms key name = .ok (id, tx)) :
    (∀ x ∈ tx.active, x ∈ ms.active ∧ x.ID ≠ id) ∧
    (∀ c ∈ tx.committed, c.ID = id ∨ (c ∈ ms.committed ∧ c.ID ≠ id)) ∧
    (∃ a ∈ ms.active, a.ID = id ∧ a.Readonly = false) ∧
    (∃ n, n ≤ ms.seq ∧ id = Nat.repr n) ∧ tx.seq = ms.seq := by
  obtain ⟨-, a, ha, hkey, hid, hro, htx⟩ := storage_CommitActive_ok h
  obtain ⟨h1, h2, h3, h4, h5⟩ := hwf
  subst htx
  refine ⟨?_, ?_, ⟨a, ha, hid, hro⟩, ?_, rfl⟩
  · intro x hx
    have hx' := List.mem_filter.mp hx
    refine ⟨hx'.1, fun heq => ?_⟩
    have := h3 x hx'.1 a ha (heq.trans hid.symm)
    rw [this] at hx'
    simp [hkey] at hx'
  · intro c hc
    rcases List.mem_cons.mp hc with rfl | hc'
    · exact Or.inl hid
    · exact Or.inr ⟨hc', fun heq => h5 a ha c hc' (hid.trans heq.symm)⟩
  · obtain ⟨n, hn, han⟩ := h1 a ha
    exact ⟨n, hn, hid.symm.trans han⟩

/-! ## Paths of storage units -/

theorem Join_nested (r s x : String) (hs : plainElem s.data) (hx : plainElem x.data) :
    Join [Join [r, s], x] = Join [r, s, x] := by
  obtain ⟨pre, hpre⟩ := Join_plain r
  exact (hpre s x hs hx).2.2

theorem unit_path_inj (r s s' : String) (n m : Nat) (hs : plainElem s.data)
    (hs' : plainElem s'.data) (h : Join [r, s, Nat.repr n] = Join [r, s', Nat.repr m]) :
    s = s' ∧ n = m := by
  obtain ⟨e1, e2⟩ := Join_plain_inj r s s' _ _ hs hs' (plain_repr n) (plain_repr m) h
  exact ⟨e1, repr_inj e2⟩

theorem unit_path_ne_rm (r s s' : String) (n m : Nat) (hs : plainElem s.data)
    (hs' : plainElem s'.data) : Join [r, s, Nat.repr n] ≠ Join [r, s', "rm-" ++ Nat.repr m] := by
  intro h
  obtain ⟨-, e2⟩ := Join_plain_inj r s s' _ _ hs hs' (plain_repr n) (plain_rm m) h
  exact rm_ne_repr _ _ e2.symm

theorem unit_path_ne_new (r s s' : String) (n m : Nat) (hs : plainElem s.data)
    (hs' : plainElem s'.data) : Join [r, s, Nat.repr n] ≠ Join [r, s', "new-" ++ Nat.repr m] := by
  intro h
  obtain ⟨-, e2⟩ := Join_plain_inj r s s' _ _ hs hs' (plain_repr n) (plain_new m) h
  exact new_ne_repr _ _ e2.symm

theorem temp_path (r : String) (m : Nat) :
    Join [Join [r, "snapshots"], "new-" ++ Nat.repr m] = Join [r, "snapshots", "new-" ++ Nat.repr m] :=
  Join_nested r "snapshots" _ plain_snapshots (plain_new m)

/-! ## overlay: successful operations keep every recorded ID stored -/

theorem overlay_createActive_consistent {o : overlay.snapshotter} {f : Faults}
    {ms : storage.MetaStore} {fs : DirFS} {key parent : String} {ro : Bool} {M : List Mount}
    (hC : overlay.Consistent o ms fs)
    (h : (overlay.createActive o f ms fs key parent ro).ret = .ok M) :
    overlay.Consistent o (overlay.createActive o f ms fs key parent ro).ms
      (overlay.createActive o f ms fs key parent ro).fs := by
  obtain ⟨a, tx, hc, -, hms, -, -, hfs⟩ := overlay_createActive_ok h
  obtain ⟨hwf, hact, hcom⟩ := hC
  obtain ⟨-, hid, -, htx, -⟩ := storage_CreateActive_ok hc
  have hwf' := WellFormed_create hwf hc
  rw [hms]
  have hold : ∀ n, (fs (Join [o.root, "snapshots", Nat.repr n])).isSome = true →
      ((overlay.createActive o f ms fs key parent ro).fs
        (Join [o.root, "snapshots", Nat.repr n])).isSome = true := by
    intro n hn
    rw [hfs]
    by_cases h1 : Join [o.root, "snapshots", Nat.repr n] = Join [Join [o.root, "snapshots"], a.ID]
    · rw [if_pos h1]; rfl
    · rw [if_neg h1, temp_path,
        if_neg (unit_path_ne_new _ _ _ _ _ plain_snapshots plain_snapshots)]
      exact hn
  refine ⟨hwf', ?_, ?_⟩
  · intro b hb
    rw [htx] at hb
    rcases List.mem_cons.mp hb with rfl | hb'
    · rw [hfs, hid, Join_nested _ _ _ plain_snapshots (plain_repr _), if_pos rfl]
      rfl
    · obtain ⟨n, -, hbn⟩ := hwf.1 b hb'
      have := hact b hb'
      rw [hbn] at this ⊢
      exact hold n this
  · intro c hc'
    rw [htx] at hc'
    obtain ⟨n, -, hcn⟩ := hwf.2.1 c hc'
    have := hcom c hc'
    rw [hcn] at this ⊢
    exact hold n this

theorem overlay_Commit_consistent {o : overlay.snapshotter} {f : Faults}
    {ms : storage.MetaStore} {fs : DirFS} {name key : String}
    (hC : overlay.Consistent o ms fs)
    (h : (overlay.Commit o f ms fs name key).ret = .ok ()) :
    overlay.Consistent o (overlay.Commit o f ms fs name key).ms
      (overlay.Commit o f ms fs name key).fs := by
  obtain ⟨hwf, hact, hcom⟩ := hC
  unfold overlay.Commit at h ⊢
  cases h1 : f.Begin with
  | some e => simp [h1] at h
  | none =>
    cases h2 : f.Storage with
    | some e => simp [h1, h2, storageCall] at h
    | none =>
      cases h3 : storage.CommitActive ms key name with
      | error e => simp [h1, h2, h3, storageCall] at h
      | ok r =>
        obtain ⟨id, tx⟩ := r
        cases h4 : f.Commit with
        | some e => simp [h1, h2, h3, h4, storageCall] at h
        | none =>
          simp only [h1, h2, h3, h4, storageCall]
          obtain ⟨ho1, ho2, ⟨a, ha, hid, -⟩, -, -⟩ := storage_CommitActive_others hwf h3
          refine ⟨WellFormed_commit hwf h3, fun x hx => hact x (ho1 x hx).1, ?_⟩
          intro c hc
          rcases ho2 c hc with hc1 | hc2
          · rw [hc1, ← hid]; exact hact a ha
          · exact hcom c hc2.1

theorem osRemoveAll_other (fault : Option Error) (fs : DirFS) (path q : String) (hq : q ≠ path) :
    (osRemoveAll fault fs path).2 q = fs q := by
  unfold osRemoveAll
  cases fault with
  | some e => rfl
  | none => simp [DirFS.set, hq]

theorem overlay_Remove_consistent {o : overlay.snapshotter} {f : Faults}
    {ms : storage.MetaStore} {fs : DirFS} {key : String}
    (hC : overlay.Consistent o ms fs)
    (h : (overlay.Remove o f ms fs key).ret = .ok ()) :
    overlay.Consistent o (overlay.Remove o f ms fs key).ms (overlay.Remove o f ms fs key).fs := by
  obtain ⟨hwf, hact, hcom⟩ := hC
  unfold overlay.Remove at h ⊢
  cases h1 : f.Begin with
  | some e => simp [h1] at h
  | none =>
    cases h2 : f.Storage with
    | some e => simp [h1, h2, storageCall] at h
    | none =>
      cases h3 : storage.Remove ms key with
      | error e => simp [h1, h2, h3, storageCall] at h
      | ok r =>
        obtain ⟨id, k, tx⟩ := r
        simp only [h1, h2, h3, storageCall] at h ⊢
        generalize hr : osRename f.Rename fs (Join [o.root, "snapshots", id])
          (Join [o.root, "snapshots", "rm-" ++ id]) = rn at h ⊢
        obtain ⟨re, rfs⟩ := rn
        cases re with
        | some e => simp at h
        | none =>
          obtain ⟨d, -, hrfs⟩ := osRename_ok hr
          cases h4 : f.Commit with
          | some e => simp [h4] at h
          | none =>
            simp only [h4]
            obtain ⟨ho1, ho2, ⟨n, -, hidn⟩, -, -⟩ := storage_Remove_others hwf h3
            have hkeep : ∀ m, m ≠ n →
                (fs (Join [o.root, "snapshots", Nat.repr m])).isSome = true →
                ((osRemoveAll f.RemoveRenamed rfs (Join [o.root, "snapshots", "rm-" ++ id])).2
                  (Join [o.root, "snapshots", Nat.repr m])).isSome = true := by
              intro m hm hsome
              rw [hidn] at hrfs ⊢
              rw [osRemoveAll_other _ _ _ _
                (unit_path_ne_rm _ _ _ _ _ plain_snapshots plain_snapshots), hrfs]
              simp only [DirFS.set]
              rw [if_neg (unit_path_ne_rm _ _ _ _ _ plain_snapshots plain_snapshots),
                if_neg (fun heq => hm (unit_path_inj _ _ _ _ _ plain_snapshots plain_snapshots
                  heq).2)]
              exact hsome
            refine ⟨WellFormed_remove hwf h3, ?_, ?_⟩
            · intro x hx
              obtain ⟨hx1, hx2⟩ := ho1 x hx
              obtain ⟨m, -, hxm⟩ := hwf.1 x hx1
              have := hact x hx1
              rw [hxm] at this ⊢
              exact hkeep m (fun hmn => hx2 (by rw [hxm, hidn, hmn])) this
            · intro c hc
              obtain ⟨hc1, hc2⟩ := ho2 c hc
              obtain ⟨m, -, hcm⟩ := hwf.2.1 c hc1
              have := hcom c hc1
              rw [hcm] at this ⊢
              exact hkeep m (fun hmn => hc2 (by rw [hcm, hidn, hmn])) this

/-! ## naive: successful operations keep every recorded ID stored -/

theorem naive_createActive_consistent {o : naive.snapshotter} {f : Faults}
    {ms : storage.MetaStore} {fs : DirFS} {key parent : String} {ro : Bool} {M : List Mount}
    (hC : naive.Consistent o ms fs)
    (h : (naive.createActive o f ms fs key parent ro).ret = .ok M) :
    naive.Consistent o (naive.createActive o f ms fs key parent ro).ms
      (naive.createActive o f ms fs key parent ro).fs := by
  obtain ⟨a, tx, hc, -, hms, -, hcases⟩ := naive_createActive_ok h
  obtain ⟨hwf, hact, hview, hcom, hfree⟩ := hC
  obtain ⟨-, hid, haro, htx, -, hp0, hp1⟩ := storage_CreateActive_ok hc
  have hwf' := WellFormed_create hwf hc
  rw [hms]
  rcases hcases with ⟨hro, hpar, hfs⟩ | ⟨hdef, -, d, hfs⟩
  · rw [hfs]
    have hapar : a.ParentIDs ≠ [] := by
      obtain ⟨p, -, -, hpp⟩ := hp1 hpar
      rw [hpp]; simp
    subst htx
    refine ⟨hwf', ?_, ?_, hcom, ?_⟩
    · intro b hb hb2
      rcases List.mem_cons.mp hb with rfl | hb'
      · rcases hb2 with h1 | h1
        · rw [haro, hro] at h1; cases h1
        · exact absurd h1 hapar
      · exact hact b hb' hb2
    · intro b hb hb1 hb2
      rcases List.mem_cons.mp hb with rfl | hb'
      · rw [hid]; exact hfree _ (Nat.lt_succ_self _)
      · exact hview b hb' hb1 hb2
    · intro n hn
      exact hfree n (Nat.lt_of_succ_lt hn)
  · have hold : ∀ n, n ≠ ms.seq + 1 →
        (naive.createActive o f ms fs key parent ro).fs (Join [o.root, "snapshots", Nat.repr n]) =
          fs (Join [o.root, "snapshots", Nat.repr n]) := by
      intro n hn
      rw [hfs, hid]
      have hne : Join [o.root, "snapshots", Nat.repr n] ≠
          naive.getSnapshotDir o (Nat.repr (ms.seq + 1)) := fun heq =>
        hn (unit_path_inj _ _ _ _ _ plain_snapshots plain_snapshots heq).2
      rw [if_neg hne, temp_path,
        if_neg (unit_path_ne_new _ _ _ _ _ plain_snapshots plain_snapshots)]
    have holdrec : ∀ n, n ≤ ms.seq →
        (naive.createActive o f ms fs key parent ro).fs (Join [o.root, "snapshots", Nat.repr n]) =
          fs (Join [o.root, "snapshots", Nat.repr n]) := fun n hn => hold n (by omega)
    subst htx
    refine ⟨hwf', ?_, ?_, ?_, ?_⟩
    · intro b hb hb2
      rcases List.mem_cons.mp hb with rfl | hb'
      · rw [hfs]
        have : Join [o.root, "snapshots", b.ID] = naive.getSnapshotDir o b.ID := rfl
        rw [if_pos this]; rfl
      · obtain ⟨n, hn, hbn⟩ := hwf.1 b hb'
        have := hact b hb' hb2
        rw [hbn] at this ⊢
        rw [holdrec n hn]; exact this
    · intro b hb hb1 hb2
      rcases List.mem_cons.mp hb with rfl | hb'
      · rcases hdef with h1 | h1
        · rw [haro, h1] at hb1; cases hb1
        · exact absurd (hp0 h1) hb2
      · obtain ⟨n, hn, hbn⟩ := hwf.1 b hb'
        have := hview b hb' hb1 hb2
        rw [hbn] at this ⊢
        rw [holdrec n hn]; exact this
    · intro c hc'
      obtain ⟨n, hn, hcn⟩ := hwf.2.1 c hc'
      have := hcom c hc'
      rw [hcn] at this ⊢
      rw [holdrec n hn]; exact this
    · intro n hn
      have hn' : ms.seq + 1 < n := hn
      rw [hold n (by omega)]
      exact hfree n (by omega)

theorem naive_Commit_consistent {o : naive.snapshotter} {f : Faults}
    {ms : storage.MetaStore} {fs : DirFS} {name key : String}
    (hC : naive.Consistent o ms fs)
    (h : (naive.Commit o f ms fs name key).ret = .ok ()) :
    naive.Consistent o (naive.Commit o f ms fs name key).ms
      (naive.Commit o f ms fs name key).fs := by
  obtain ⟨hwf, hact, hview, hcom, hfree⟩ := hC
  unfold naive.Commit at h ⊢
  cases h1 : f.Begin with
  | some e => simp [h1] at h
  | none =>
    cases h2 : f.Storage with
    | some e => simp [h1, h2, storageCall] at h
    | none =>
      cases h3 : storage.CommitActive ms key name with
      | error e => simp [h1, h2, h3, storageCall] at h
      | ok r =>
        obtain ⟨id, tx⟩ := r
        cases h4 : f.Commit with
        | some e => simp [h1, h2, h3, h4, storageCall] at h
        | none =>
          simp only [h1, h2, h3, h4, storageCall]
          obtain ⟨ho1, ho2, ⟨a, ha, hid, haro⟩, -, hseq⟩ := storage_CommitActive_others hwf h3
          refine ⟨WellFormed_commit hwf h3, fun x hx => hact x (ho1 x hx).1,
            fun x hx => hview x (ho1 x hx).1, ?_, ?_⟩
          · intro c hc
            rcases ho2 c hc with hc1 | hc2
            · rw [hc1, ← hid]; exact hact a ha (Or.inl haro)
            · exact hcom c hc2.1
          · intro n hn
            rw [hseq] at hn
            exact hfree n hn

theorem naive_Remove_ok {o : naive.snapshotter} {f : Faults} {ms : storage.MetaStore}
    {fs : DirFS} {key : String} (h : (naive.Remove o f ms fs key).ret = .ok ()) :
    ∃ id k tx, storage.Remove ms key = .ok (id, k, tx) ∧
      (naive.Remove o f ms fs key).ms = tx ∧
      (naive.Remove o f ms fs key).tx = .committed ∧
      ∀ q, q ≠ Join [o.root, "snapshots", id] → q ≠ Join [o.root, "snapshots", "rm-" ++ id] →
        (naive.Remove o f ms fs key).fs q = fs q := by
  unfold naive.Remove at h ⊢
  cases h1 : f.Begin with
  | some e => simp [h1] at h
  | none =>
    cases h2 : f.Storage with
    | some e => simp [h1, h2, storageCall] at h
    | none =>
      cases h3 : storage.Remove ms key with
      | error e => simp [h1, h2, h3, storageCall] at h
      | ok r =>
        obtain ⟨id, k, tx⟩ := r
        refine ⟨id, k, tx, rfl, ?_⟩
        simp only [h1, h2, h3, storageCall] at h ⊢
        generalize hr : osRename f.Rename fs (naive.getSnapshotDir o id)
          (Join [o.root, "snapshots", "rm-" ++ id]) = rn at h ⊢
        obtain ⟨re, rfs⟩ := rn
        cases h4 : f.Commit with
        | some e =>
          cases re with
          | some e' => cases hnx : osIsNotExist e' <;> simp [h4, hnx] at h
          | none => simp [h4] at h
        | none =>
          cases re with
          | some e' =>
            cases hnx : osIsNotExist e' with
            | false => simp [h4, hnx] at h
            | true =>
              have hrfs : rfs = fs := by
                unfold osRename at hr
                split at hr
                · simp only [Prod.mk.injEq] at hr; exact hr.2.symm
                · cases hf : f.Rename with
                  | some e'' => simp only [hf, Prod.mk.injEq] at hr; exact hr.2.symm
                  | none => simp [hf] at hr
              simp only [h4, hnx, hrfs]
              simp
          | none =>
            obtain ⟨d, -, hrfs⟩ := osRename_ok hr
            simp only [h4]
            refine ⟨trivial, trivial, fun q hq1 hq2 => ?_⟩
            by_cases hrn : Join [o.root, "snapshots", "rm-" ++ id] = ""
            · simp only [hrn, ne_eq, not_true_eq_false, if_false]
              rw [hrfs]
              simp only [DirFS.set]
              rw [if_neg hq2]
              exact if_neg hq1
            · simp only [ne_eq, hrn, not_false_eq_true, if_true]
              rw [osRemoveAll_other _ _ _ _ hq2, hrfs]
              simp only [DirFS.set]
              rw [if_neg hq2]
              exact if_neg hq1

theorem naive_Remove_consistent {o : naive.snapshotter} {f : Faults}
    {ms : storage.MetaStore} {fs : DirFS} {key : String}
    (hC : naive.Consistent o ms fs)
    (h : (naive.Remove o f ms fs key).ret = .ok ()) :
    naive.Consistent o (naive.Remove o f ms fs key).ms (naive.Remove o f ms fs key).fs := by
  obtain ⟨hwf, hact, hview, hcom, hfree⟩ := hC
  obtain ⟨id, k, tx, h3, hms, -, hfs⟩ := naive_Remove_ok h
  obtain ⟨ho1, ho2, ⟨n, hn, hidn⟩, hseq, -⟩ := storage_Remove_others hwf h3
  rw [hms]
  have hkeep : ∀ m, m ≠ n →
      (naive.Remove o f ms fs key).fs (Join [o.root, "snapshots", Nat.repr m]) =
        fs (Join [o.root, "snapshots", Nat.repr m]) := by
    intro m hm
    apply hfs
    · rw [hidn]
      exact fun heq => hm (unit_path_inj _ _ _ _ _ plain_snapshots plain_snapshots heq).2
    · rw [hidn]
      exact unit_path_ne_rm _ _ _ _ _ plain_snapshots plain_snapshots
  refine ⟨WellFormed_remove hwf h3, ?_, ?_, ?_, ?_⟩
  · intro x hx hx3
    obtain ⟨hx1, hx2⟩ := ho1 x hx
    obtain ⟨m, -, hxm⟩ := hwf.1 x hx1
    have := hact x hx1 hx3
    rw [hxm] at this ⊢
    rw [hkeep m (fun hmn => hx2 (by rw [hxm, hidn, hmn]))]; exact this
  · intro x hx hx3 hx4
    obtain ⟨hx1, hx2⟩ := ho1 x hx
    obtain ⟨m, -, hxm⟩ := hwf.1 x hx1
    have := hview x hx1 hx3 hx4
    rw [hxm] at this ⊢
    rw [hkeep m (fun hmn => hx2 (by rw [hxm, hidn, hmn]))]; exact this
  · intro c hc
    obtain ⟨hc1, hc2⟩ := ho2 c hc
    obtain ⟨m, -, hcm⟩ := hwf.2.1 c hc1
    have := hcom c hc1
    rw [hcm] at this ⊢
    rw [hkeep m (fun hmn => hc2 (by rw [hcm, hidn, hmn]))]; exact this
  · intro m hm
    rw [hseq] at hm
    rw [hkeep m (by omega)]
    exact hfree m hm

/-! ## btrfs: successful operations keep every recorded ID stored once -/

theorem btrfs_SubvolCreate_ok {fault : Option Error} {fs fs' : btrfs.VolFS} {path : String}
    (h : btrfs.SubvolCreate fault fs path = (none, fs')) :
    fs.vols path = none ∧
      fs' = { (fs.set path (some ⟨fs.nextID, false, fs.nextID⟩)) with nextID := fs.nextID + 1 } := by
  unfold btrfs.SubvolCreate at h
  cases fault with
  | some e => simp at h
  | none =>
    simp only at h
    split at h
    · simp at h
    · rename_i hp
      simp only [Prod.mk.injEq, true_and] at h
      exact ⟨hp, h.symm⟩

theorem btrfs_SubvolSnapshot_other (fault : Option Error) (fs : btrfs.VolFS) (dst src q : String)
    (ro : Bool) (hq : q ≠ dst) :
    (btrfs.SubvolSnapshot fault fs dst src ro).2.vols q = fs.vols q := by
  unfold btrfs.SubvolSnapshot
  split
  · rfl
  · cases fault with
    | some e => rfl
    | none =>
      simp only
      split
      · rfl
      · simp [btrfs.VolFS.set, hq]

theorem btrfs_makeActive_ok {b : btrfs.Snapshotter} {f : Faults} {ms : storage.MetaStore}
    {fs : btrfs.VolFS} {key parent : String} {ro : Bool} {M : List Mount}
    (h : (btrfs.makeActive b f ms fs key parent ro).ret = .ok M) :
    ∃ a tx, storage.CreateActive ms key parent ro = .ok (a, tx) ∧
      (btrfs.makeActive b f ms fs key parent ro).ms = tx ∧
      (btrfs.makeActive b f ms fs key parent ro).tx = .committed ∧
      fs.vols (Join [b.root, "active", a.ID]) = none ∧
      ∃ v, ∀ q, (btrfs.makeActive b f ms fs key parent ro).fs.vols q =
        if q = Join [b.root, "active", a.ID] then some v else fs.vols q := by
  unfold btrfs.makeActive at h ⊢
  cases h1 : f.Begin with
  | some e => simp [h1] at h
  | none =>
    cases h2 : f.Storage with
    | some e => simp [h1, h2, storageCall] at h
    | none =>
      cases h3 : storage.CreateActive ms key parent ro with
      | error e => simp [h1, h2, h3, storageCall] at h
      | ok r =>
        obtain ⟨a, tx⟩ := r
        refine ⟨a, tx, rfl, ?_⟩
        simp only [h1, h2, h3, storageCall] at h ⊢
        generalize hm : (if a.ParentIDs.length = 0 then
            btrfs.SubvolCreate f.SubvolCreate fs (Join [b.root, "active", a.ID])
          else
            btrfs.SubvolSnapshot f.SubvolSnapshot fs (Join [b.root, "active", a.ID])
              (Join [b.root, "snapshots", a.ParentIDs.getD 0 ""]) a.Readonly) = made at h ⊢
        obtain ⟨me, mfs⟩ := made
        cases me with
        | some e => simp at h
        | none =>
          cases h4 : f.Commit with
          | some e => simp [h4] at h
          | none =>
            simp only [h4]
            refine ⟨trivial, trivial, ?_⟩
            split at hm
            · obtain ⟨hnone, hfs⟩ := btrfs_SubvolCreate_ok hm
              refine ⟨hnone, ⟨fs.nextID, false, fs.nextID⟩, fun q => ?_⟩
              rw [hfs]
              rfl
            · obtain ⟨hnone, v, -, hfs⟩ := btrfs_SubvolSnapshot_ok hm
              refine ⟨hnone, ⟨fs.nextID, a.Readonly, v.tree⟩, fun q => ?_⟩
              rw [hfs]
              rfl

theorem area_path_ne (r s s' x y : String) (hs : plainElem s.data) (hs' : plainElem s'.data)
    (hx : plainElem x.data) (hy : plainElem y.data) (hne : s ≠ s') :
    Join [r, s, x] ≠ Join [r, s', y] := fun h =>
  hne (Join_plain_inj r s s' x y hs hs' hx hy h).1

theorem active_ne_snapshots : ("active" : String) ≠ "snapshots" := by decide

theorem btrfs_makeActive_consistent {b : btrfs.Snapshotter} {f : Faults}
    {ms : storage.MetaStore} {fs : btrfs.VolFS} {key parent : String} {ro : Bool}
    {M : List Mount} (hC : btrfs.Consistent b ms fs)
    (h : (btrfs.makeActive b f ms fs key parent ro).ret = .ok M) :
    btrfs.Consistent b (btrfs.makeActive b f ms fs key parent ro).ms
      (btrfs.makeActive b f ms fs key parent ro).fs := by
  obtain ⟨a, tx, hc, hms, -, -, v, hfs⟩ := btrfs_makeActive_ok h
  obtain ⟨hwf, hact, hcom, hfree⟩ := hC
  obtain ⟨-, hid, -, htx, -⟩ := storage_CreateActive_ok hc
  have hwf' := WellFormed_create hwf hc
  rw [hms]
  have hsnap : ∀ n, (btrfs.makeActive b f ms fs key parent ro).fs.vols
      (Join [b.root, "snapshots", Nat.repr n]) = fs.vols (Join [b.root, "snapshots", Nat.repr n]) := by
    intro n
    rw [hfs, hid, if_neg (area_path_ne _ _ _ _ _ plain_snapshots plain_active (plain_repr _)
      (plain_repr _) (Ne.symm active_ne_snapshots))]
  have hactv : ∀ n, n ≠ ms.seq + 1 → (btrfs.makeActive b f ms fs key parent ro).fs.vols
      (Join [b.root, "active", Nat.repr n]) = fs.vols (Join [b.root, "active", Nat.repr n]) := by
    intro n hn
    rw [hfs, hid, if_neg (fun heq => hn (unit_path_inj _ _ _ _ _ plain_active plain_active heq).2)]
  subst htx
  refine ⟨hwf', ?_, ?_, ?_⟩
  · intro x hx
    rcases List.mem_cons.mp hx with rfl | hx'
    · refine ⟨by rw [hfs, if_pos rfl]; rfl, ?_⟩
      rw [hid, hsnap]
      exact (hfree _ (Nat.lt_succ_self _)).2
    · obtain ⟨n, hn, hxn⟩ := hwf.1 x hx'
      have := hact x hx'
      rw [hxn] at this ⊢
      rw [hactv n (by omega), hsnap]
      exact this
  · intro c hc'
    obtain ⟨n, hn, hcn⟩ := hwf.2.1 c hc'
    have := hcom c hc'
    rw [hcn] at this ⊢
    rw [hactv n (by omega), hsnap]
    exact this
  · intro n hn
    have hn' : ms.seq + 1 < n := hn
    rw [hactv n (by omega), hsnap]
    exact hfree n (by omega)

theorem btrfs_Commit_consistent {b : btrfs.Snapshotter} {f : Faults}
    {ms : storage.MetaStore} {fs : btrfs.VolFS} {name key : String}
    (hC : btrfs.Consistent b ms fs) (hdel : f.SubvolDelete = none)
    (h : (btrfs.Commit b f ms fs name key).ret = .ok ()) :
    btrfs.Consistent b (btrfs.Commit b f ms fs name key).ms
      (btrfs.Commit b f ms fs name key).fs := by
  obtain ⟨hwf, hact, hcom, hfree⟩ := hC
  unfold btrfs.Commit at h ⊢
  cases h1 : f.Begin with
  | some e => simp [h1] at h
  | none =>
    cases h2 : f.Storage with
    | some e => simp [h1, h2, storageCall] at h
    | none =>
      cases h3 : storage.CommitActive ms key name with
      | error e => simp [h1, h2, h3, storageCall] at h
      | ok r =>
        obtain ⟨id, tx⟩ := r
        simp only [h1, h2, h3, storageCall] at h ⊢
        generalize hs : btrfs.SubvolSnapshot f.SubvolSnapshot fs (Join [b.root, "snapshots", id])
          (Join [b.root, "active", id]) true = sn at h ⊢
        obtain ⟨se, sfs⟩ := sn
        cases se with
        | some e => simp at h
        | none =>
          cases h4 : f.Commit with
          | some e => simp [h4] at h
          | none =>
            simp only [h4]
            obtain ⟨ho1, ho2, ⟨a, ha, hid, -⟩, ⟨n, hn, hidn⟩, hseq⟩ :=
              storage_CommitActive_others hwf h3
            obtain ⟨hdst, v, hsrc, hsfs⟩ := btrfs_SubvolSnapshot_ok hs
            have hne : Join [b.root, "active", id] ≠ Join [b.root, "snapshots", id] := by
              intro heq
              rw [heq, hdst] at hsrc
              cases hsrc
            have hsfs_src : sfs.vols (Join [b.root, "active", id]) = some v := by
              rw [hsfs]; simp [btrfs.VolFS.set, hne, hsrc]
            have hfinal : ∀ q, (btrfs.SubvolDelete f.SubvolDelete sfs (Join [b.root, "active", id])).2.vols q =
                if q = Join [b.root, "active", id] then none
                else if q = Join [b.root, "snapshots", id] then some ⟨fs.nextID, true, v.tree⟩
                else fs.vols q := by
              intro q
              unfold btrfs.SubvolDelete
              rw [hsfs_src, hdel, hsfs]
              simp only [btrfs.VolFS.set]
            have hother : ∀ s m, plainElem s.data → m ≠ n →
                (btrfs.SubvolDelete f.SubvolDelete sfs (Join [b.root, "active", id])).2.vols
                  (Join [b.root, s, Nat.repr m]) = fs.vols (Join [b.root, s, Nat.repr m]) := by
              intro s m hsp hm
              rw [hfinal, hidn,
                if_neg (fun heq => hm (unit_path_inj _ _ _ _ _ hsp plain_active heq).2),
                if_neg (fun heq => hm (unit_path_inj _ _ _ _ _ hsp plain_snapshots heq).2)]
            refine ⟨WellFormed_commit hwf h3, ?_, ?_, ?_⟩
            · intro x hx
              obtain ⟨hx1, hx2⟩ := ho1 x hx
              obtain ⟨m, -, hxm⟩ := hwf.1 x hx1
              have := hact x hx1
              rw [hxm] at this ⊢
              have hmn : m ≠ n := fun hmn => hx2 (by rw [hxm, hidn, hmn])
              rw [hother _ m plain_active hmn, hother _ m plain_snapshots hmn]
              exact this
            · intro c hc
              rcases ho2 c hc with hc1 | ⟨hc1, hc2⟩
              · rw [hc1, hfinal, hfinal, if_neg hne.symm, if_pos rfl, if_pos rfl]
                exact ⟨rfl, rfl⟩
              · obtain ⟨m, -, hcm⟩ := hwf.2.1 c hc1
                have := hcom c hc1
                rw [hcm] at this ⊢
                have hmn : m ≠ n := fun hmn => hc2 (by rw [hcm, hidn, hmn])
                rw [hother _ m plain_active hmn, hother _ m plain_snapshots hmn]
                exact this
            · intro m hm
              rw [hseq] at hm
              rw [hother _ m plain_active (by omega), hother _ m plain_snapshots (by omega)]
              exact hfree m hm

theorem btrfs_Remove_rest_frame (f : Faults) (ms tx : storage.MetaStore) (fs : btrfs.VolFS)
    (source removed q : String) (ro : Bool) (hq1 : q ≠ source) (hq2 : q ≠ removed) :
    (match btrfs.SubvolSnapshot f.SubvolSnapshot fs removed source ro with
      | (some e, fs) => (⟨ms, fs, .rolledBack, .error e⟩ : Outcome btrfs.VolFS Unit)
      | (none, fs) =>
        match btrfs.SubvolDelete f.SubvolDelete fs source with
        | (some e, fs) =>
          ⟨ms, (btrfs.SubvolDelete f.SubvolCleanup fs removed).2, .rolledBack,
            .error (.wrap e "failed to remove snapshot")⟩
        | (none, fs) =>
          match f.Commit with
          | some e =>
            match btrfs.SubvolSnapshot f.SubvolRestore fs source removed ro with
            | (some _, fs) => ⟨ms, fs, .commitFailed, .error e⟩
            | (none, fs) =>
              ⟨ms, (btrfs.SubvolDelete f.SubvolCleanup fs removed).2, .commitFailed, .error e⟩
          | none => ⟨tx, (btrfs.SubvolDelete f.SubvolCleanup fs removed).2, .committed, .ok ()⟩).fs.vols q
      = fs.vols q := by
  have e1 := btrfs_SubvolSnapshot_other f.SubvolSnapshot fs removed source q ro hq2
  generalize btrfs.SubvolSnapshot f.SubvolSnapshot fs removed source ro = r1 at e1 ⊢
  obtain ⟨x1, fs1⟩ := r1
  simp only at e1
  cases x1 with
  | some e => exact e1
  | none =>
    simp only
    have e2 := btrfs_SubvolDelete_other f.SubvolDelete fs1 source q hq1
    generalize btrfs.SubvolDelete f.SubvolDelete fs1 source = r2 at e2 ⊢
    obtain ⟨x2, fs2⟩ := r2
    simp only at e2
    cases x2 with
    | some e =>
      simp only
      rw [btrfs_SubvolDelete_other _ _ _ _ hq2, e2, e1]
    | none =>
      simp only
      cases f.Commit with
      | none =>
        simp only
        rw [btrfs_SubvolDelete_other _ _ _ _ hq2, e2, e1]
      | some e =>
        simp only
        have e3 := btrfs_SubvolSnapshot_other f.SubvolRestore fs2 source removed q ro hq1
        generalize btrfs.SubvolSnapshot f.SubvolRestore fs2 source removed ro = r3 at e3 ⊢
        obtain ⟨x3, fs3⟩ := r3
        simp only at e3
        cases x3 with
        | some e' =>
          simp only
          rw [e3, e2, e1]
        | none =>
          simp only
          rw [btrfs_SubvolDelete_other _ _ _ _ hq2, e3, e2, e1]

theorem btrfs_Remove_frame {b : btrfs.Snapshotter} {f : Faults} {ms tx : storage.MetaStore}
    {fs : btrfs.VolFS} {key id : String} {k : storage.Kind}
    (h3 : storage.Remove ms key = .ok (id, k, tx)) (q : String)
    (hq1 : q ≠ Join [b.root, "active", id]) (hq2 : q ≠ Join [b.root, "snapshots", id])
    (hq3 : q ≠ Join [b.root, "active", "rm-" ++ id])
    (hq4 : q ≠ Join [b.root, "snapshots", "rm-" ++ id]) :
    (btrfs.Remove b f ms fs key).fs.vols q = fs.vols q := by
  unfold btrfs.Remove
  cases h1 : f.Begin with
  | some e => rfl
  | none =>
    cases h2 : f.Storage with
    | some e => simp [storageCall, h2]
    | none =>
      simp only [storageCall, h2, h3]
      cases k with
      | KindActive =>
        simp only [if_true]
        cases btrfs.SubvolInfo f.SubvolInfo fs (Join [b.root, "active", id]) with
        | error e => rfl
        | ok info => exact btrfs_Remove_rest_frame f ms tx fs _ _ q info.Readonly hq1 hq3
      | KindCommitted =>
        simp only [reduceCtorEq, if_false]
        exact btrfs_Remove_rest_frame f ms tx fs _ _ q true hq2 hq4

theorem btrfs_Remove_rest_ms (f : Faults) (ms tx : storage.MetaStore) (fs : btrfs.VolFS)
    (source removed : String) (ro : Bool)
    (h : (match btrfs.SubvolSnapshot f.SubvolSnapshot fs removed source ro with
      | (some e, fs) => (⟨ms, fs, .rolledBack, .error e⟩ : Outcome btrfs.VolFS Unit)
      | (none, fs) =>
        match btrfs.SubvolDelete f.SubvolDelete fs source with
        | (some e, fs) =>
          ⟨ms, (btrfs.SubvolDelete f.SubvolCleanup fs removed).2, .rolledBack,
            .error (.wrap e "failed to remove snapshot")⟩
        | (none, fs) =>
          match f.Commit with
          | some e =>
            match btrfs.SubvolSnapshot f.SubvolRestore fs source removed ro with
            | (some _, fs) => ⟨ms, fs, .commitFailed, .error e⟩
            | (none, fs) =>
              ⟨ms, (btrfs.SubvolDelete f.SubvolCleanup fs removed).2, .commitFailed, .error e⟩
          | none => ⟨tx, (btrfs.SubvolDelete f.SubvolCleanup fs removed).2, .committed, .ok ()⟩).ret
      = .ok ()) :
    (match btrfs.SubvolSnapshot f.SubvolSnapshot fs removed source ro with
      | (some e, fs) => (⟨ms, fs, .rolledBack, .error e⟩ : Outcome btrfs.VolFS Unit)
      | (none, fs) =>
        match btrfs.SubvolDelete f.SubvolDelete fs source with
        | (some e, fs) =>
          ⟨ms, (btrfs.SubvolDelete f.SubvolCleanup fs removed).2, .rolledBack,
            .error (.wrap e "failed to remove snapshot")⟩
        | (none, fs) =>
          match f.Commit with
          | some e =>
            match btrfs.SubvolSnapshot f.SubvolRestore fs source removed ro with
            | (some _, fs) => ⟨ms, fs, .commitFailed, .error e⟩
            | (none, fs) =>
              ⟨ms, (btrfs.SubvolDelete f.SubvolCleanup fs removed).2, .commitFailed, .error e⟩
          | none => ⟨tx, (btrfs.SubvolDelete f.SubvolCleanup fs removed).2, .committed, .ok ()⟩).ms
      = tx := by
  generalize btrfs.SubvolSnapshot f.SubvolSnapshot fs removed source ro = r1 at h ⊢
  obtain ⟨x1, fs1⟩ := r1
  cases x1 with
  | some e => simp at h
  | none =>
    simp only at h ⊢
    generalize btrfs.SubvolDelete f.SubvolDelete fs1 source = r2 at h ⊢
    obtain ⟨x2, fs2⟩ := r2
    cases x2 with
    | some e => simp at h
    | none =>
      simp only at h ⊢
      cases hc : f.Commit with
      | none => rfl
      | some e =>
        simp only [hc] at h
        generalize btrfs.SubvolSnapshot f.SubvolRestore fs2 source removed ro = r3 at h
        obtain ⟨x3, fs3⟩ := r3
        cases x3 <;> simp at h

theorem btrfs_Remove_ok {b : btrfs.Snapshotter} {f : Faults} {ms : storage.MetaStore}
    {fs : btrfs.VolFS} {key : String} (h : (btrfs.Remove b f ms fs key).ret = .ok ()) :
    ∃ id k tx, storage.Remove ms key = .ok (id, k, tx) ∧ (btrfs.Remove b f ms fs key).ms = tx := by
  unfold btrfs.Remove at h ⊢
  cases h1 : f.Begin with
  | some e => simp [h1] at h
  | none =>
    cases h2 : f.Storage with
    | some e => simp [h1, h2, storageCall] at h
    | none =>
      cases h3 : storage.Remove ms key with
      | error e => simp [h1, h2, h3, storageCall] at h
      | ok r =>
        obtain ⟨id, k, tx⟩ := r
        refine ⟨id, k, tx, rfl, ?_⟩
        simp only [h1, h2, h3, storageCall] at h ⊢
        cases k with
        | KindActive =>
          simp only [if_true] at h ⊢
          cases hi : btrfs.SubvolInfo f.SubvolInfo fs (Join [b.root, "active", id]) with
          | error e => simp [hi] at h
          | ok info =>
            simp only [hi] at h ⊢
            exact btrfs_Remove_rest_ms f ms tx fs _ _ info.Readonly h
        | KindCommitted =>
          simp only [reduceCtorEq, if_false] at h ⊢
          exact btrfs_Remove_rest_ms f ms tx fs _ _ true h

theorem btrfs_Remove_consistent {b : btrfs.Snapshotter} {f : Faults}
    {ms : storage.MetaStore} {fs : btrfs.VolFS} {key : String}
    (hC : btrfs.Consistent b ms fs)
    (h : (btrfs.Remove b f ms fs key).ret = .ok ()) :
    btrfs.Consistent b (btrfs.Remove b f ms fs key).ms (btrfs.Remove b f ms fs key).fs := by
  obtain ⟨hwf, hact, hcom, hfree⟩ := hC
  obtain ⟨id, k, tx, h3, hms⟩ := btrfs_Remove_ok h
  obtain ⟨ho1, ho2, ⟨n, hn, hidn⟩, hseq, -⟩ := storage_Remove_others hwf h3
  rw [hms]
  have hkeep : ∀ s m, plainElem s.data → m ≠ n →
      (btrfs.Remove b f ms fs key).fs.vols (Join [b.root, s, Nat.repr m]) =
        fs.vols (Join [b.root, s, Nat.repr m]) := by
    intro s m hs hm
    apply btrfs_Remove_frame h3 <;> rw [hidn]
    · exact fun heq => hm (unit_path_inj _ _ _ _ _ hs plain_active heq).2
    · exact fun heq => hm (unit_path_inj _ _ _ _ _ hs plain_snapshots heq).2
    · exact unit_path_ne_rm _ _ _ _ _ hs plain_active
    · exact unit_path_ne_rm _ _ _ _ _ hs plain_snapshots
  refine ⟨WellFormed_remove hwf h3, ?_, ?_, ?_⟩
  · intro x hx
    obtain ⟨hx1, hx2⟩ := ho1 x hx
    obtain ⟨m, -, hxm⟩ := hwf.1 x hx1
    have := hact x hx1
    rw [hxm] at this ⊢
    have hmn : m ≠ n := fun hmn => hx2 (by rw [hxm, hidn, hmn])
    rw [hkeep _ m plain_active hmn, hkeep _ m plain_snapshots hmn]
    exact this
  · intro c hc
    obtain ⟨hc1, hc2⟩ := ho2 c hc
    obtain ⟨m, -, hcm⟩ := hwf.2.1 c hc1
    have := hcom c hc1
    rw [hcm] at this ⊢
    have hmn : m ≠ n := fun hmn => hc2 (by rw [hcm, hidn, hmn])
    rw [hkeep _ m plain_active hmn, hkeep _ m plain_snapshots hmn]
    exact this
  · intro m hm
    rw [hseq] at hm
    rw [hkeep _ m plain_active (by omega), hkeep _ m plain_snapshots (by omega)]
    exact hfree m hm

/-! ## Every recorded ID and its storage -/

/-- Counterexample to C9 as stated: on the naive driver, with the committed
snapshot `n1` (ID 1) stored at `/r/snapshots/1`, `View("v", "n1")` succeeds and
records the Active ID 2, and afterwards the filesystem is unchanged: no directory
exists at `/r/snapshots/2`, so the recorded ID 2 has no storage location. -/
theorem naive_view_on_parent_has_no_storage :
    (naive.View ⟨"/r"⟩ {} ⟨1, [], [⟨"1", [], "n1"⟩]⟩
        (fun q => if q = "/r/snapshots/1" then some [] else none) "v" "n1").ret =
      .ok [⟨"bind", "/r/snapshots/1", ["ro", "rbind"]⟩] ∧
    (naive.View ⟨"/r"⟩ {} ⟨1, [], [⟨"1", [], "n1"⟩]⟩
        (fun q => if q = "/r/snapshots/1" then some [] else none) "v" "n1").ms =
      ⟨2, [⟨"2", ["1"], true, "v"⟩], [⟨"1", [], "n1"⟩]⟩ ∧
    naive.getSnapshotDir ⟨"/r"⟩ "2" = "/r/snapshots/2" ∧
    (naive.View ⟨"/r"⟩ {} ⟨1, [], [⟨"1", [], "n1"⟩]⟩
        (fun q => if q = "/r/snapshots/1" then some [] else none) "v" "n1").fs
      "/r/snapshots/2" = none ∧
    (naive.View ⟨"/r"⟩ {} ⟨1, [], [⟨"1", [], "n1"⟩]⟩
        (fun q => if q = "/r/snapshots/1" then some [] else none) "v" "n1").fs =
      (fun q => if q = "/r/snapshots/1" then some [] else none) := by
  refine ⟨by decide, by decide, by decide, by decide, rfl⟩

/-- Claim C9, amended (every recorded ID has its one storage location).  For each
driver and each of `Prepare`, `View`, `Commit`, `Remove` that returns success,
under any injected failures that still let it succeed: if the state before the
call is consistent, so is the state after it.  A state is consistent
(`overlay.Consistent`, `naive.Consistent`, `btrfs.Consistent`) when three things
hold.  The metadata is well formed: the IDs are numerals of numbers the store
has handed out, and no two records share one.  Every recorded ID is stored as
the driver lays it out: overlay and naive keep one directory
`<root>/snapshots/<ID>` per recorded ID, but naive keeps none for a Readonly
Active record with a parent; btrfs keeps the volume `active/<ID>` and no
`snapshots/<ID>` for an Active record, and `snapshots/<ID>` and no `active/<ID>`
for a Committed one.  And, for naive and btrfs, nothing stands at the place of an
ID that was not handed out yet.  For the btrfs `Commit` this needs the deletion
of the active volume not to fail: the code only logs that failure. -/
theorem successful_operations_keep_storage (oo : overlay.snapshotter) (no : naive.snapshotter)
    (bo : btrfs.Snapshotter) (f : Faults) (ms : storage.MetaStore) (dfs : DirFS)
    (vfs : btrfs.VolFS) (key parent name : String) :
    (overlay.Consistent oo ms dfs →
      (∀ M, (overlay.Prepare oo f ms dfs key parent).ret = .ok M →
        overlay.Consistent oo (overlay.Prepare oo f ms dfs key parent).ms
          (overlay.Prepare oo f ms dfs key parent).fs) ∧
      (∀ M, (overlay.View oo f ms dfs key parent).ret = .ok M →
        overlay.Consistent oo (overlay.View oo f ms dfs key parent).ms
          (overlay.View oo f ms dfs key parent).fs) ∧
      ((overlay.Commit oo f ms dfs name key).ret = .ok () →
        overlay.Consistent oo (overlay.Commit oo f ms dfs name key).ms
          (overlay.Commit oo f ms dfs name key).fs) ∧
      ((overlay.Remove oo f ms dfs key).ret = .ok () →
        overlay.Consistent oo (overlay.Remove oo f ms dfs key).ms
          (overlay.Remove oo f ms dfs key).fs)) ∧
    (naive.Consistent no ms dfs →
      (∀ M, (naive.Prepare no f ms dfs key parent).ret = .ok M →
        naive.Consistent no (naive.Prepare no f ms dfs key parent).ms
          (naive.Prepare no f ms dfs key parent).fs) ∧
      (∀ M, (naive.View no f ms dfs key parent).ret = .ok M →
        naive.Consistent no (naive.View no f ms dfs key parent).ms
          (naive.View no f ms dfs key parent).fs) ∧
      ((naive.Commit no f ms dfs name key).ret = .ok () →
        naive.Consistent no (naive.Commit no f ms dfs name key).ms
          (naive.Commit no f ms dfs name key).fs) ∧
      ((naive.Remove no f ms dfs key).ret = .ok () →
        naive.Consistent no (naive.Remove no f ms dfs key).ms
          (naive.Remove no f ms dfs key).fs)) ∧
    (btrfs.Consistent bo ms vfs →
      (∀ M, (btrfs.Prepare bo f ms vfs key parent).ret = .ok M →
        btrfs.Consistent bo (btrfs.Prepare bo f ms vfs key parent).ms
          (btrfs.Prepare bo f ms vfs key parent).fs) ∧
      (∀ M, (btrfs.View bo f ms vfs key parent).ret = .ok M →
        btrfs.Consistent bo (btrfs.View bo f ms vfs key parent).ms
          (btrfs.View bo f ms vfs key parent).fs) ∧
      (f.SubvolDelete = none → (btrfs.Commit bo f ms vfs name key).ret = .ok () →
        btrfs.Consistent bo (btrfs.Commit bo f ms vfs name key).ms
          (btrfs.Commit bo f ms vfs name key).fs) ∧
      ((btrfs.Remove bo f ms vfs key).ret = .ok () →
        btrfs.Consistent bo (btrfs.Remove bo f ms vfs key).ms
          (btrfs.Remove bo f ms vfs key).fs)) := by
  refine ⟨fun hC => ⟨?_, ?_, ?_, ?_⟩, fun hC => ⟨?_, ?_, ?_, ?_⟩, fun hC => ⟨?_, ?_, ?_, ?_⟩⟩
  · exact fun M h => overlay_createActive_consistent hC h
  · exact fun M h => overlay_createActive_consistent hC h
  · exact fun h => overlay_Commit_consistent hC h
  · exact fun h => overlay_Remove_consistent hC h
  · exact fun M h => naive_createActive_consistent hC h
  · exact fun M h => naive_createActive_consistent hC h
  · exact fun h => naive_Commit_consistent hC h
  · exact fun h => naive_Remove_consistent hC h
  · exact fun M h => btrfs_makeActive_consistent hC h
  · exact fun M h => btrfs_makeActive_consistent hC h
  · exact fun hdel h => btrfs_Commit_consistent hC hdel h
  · exact fun h => btrfs_Remove_consistent hC h

theorem naive_Consistent_empty (o : naive.snapshotter) :
    naive.Consistent o ⟨0, [], []⟩ (fun _ => none) := by
  refine ⟨⟨?_, ?_, ?_, ?_, ?_⟩, ?_, ?_, ?_, ?_⟩ <;> simp

/-- Witness for C9, amended: `Prepare("k", "")` of the naive driver on the empty
store succeeds and leaves the new ID 1 stored. -/
theorem successful_operations_keep_storage_witness :
    naive.Consistent ⟨"/r"⟩ ⟨0, [], []⟩ (fun _ => none) ∧
    (naive.Prepare ⟨"/r"⟩ {} ⟨0, [], []⟩ (fun _ => none) "k" "").ret =
      .ok [⟨"bind", "/r/snapshots/1", ["rw", "rbind"]⟩] ∧
    naive.Consistent ⟨"/r"⟩
      (naive.Prepare ⟨"/r"⟩ {} ⟨0, [], []⟩ (fun _ => none) "k" "").ms
      (naive.Prepare ⟨"/r"⟩ {} ⟨0, [], []⟩ (fun _ => none) "k" "").fs :=
  ⟨naive_Consistent_empty _, by decide,
    ((successful_operations_keep_storage ⟨"/r"⟩ ⟨"/r"⟩ ⟨"/dev/sda1", "/r"⟩ {} ⟨0, [], []⟩
      (fun _ => none) ⟨fun _ => none, 256⟩ "k" "" "n").2.1 (naive_Consistent_empty _)).1
      [⟨"bind", "/r/snapshots/1", ["rw", "rbind"]⟩] (by decide)⟩

/-! ## btrfs: two places where the code leaves what the specification asks for -/

/-- Claim C6 (btrfs `View` without a parent), the code at the failing input: on the
empty store `View("v", "")` succeeds, the record is Readonly, and the mount is
`{btrfs, <device>, ["subvolid=256"]}`: the option `ro` is absent, because the
branch without parents calls `SubvolCreate`, which takes no read-only flag, and
`mounts` reads the flag from the volume. -/
theorem btrfs_view_without_parent_lacks_ro :
    (btrfs.View ⟨"/dev/sda1", "/r"⟩ {} ⟨0, [], []⟩ ⟨fun _ => none, 256⟩ "v" "").ret =
      .ok [⟨"btrfs", "/dev/sda1", ["subvolid=256"]⟩] ∧
    (btrfs.View ⟨"/dev/sda1", "/r"⟩ {} ⟨0, [], []⟩ ⟨fun _ => none, 256⟩ "v" "").ms.active =
      [⟨"1", [], true, "v"⟩] ∧
    (btrfs.View ⟨"/dev/sda1", "/r"⟩ {} ⟨0, [], []⟩ ⟨fun _ => none, 256⟩ "v" "").fs.vols
      "/r/active/1" = some ⟨256, false, 256⟩ := by
  refine ⟨by decide, by decide, by decide⟩

/-- Claim C10 (`Prepare` that fails leaves the key absent), the code at the failing
input: on the empty store, btrfs `Prepare("k", "")` whose `SubvolInfo` query fails
returns that error although the transaction was committed: the Active record for
`k` exists afterwards, with its volume. -/
theorem btrfs_prepare_error_after_commit :
    (btrfs.Prepare ⟨"/dev/sda1", "/r"⟩ { SubvolInfo := some .StorageFailure } ⟨0, [], []⟩
        ⟨fun _ => none, 256⟩ "k" "").ret = .error .StorageFailure ∧
    (btrfs.Prepare ⟨"/dev/sda1", "/r"⟩ { SubvolInfo := some .StorageFailure } ⟨0, [], []⟩
        ⟨fun _ => none, 256⟩ "k" "").tx = .committed ∧
    (btrfs.Prepare ⟨"/dev/sda1", "/r"⟩ { SubvolInfo := some .StorageFailure } ⟨0, [], []⟩
        ⟨fun _ => none, 256⟩ "k" "").ms.active = [⟨"1", [], false, "k"⟩] ∧
    (btrfs.Prepare ⟨"/dev/sda1", "/r"⟩ { SubvolInfo := some .StorageFailure } ⟨0, [], []⟩
        ⟨fun _ => none, 256⟩ "k" "").fs.vols "/r/active/1" = some ⟨256, false, 256⟩ := by
  refine ⟨by decide, by decide, by decide, by decide⟩

/-! ## naive `createActive`: what its error paths leave behind -/

/-- Claim C11 (a failed filesystem step rolls the transaction back), the code at the
failing input: naive `Prepare("k2", "n1")` on a store holding the committed
snapshot `n1` (ID 1), where `fs.CopyDir` of the parent's directory fails.
`CreateActive` succeeded, the call returns the copy error wrapped, and the
transaction is neither rolled back nor committed when it returns. -/
theorem naive_copy_failure_leaves_transaction_open :
    (naive.Prepare ⟨"/r"⟩ { CopyDir := some .StorageFailure } ⟨1, [], [⟨"1", [], "n1"⟩]⟩
        (fun q => if q = "/r/snapshots/1" then some ["etc"] else none) "k2" "n1").ret =
      .error (.wrap .StorageFailure "copying of parent failed") ∧
    (naive.Prepare ⟨"/r"⟩ { CopyDir := some .StorageFailure } ⟨1, [], [⟨"1", [], "n1"⟩]⟩
        (fun q => if q = "/r/snapshots/1" then some ["etc"] else none) "k2" "n1").tx =
      .leftOpen ∧
    (storage.CreateActive ⟨1, [], [⟨"1", [], "n1"⟩]⟩ "k2" "n1" false).toOption.isSome = true := by
  refine ⟨by decide, by decide, by decide⟩

/-- Claim C13 (a failed naive `Prepare` leaves no residue), the code at three failing
inputs, in each of which every cleanup deletion would succeed.  When the
transaction commit fails, `Prepare("k", "")` returns the error and the directory
`/r/snapshots/1` of the ID it assigned still exists.  When the rename fails, and
when the copy of the parent fails, the temporary directory `/r/snapshots/new-0`
still exists.  In all three the error is held by a variable declared in the `if`
statement, so the deferred function sees `err == nil` and removes nothing. -/
theorem naive_createActive_error_leaves_residue :
    ((naive.Prepare ⟨"/r"⟩ { Commit := some .StoreUnavailable } ⟨0, [], []⟩
        (fun _ => none) "k" "").ret = .error (.wrap .StoreUnavailable "commit failed") ∧
     (naive.Prepare ⟨"/r"⟩ { Commit := some .StoreUnavailable } ⟨0, [], []⟩
        (fun _ => none) "k" "").ms = ⟨0, [], []⟩ ∧
     (naive.Prepare ⟨"/r"⟩ { Commit := some .StoreUnavailable } ⟨0, [], []⟩
        (fun _ => none) "k" "").fs "/r/snapshots/1" = some []) ∧
    ((naive.Prepare ⟨"/r"⟩ { Rename := some .StorageFailure } ⟨0, [], []⟩
        (fun _ => none) "k" "").ret = .error (.wrap .StorageFailure "failed to rename") ∧
     (naive.Prepare ⟨"/r"⟩ { Rename := some .StorageFailure } ⟨0, [], []⟩
        (fun _ => none) "k" "").fs "/r/snapshots/new-0" = some []) ∧
    ((naive.Prepare ⟨"/r"⟩ { CopyDir := some .StorageFailure } ⟨1, [], [⟨"1", [], "n1"⟩]⟩
        (fun q => if q = "/r/snapshots/1" then some ["etc"] else none) "k2" "n1").ret =
      .error (.wrap .StorageFailure "copying of parent failed") ∧
     (naive.Prepare ⟨"/r"⟩ { CopyDir := some .StorageFailure } ⟨1, [], [⟨"1", [], "n1"⟩]⟩
        (fun q => if q = "/r/snapshots/1" then some ["etc"] else none) "k2" "n1").fs
      "/r/snapshots/new-0" = some []) := by
  refine ⟨⟨by decide, by decide, by decide⟩, ⟨by decide, by decide⟩, ⟨by decide, by decide⟩⟩

/-! ## overlay `createActive`: an error leaves no residue -/

theorem deferredRemove_td (f : Faults) (fs : DirFS) (td path : String) (htd : td ≠ "")
    (h1 : f.RemoveTd = none) (h2 : f.RemovePath = none) : deferredRemove f fs td path td = none := by
  unfold deferredRemove osRemoveAll
  simp only [h1, h2, ne_eq, htd, not_false_eq_true, if_true]
  by_cases hp : path = ""
  · simp [hp, DirFS.set]
  · simp [hp, DirFS.set]

theorem deferredRemove_path (f : Faults) (fs : DirFS) (td path : String) (hp : path ≠ "")
    (h2 : f.RemovePath = none) : deferredRemove f fs td path path = none := by
  unfold deferredRemove osRemoveAll
  simp [h2, hp, DirFS.set]

theorem osRename_err {fault : Option Error} {fs fs' : DirFS} {src dst : String} {e : Error}
    (h : osRename fault fs src dst = (some e, fs')) : fs' = fs := by
  unfold osRename at h
  split at h
  · simp only [Prod.mk.injEq] at h; exact h.2.symm
  · cases fault with
    | some e' => simp only [Prod.mk.injEq] at h; exact h.2.symm
    | none => simp at h

theorem Join_pair_ne_empty_left (x y : String) (hx : x ≠ "") : Join [x, y] ≠ "" := by
  unfold Join
  simp only [List.dropWhile, hx, decide_False]
  exact Clean_ne_empty _

theorem snapshots_path_ne_empty (root x : String) : Join [Join [root, "snapshots"], x] ≠ "" :=
  Join_pair_ne_empty_left _ _ (Join_pair_ne_empty _ _ (by decide))

/-- The part of overlay `createActive` after the directories `fs` and `work` were
made in the temporary directory `td`. -/
theorem overlay_createActive_tail (o : overlay.snapshotter) (f : Faults) (ms : storage.MetaStore)
    (fs1 : DirFS) (key parent td : String) (ro : Bool) (e : Error) (htd : td ≠ "")
    (hrmtd : f.RemoveTd = none) (hrmpath : f.RemovePath = none)
    (herr : (match f.Begin with
      | some e => (⟨ms, deferredRemove f fs1 td "", .unopened, .error e⟩ :
          Outcome DirFS (List Mount))
      | none =>
        match storageCall f (storage.CreateActive ms key parent ro) with
        | .error e =>
          ⟨ms, deferredRemove f fs1 td "", .rolledBack, .error (.wrap e "failed to create active")⟩
        | .ok (active, tx) =>
          match osRename f.Rename fs1 td (Join [Join [o.root, "snapshots"], active.ID]) with
          | (some e, fs) =>
            ⟨ms, deferredRemove f fs td (Join [Join [o.root, "snapshots"], active.ID]), .rolledBack,
              .error (.wrap e "failed to rename")⟩
          | (none, fs) =>
            match f.Commit with
            | some e =>
              ⟨ms, deferredRemove f fs "" (Join [Join [o.root, "snapshots"], active.ID]),
                .commitFailed, .error (.wrap e "commit failed")⟩
            | none => ⟨tx, fs, .committed, .ok (overlay.mounts o active)⟩).ret = .error e) :
    (match f.Begin with
      | some e => (⟨ms, deferredRemove f fs1 td "", .unopened, .error e⟩ :
          Outcome DirFS (List Mount))
      | none =>
        match storageCall f (storage.CreateActive ms key parent ro) with
        | .error e =>
          ⟨ms, deferredRemove f fs1 td "", .rolledBack, .error (.wrap e "failed to create active")⟩
        | .ok (active, tx) =>
          match osRename f.Rename fs1 td (Join [Join [o.root, "snapshots"], active.ID]) with
          | (some e, fs) =>
            ⟨ms, deferredRemove f fs td (Join [Join [o.root, "snapshots"], active.ID]), .rolledBack,
              .error (.wrap e "failed to rename")⟩
          | (none, fs) =>
            match f.Commit with
            | some e =>
              ⟨ms, deferredRemove f fs "" (Join [Join [o.root, "snapshots"], active.ID]),
                .commitFailed, .error (.wrap e "commit failed")⟩
            | none => ⟨tx, fs, .committed, .ok (overlay.mounts o active)⟩).fs td = none ∧
    ∀ a tx, f.Begin = none → storageCall f (storage.CreateActive ms key parent ro) = .ok (a, tx) →
      (match f.Begin with
      | some e => (⟨ms, deferredRemove f fs1 td "", .unopened, .error e⟩ :
          Outcome DirFS (List Mount))
      | none =>
        match storageCall f (storage.CreateActive ms key parent ro) with
        | .error e =>
          ⟨ms, deferredRemove f fs1 td "", .rolledBack, .error (.wrap e "failed to create active")⟩
        | .ok (active, tx) =>
          match osRename f.Rename fs1 td (Join [Join [o.root, "snapshots"], active.ID]) with
          | (some e, fs) =>
            ⟨ms, deferredRemove f fs td (Join [Join [o.root, "snapshots"], active.ID]), .rolledBack,
              .error (.wrap e "failed to rename")⟩
          | (none, fs) =>
            match f.Commit with
            | some e =>
              ⟨ms, deferredRemove f fs "" (Join [Join [o.root, "snapshots"], active.ID]),
                .commitFailed, .error (.wrap e "commit failed")⟩
            | none => ⟨tx, fs, .committed, .ok (overlay.mounts o active)⟩).fs
        (Join [Join [o.root, "snapshots"], a.ID]) = none := by
  cases hb : f.Begin with
  | some eb =>
    simp only
    exact ⟨deferredRemove_td _ _ _ _ htd hrmtd hrmpath, fun a tx h => by cases h⟩
  | none =>
    simp only [hb] at herr ⊢
    cases hs : storageCall f (storage.CreateActive ms key parent ro) with
    | error es =>
      simp only
      exact ⟨deferredRemove_td _ _ _ _ htd hrmtd hrmpath, fun a tx _ h => by cases h⟩
    | ok r =>
      obtain ⟨active, tx0⟩ := r
      simp only [hs] at herr ⊢
      generalize hr : osRename f.Rename fs1 td (Join [Join [o.root, "snapshots"], active.ID]) = rn
        at herr ⊢
      obtain ⟨re, rfs⟩ := rn
      cases re with
      | some er =>
        simp only
        refine ⟨deferredRemove_td _ _ _ _ htd hrmtd hrmpath, fun a tx _ h => ?_⟩
        simp only [Except.ok.injEq, Prod.mk.injEq] at h
        rw [← h.1]
        exact deferredRemove_path _ _ _ _ (snapshots_path_ne_empty _ _) hrmpath
      | none =>
        obtain ⟨d, -, hrfs⟩ := osRename_ok hr
        cases hc : f.Commit with
        | none => simp [hc] at herr
        | some ec =>
          simp only
          have hp := snapshots_path_ne_empty o.root active.ID
          refine ⟨?_, fun a tx _ h => ?_⟩
          · rw [hrfs]
            unfold deferredRemove osRemoveAll
            simp only [hrmpath, ne_eq, not_true_eq_false, if_false, hp, not_false_eq_true, if_true,
              DirFS.set]
            split_ifs <;> rfl
          · simp only [Except.ok.injEq, Prod.mk.injEq] at h
            rw [← h.1]
            exact deferredRemove_path _ _ _ _ hp hrmpath

/-- Claim C12 (overlay `Prepare`/`View`, no residue after an error).  Let the
temporary directory `<root>/snapshots/new-<n>` be made by this call, and let the
cleanup deletions succeed.  If `createActive` returns an error, at whichever step,
then the temporary directory does not exist afterwards; and if the call got as
far as an ID (the directories `fs` and `work` were made, the transaction opened
and `CreateActive` returned the record `a`), the directory `<root>/snapshots/<ID>`
does not exist afterwards either. -/
theorem overlay_createActive_error_leaves_no_residue (o : overlay.snapshotter) (f : Faults)
    (ms : storage.MetaStore) (fs : DirFS) (key parent : String) (ro : Bool) (e : Error)
    (htemp : f.TempDir = none)
    (hfree : fs (Join [o.root, "snapshots", "new-" ++ Nat.repr f.tempSuffix]) = none)
    (hrmtd : f.RemoveTd = none) (hrmpath : f.RemovePath = none)
    (herr : (overlay.createActive o f ms fs key parent ro).ret = .error e) :
    (overlay.createActive o f ms fs key parent ro).fs
        (Join [o.root, "snapshots", "new-" ++ Nat.repr f.tempSuffix]) = none ∧
    ∀ a tx, f.MkdirFs = none → (ro = false → f.MkdirWork = none) → f.Begin = none →
      f.Storage = none → storage.CreateActive ms key parent ro = .ok (a, tx) →
      (overlay.createActive o f ms fs key parent ro).fs (Join [o.root, "snapshots", a.ID]) =
        none := by
  have htd := tempName_ne_empty (Join [o.root, "snapshots"]) f.tempSuffix
  rw [← temp_path] at hfree ⊢
  have hnest : ∀ a tx, storage.CreateActive ms key parent ro = .ok (a, tx) →
      Join [o.root, "snapshots", a.ID] = Join [Join [o.root, "snapshots"], a.ID] := by
    intro a tx hc
    rw [(storage_CreateActive_ok hc).2.1, Join_nested _ _ _ plain_snapshots (plain_repr _)]
  unfold overlay.createActive at herr ⊢
  simp only [ioutilTempDir, htemp, hfree] at herr ⊢
  cases h3 : f.MkdirFs with
  | some e3 =>
    simp only [osMkdirAll, h3]
    exact ⟨deferredRemove_td _ _ _ _ htd hrmtd hrmpath, fun a tx h => by cases h⟩
  | none =>
    simp only [osMkdirAll, h3, DirFS.set, if_true] at herr ⊢
    cases ro with
    | true =>
      simp only [Bool.true_eq_false, if_false] at herr ⊢
      obtain ⟨t1, t2⟩ := overlay_createActive_tail o f ms _ key parent _ true e htd hrmtd hrmpath herr
      refine ⟨t1, fun a tx _ _ hb hst hc => ?_⟩
      rw [hnest a tx hc]
      exact t2 a tx hb (by simp [storageCall, hst, hc])
    | false =>
      simp only [if_true] at herr ⊢
      cases h4 : f.MkdirWork with
      | some e4 =>
        simp only [h4] at herr ⊢
        refine ⟨deferredRemove_td _ _ _ _ htd hrmtd hrmpath, fun a tx _ h => ?_⟩
        simp at h
      | none =>
        simp only [h4] at herr ⊢
        obtain ⟨t1, t2⟩ := overlay_createActive_tail o f ms _ key parent _ false e htd hrmtd hrmpath herr
        refine ⟨t1, fun a tx _ _ hb hst hc => ?_⟩
        rw [hnest a tx hc]
        exact t2 a tx hb (by simp [storageCall, hst, hc])

/-- Witness for C12: overlay `Prepare("k", "")` on the empty store whose transaction
commit fails; neither `/r/snapshots/new-0` nor `/r/snapshots/1` is left. -/
theorem overlay_createActive_error_leaves_no_residue_witness :
    (overlay.createActive ⟨"/r"⟩ { Commit := some .StoreUnavailable } ⟨0, [], []⟩ (fun _ => none)
        "k" "" false).ret = .error (.wrap .StoreUnavailable "commit failed") ∧
    (overlay.createActive ⟨"/r"⟩ { Commit := some .StoreUnavailable } ⟨0, [], []⟩ (fun _ => none)
        "k" "" false).fs (Join ["/r", "snapshots", "new-" ++ Nat.repr 0]) = none ∧
    (overlay.createActive ⟨"/r"⟩ { Commit := some .StoreUnavailable } ⟨0, [], []⟩ (fun _ => none)
        "k" "" false).fs (Join ["/r", "snapshots", "1"]) = none :=
  ⟨by decide,
    (overlay_createActive_error_leaves_no_residue ⟨"/r"⟩ { Commit := some .StoreUnavailable }
      ⟨0, [], []⟩ (fun _ => none) "k" "" false (.wrap .StoreUnavailable "commit failed")
      rfl rfl rfl rfl (by decide)).1,
    (overlay_createActive_error_leaves_no_residue ⟨"/r"⟩ { Commit := some .StoreUnavailable }
      ⟨0, [], []⟩ (fun _ => none) "k" "" false (.wrap .StoreUnavailable "commit failed")
      rfl rfl rfl rfl (by decide)).2 ⟨"1", [], false, "k"⟩ ⟨1, [⟨"1", [], false, "k"⟩], []⟩
      rfl (fun _ => rfl) rfl rfl (by decide)⟩

/-! ## `Commit`: a metadata error, and what a successful commit does to the storage -/

/-- Claim C14 (`Commit` when `CommitActive` fails).  For each of the three drivers:
if the transaction opened and `CommitActive(key, name)` returns the error `e`,
then `Commit(name, key)` returns `e` wrapped, the transaction is rolled back, and
the persisted metadata and the filesystem are what they were before the call. -/
theorem commit_metadata_error_changes_nothing (oo : overlay.snapshotter) (no : naive.snapshotter)
    (bo : btrfs.Snapshotter) (f : Faults) (ms : storage.MetaStore) (dfs : DirFS)
    (vfs : btrfs.VolFS) (name key : String) (e : Error) (hbegin : f.Begin = none)
    (herr : storageCall f (storage.CommitActive ms key name) = .error e) :
    ((overlay.Commit oo f ms dfs name key).ret = .error (.wrap e "failed to commit snapshot") ∧
      (overlay.Commit oo f ms dfs name key).tx = .rolledBack ∧
      (overlay.Commit oo f ms dfs name key).ms = ms ∧
      (overlay.Commit oo f ms dfs name key).fs = dfs) ∧
    ((naive.Commit no f ms dfs name key).ret = .error (.wrap e "failed to commit snapshot") ∧
      (naive.Commit no f ms dfs name key).tx = .rolledBack ∧
      (naive.Commit no f ms dfs name key).ms = ms ∧
      (naive.Commit no f ms dfs name key).fs = dfs) ∧
    ((btrfs.Commit bo f ms vfs name key).ret = .error (.wrap e "failed to commit") ∧
      (btrfs.Commit bo f ms vfs name key).tx = .rolledBack ∧
      (btrfs.Commit bo f ms vfs name key).ms = ms ∧
      (btrfs.Commit bo f ms vfs name key).fs = vfs) := by
  refine ⟨?_, ?_, ?_⟩
  · simp [overlay.Commit, hbegin, herr]
  · simp [naive.Commit, hbegin, herr]
  · simp [btrfs.Commit, hbegin, herr]

/-- Witness for C14: committing the Readonly view `v` is refused with `InvalidState`. -/
theorem commit_metadata_error_changes_nothing_witness :
    (overlay.Commit ⟨"/r"⟩ {} ⟨1, [⟨"1", [], true, "v"⟩], []⟩ (fun _ => none) "n" "v").ret =
      .error (.wrap .InvalidState "failed to commit snapshot") :=
  (commit_metadata_error_changes_nothing ⟨"/r"⟩ ⟨"/r"⟩ ⟨"/dev/sda1", "/r"⟩ {}
    ⟨1, [⟨"1", [], true, "v"⟩], []⟩ (fun _ => none) ⟨fun _ => none, 256⟩ "n" "v" .InvalidState
    rfl (by decide)).1.1

/-- Counterexample to C15 as stated: the overlay snapshot `k` (ID 1) has its
directory at `/r/snapshots/1` while Active; `Commit("n", "k")` succeeds, the record
becomes Committed, and the directory is still at `/r/snapshots/1`: the filesystem
is the one before the call. -/
theorem overlay_commit_keeps_directory_path :
    (overlay.Commit ⟨"/r"⟩ {} ⟨1, [⟨"1", [], false, "k"⟩], []⟩
        (fun q => if q = "/r/snapshots/1" then some ["fs", "work"] else none) "n" "k").ret =
      .ok () ∧
    (overlay.Commit ⟨"/r"⟩ {} ⟨1, [⟨"1", [], false, "k"⟩], []⟩
        (fun q => if q = "/r/snapshots/1" then some ["fs", "work"] else none) "n" "k").ms =
      ⟨1, [], [⟨"1", [], "n"⟩]⟩ ∧
    Join ["/r", "snapshots", "1"] = "/r/snapshots/1" ∧
    (overlay.Commit ⟨"/r"⟩ {} ⟨1, [⟨"1", [], false, "k"⟩], []⟩
        (fun q => if q = "/r/snapshots/1" then some ["fs", "work"] else none) "n" "k").fs
      "/r/snapshots/1" = some ["fs", "work"] ∧
    (overlay.Commit ⟨"/r"⟩ {} ⟨1, [⟨"1", [], false, "k"⟩], []⟩
        (fun q => if q = "/r/snapshots/1" then some ["fs", "work"] else none) "n" "k").fs =
      (fun q => if q = "/r/snapshots/1" then some ["fs", "work"] else none) := by
  refine ⟨by decide, by decide, by decide, by decide, rfl⟩

theorem overlay_Commit_ok {o : overlay.snapshotter} {f : Faults} {ms : storage.MetaStore}
    {fs : DirFS} {name key : String} (h : (overlay.Commit o f ms fs name key).ret = .ok ()) :
    ∃ id tx, storage.CommitActive ms key name = .ok (id, tx) ∧
      (overlay.Commit o f ms fs name key).ms = tx ∧
      (overlay.Commit o f ms fs name key).tx = .committed ∧
      (overlay.Commit o f ms fs name key).fs = fs := by
  unfold overlay.Commit at h ⊢
  cases h1 : f.Begin with
  | some e => simp [h1] at h
  | none =>
    cases h2 : f.Storage with
    | some e => simp [h1, h2, storageCall] at h
    | none =>
      cases h3 : storage.CommitActive ms key name with
      | error e => simp [h1, h2, h3, storageCall] at h
      | ok r =>
        obtain ⟨id, tx⟩ := r
        cases h4 : f.Commit with
        | some e => simp [h1, h2, h3, h4, storageCall] at h
        | none => exact ⟨id, tx, rfl, by simp [h2, h4, storageCall]⟩

theorem naive_Commit_ok {o : naive.snapshotter} {f : Faults} {ms : storage.MetaStore}
    {fs : DirFS} {name key : String} (h : (naive.Commit o f ms fs name key).ret = .ok ()) :
    ∃ id tx, storage.CommitActive ms key name = .ok (id, tx) ∧
      (naive.Commit o f ms fs name key).ms = tx ∧
      (naive.Commit o f ms fs name key).tx = .committed ∧
      (naive.Commit o f ms fs name key).fs = fs := by
  unfold naive.Commit at h ⊢
  cases h1 : f.Begin with
  | some e => simp [h1] at h
  | none =>
    cases h2 : f.Storage with
    | some e => simp [h1, h2, storageCall] at h
    | none =>
      cases h3 : storage.CommitActive ms key name with
      | error e => simp [h1, h2, h3, storageCall] at h
      | ok r =>
        obtain ⟨id, tx⟩ := r
        cases h4 : f.Commit with
        | some e => simp [h1, h2, h3, h4, storageCall] at h
        | none => exact ⟨id, tx, rfl, by simp [h2, h4, storageCall]⟩

/-- Claim C15, amended (overlay and naive `Commit`).  Every successful
`Commit(name, key)` changes the metadata only: the Active record for `key` is
replaced by a Committed record for `name` with the same ID and parent chain, and
the filesystem is the one before the call, so the directory of the ID stays at
`<root>/snapshots/<ID>`, where it was while Active.  No directory is renamed. -/
theorem commit_changes_metadata_only (oo : overlay.snapshotter) (no : naive.snapshotter)
    (f : Faults) (ms : storage.MetaStore) (fs : DirFS) (name key : String) :
    ((overlay.Commit oo f ms fs name key).ret = .ok () →
      (overlay.Commit oo f ms fs name key).fs = fs ∧
      ∃ a ∈ ms.active, a.Key = key ∧
        (overlay.Commit oo f ms fs name key).ms =
          ⟨ms.seq, ms.active.filter (fun b => ¬ b.Key = key),
            ⟨a.ID, a.ParentIDs, name⟩ :: ms.committed⟩ ∧
        (overlay.Commit oo f ms fs name key).fs (Join [oo.root, "snapshots", a.ID]) =
          fs (Join [oo.root, "snapshots", a.ID])) ∧
    ((naive.Commit no f ms fs name key).ret = .ok () →
      (naive.Commit no f ms fs name key).fs = fs ∧
      ∃ a ∈ ms.active, a.Key = key ∧
        (naive.Commit no f ms fs name key).ms =
          ⟨ms.seq, ms.active.filter (fun b => ¬ b.Key = key),
            ⟨a.ID, a.ParentIDs, name⟩ :: ms.committed⟩ ∧
        (naive.Commit no f ms fs name key).fs (Join [no.root, "snapshots", a.ID]) =
          fs (Join [no.root, "snapshots", a.ID])) := by
  constructor
  · intro h
    obtain ⟨id, tx, hc, hms, -, hfs⟩ := overlay_Commit_ok h
    obtain ⟨-, a, ha, hkey, -, -, htx⟩ := storage_CommitActive_ok hc
    exact ⟨hfs, a, ha, hkey, by rw [hms, htx], by rw [hfs]⟩
  · intro h
    obtain ⟨id, tx, hc, hms, -, hfs⟩ := naive_Commit_ok h
    obtain ⟨-, a, ha, hkey, -, -, htx⟩ := storage_CommitActive_ok hc
    exact ⟨hfs, a, ha, hkey, by rw [hms, htx], by rw [hfs]⟩

/-- Witness for C15, amended: the naive snapshot `k` (ID 1) is committed as `n`. -/
theorem commit_changes_metadata_only_witness :
    (naive.Commit ⟨"/r"⟩ {} ⟨1, [⟨"1", [], false, "k"⟩], []⟩
        (fun q => if q = "/r/snapshots/1" then some [] else none) "n" "k").fs =
      (fun q => if q = "/r/snapshots/1" then some [] else none) :=
  ((commit_changes_metadata_only ⟨"/r"⟩ ⟨"/r"⟩ {} ⟨1, [⟨"1", [], false, "k"⟩], []⟩
    (fun q => if q = "/r/snapshots/1" then some [] else none) "n" "k").2 (by decide)).1

/-! ## btrfs `Commit`: the promoted volume, and the compensation after a failed commit -/

/-- Claim C16 (btrfs `Commit`, promotion).  For every `Commit(name, key)` that
returns success and whose deletion of the active volume does not fail: the
Committed record for `name` carries the ID the Active record for `key` had; at
`<root>/snapshots/<ID>` stands a read-only volume holding the file tree of the
volume that was at `<root>/active/<ID>`; and no volume is left at
`<root>/active/<ID>`. -/
theorem btrfs_commit_promotes_volume (b : btrfs.Snapshotter) (f : Faults)
    (ms : storage.MetaStore) (fs : btrfs.VolFS) (name key : String)
    (hdel : f.SubvolDelete = none) (h : (btrfs.Commit b f ms fs name key).ret = .ok ()) :
    ∃ a ∈ ms.active, a.Key = key ∧
      (btrfs.Commit b f ms fs name key).ms =
        ⟨ms.seq, ms.active.filter (fun x => ¬ x.Key = key),
          ⟨a.ID, a.ParentIDs, name⟩ :: ms.committed⟩ ∧
      ∃ v, fs.vols (Join [b.root, "active", a.ID]) = some v ∧
        (btrfs.Commit b f ms fs name key).fs.vols (Join [b.root, "snapshots", a.ID]) =
          some ⟨fs.nextID, true, v.tree⟩ ∧
        (btrfs.Commit b f ms fs name key).fs.vols (Join [b.root, "active", a.ID]) = none := by
  unfold btrfs.Commit at h ⊢
  cases h1 : f.Begin with
  | some e => simp [h1] at h
  | none =>
    cases h2 : f.Storage with
    | some e => simp [h1, h2, storageCall] at h
    | none =>
      cases h3 : storage.CommitActive ms key name with
      | error e => simp [h1, h2, h3, storageCall] at h
      | ok r =>
        obtain ⟨id, tx⟩ := r
        simp only [h1, h2, h3, storageCall] at h ⊢
        generalize hs : btrfs.SubvolSnapshot f.SubvolSnapshot fs (Join [b.root, "snapshots", id])
          (Join [b.root, "active", id]) true = sn at h ⊢
        obtain ⟨se, sfs⟩ := sn
        cases se with
        | some e => simp at h
        | none =>
          cases h4 : f.Commit with
          | some e => simp [h4] at h
          | none =>
            simp only [h4]
            obtain ⟨-, a, ha, hkey, hid, -, htx⟩ := storage_CommitActive_ok h3
            obtain ⟨hdst, v, hsrc, hsfs⟩ := btrfs_SubvolSnapshot_ok hs
            have hne : Join [b.root, "active", id] ≠ Join [b.root, "snapshots", id] := by
              intro heq
              rw [heq, hdst] at hsrc
              cases hsrc
            have hsfs_src : sfs.vols (Join [b.root, "active", id]) = some v := by
              rw [hsfs]; simp [btrfs.VolFS.set, hne, hsrc]
            refine ⟨a, ha, hkey, htx, v, by rw [hid]; exact hsrc, ?_, ?_⟩
            · rw [hid]
              unfold btrfs.SubvolDelete
              rw [hsfs_src, hdel, hsfs]
              simp [btrfs.VolFS.set, hne.symm]
            · rw [hid]
              unfold btrfs.SubvolDelete
              rw [hsfs_src, hdel, hsfs]
              simp [btrfs.VolFS.set]

/-- Witness for C16: the Active snapshot `k` (ID 1, volume 256) is committed as `n`. -/
theorem btrfs_commit_promotes_volume_witness :
    ∃ a ∈ [(⟨"1", [], false, "k"⟩ : storage.Active)], a.Key = "k" ∧
      (btrfs.Commit ⟨"/dev/sda1", "/r"⟩ {} ⟨1, [⟨"1", [], false, "k"⟩], []⟩
        ⟨fun q => if q = "/r/active/1" then some ⟨256, false, 256⟩ else none, 257⟩ "n" "k").ms =
        ⟨1, [(⟨"1", [], false, "k"⟩ : storage.Active)].filter (fun x => ¬ x.Key = "k"),
          ⟨a.ID, a.ParentIDs, "n"⟩ :: []⟩ ∧
      ∃ v, (if Join ["/r", "active", a.ID] = "/r/active/1" then some (⟨256, false, 256⟩ : btrfs.Subvol)
          else none) = some v ∧
        (btrfs.Commit ⟨"/dev/sda1", "/r"⟩ {} ⟨1, [⟨"1", [], false, "k"⟩], []⟩
          ⟨fun q => if q = "/r/active/1" then some ⟨256, false, 256⟩ else none, 257⟩ "n" "k").fs.vols
            (Join ["/r", "snapshots", a.ID]) = some ⟨257, true, v.tree⟩ ∧
        (btrfs.Commit ⟨"/dev/sda1", "/r"⟩ {} ⟨1, [⟨"1", [], false, "k"⟩], []⟩
          ⟨fun q => if q = "/r/active/1" then some ⟨256, false, 256⟩ else none, 257⟩ "n" "k").fs.vols
            (Join ["/r", "active", a.ID]) = none :=
  btrfs_commit_promotes_volume ⟨"/dev/sda1", "/r"⟩ {} ⟨1, [⟨"1", [], false, "k"⟩], []⟩
    ⟨fun q => if q = "/r/active/1" then some ⟨256, false, 256⟩ else none, 257⟩ "n" "k" rfl
    (by decide)

/-- Claim C17 (btrfs `Commit`, compensation).  When the transaction opened,
`CommitActive` succeeded, the snapshot `<root>/snapshots/<ID>` of
`<root>/active/<ID>` was taken and `t.Commit()` then fails with `e`: `Commit`
returns `e` itself; the active volume is left as it was; when the deletion of
`<root>/snapshots/<ID>` succeeds no volume stands there afterwards; and no other
path is touched. -/
theorem btrfs_commit_failure_deletes_snapshot (b : btrfs.Snapshotter) (f : Faults)
    (ms tx : storage.MetaStore) (fs fs1 : btrfs.VolFS) (name key id : String) (e : Error)
    (hbegin : f.Begin = none) (hstore : f.Storage = none)
    (hmeta : storage.CommitActive ms key name = .ok (id, tx))
    (hsnap : btrfs.SubvolSnapshot f.SubvolSnapshot fs (Join [b.root, "snapshots", id])
      (Join [b.root, "active", id]) true = (none, fs1))
    (hcommit : f.Commit = some e) :
    (btrfs.Commit b f ms fs name key).ret = .error e ∧
    (btrfs.Commit b f ms fs name key).ms = ms ∧
    (∃ v, fs.vols (Join [b.root, "active", id]) = some v ∧
      (btrfs.Commit b f ms fs name key).fs.vols (Join [b.root, "active", id]) = some v) ∧
    (f.SubvolCleanup = none →
      (btrfs.Commit b f ms fs name key).fs.vols (Join [b.root, "snapshots", id]) = none) ∧
    (∀ q, q ≠ Join [b.root, "snapshots", id] →
      (btrfs.Commit b f ms fs name key).fs.vols q = fs.vols q) := by
  obtain ⟨hdst, v, hsrc, hfs1⟩ := btrfs_SubvolSnapshot_ok hsnap
  have hne : Join [b.root, "active", id] ≠ Join [b.root, "snapshots", id] := by
    intro heq
    rw [heq, hdst] at hsrc
    cases hsrc
  have hC : btrfs.Commit b f ms fs name key =
      ⟨ms, (btrfs.SubvolDelete f.SubvolCleanup fs1 (Join [b.root, "snapshots", id])).2,
        .commitFailed, .error e⟩ := by
    simp [btrfs.Commit, hbegin, hstore, storageCall, hmeta, hsnap, hcommit]
  have hother : ∀ q, q ≠ Join [b.root, "snapshots", id] →
      (btrfs.SubvolDelete f.SubvolCleanup fs1 (Join [b.root, "snapshots", id])).2.vols q =
        fs.vols q := by
    intro q hq
    rw [btrfs_SubvolDelete_other _ _ _ _ hq, hfs1]
    simp [btrfs.VolFS.set, hq]
  rw [hC]
  refine ⟨rfl, rfl, ⟨v, hsrc, ?_⟩, ?_, hother⟩
  · show (btrfs.SubvolDelete f.SubvolCleanup fs1 (Join [b.root, "snapshots", id])).2.vols _ = _
    rw [hother _ hne, hsrc]
  · intro hclean
    show (btrfs.SubvolDelete f.SubvolCleanup fs1 (Join [b.root, "snapshots", id])).2.vols _ = _
    have htgt : fs1.vols (Join [b.root, "snapshots", id]) = some ⟨fs.nextID, true, v.tree⟩ := by
      rw [hfs1]; simp [btrfs.VolFS.set]
    unfold btrfs.SubvolDelete
    rw [htgt, hclean]
    simp [btrfs.VolFS.set]

/-- Witness for C17: `Commit("n", "k")` whose transaction commit fails. -/
theorem btrfs_commit_failure_deletes_snapshot_witness :
    (btrfs.Commit ⟨"/dev/sda1", "/r"⟩ { Commit := some .StoreUnavailable }
        ⟨1, [⟨"1", [], false, "k"⟩], []⟩
        ⟨fun q => if q = "/r/active/1" then some ⟨256, false, 256⟩ else none, 257⟩
        "n" "k").fs.vols (Join ["/r", "snapshots", "1"]) = none :=
  (btrfs_commit_failure_deletes_snapshot ⟨"/dev/sda1", "/r"⟩ { Commit := some .StoreUnavailable }
    ⟨1, [⟨"1", [], false, "k"⟩], []⟩ ⟨1, [], [⟨"1", [], "n"⟩]⟩
    ⟨fun q => if q = "/r/active/1" then some ⟨256, false, 256⟩ else none, 257⟩
    { (btrfs.VolFS.set
        ⟨fun q => if q = "/r/active/1" then some ⟨256, false, 256⟩ else none, 257⟩
        "/r/snapshots/1" (some ⟨257, true, 256⟩)) with nextID := 258 }
    "n" "k" "1" .StoreUnavailable rfl rfl (by decide) (by rfl) rfl).2.2.2.1 rfl

/-! ## `Remove`: the transient path, a failed move, a failed commit -/

theorem osRename_other (fault : Option Error) (fs : DirFS) (src dst q : String)
    (h1 : q ≠ src) (h2 : q ≠ dst) : (osRename fault fs src dst).2 q = fs q := by
  unfold osRename
  split
  · rfl
  · cases fault with
    | some e => rfl
    | none => simp [DirFS.set, h1, h2]

theorem overlay_Remove_frame {o : overlay.snapshotter} {f : Faults} {ms tx : storage.MetaStore}
    {fs : DirFS} {key id : String} {k : storage.Kind}
    (h3 : storage.Remove ms key = .ok (id, k, tx)) (q : String)
    (hq1 : q ≠ Join [o.root, "snapshots", id])
    (hq2 : q ≠ Join [o.root, "snapshots", "rm-" ++ id]) :
    (overlay.Remove o f ms fs key).fs q = fs q := by
  unfold overlay.Remove
  cases h1 : f.Begin with
  | some e => rfl
  | none =>
    cases h2 : f.Storage with
    | some e => simp [storageCall, h2]
    | none =>
      simp only [storageCall, h2, h3]
      have e1 := osRename_other f.Rename fs _ _ q hq1 hq2
      generalize osRename f.Rename fs (Join [o.root, "snapshots", id])
        (Join [o.root, "snapshots", "rm-" ++ id]) = rn at e1 ⊢
      obtain ⟨re, rfs⟩ := rn
      simp only at e1
      cases re with
      | some e => exact e1
      | none =>
        cases f.Commit with
        | some e =>
          simp only
          rw [osRename_other _ _ _ _ _ hq2 hq1, e1]
        | none =>
          simp only
          rw [osRemoveAll_other _ _ _ _ hq2, e1]

theorem naive_Remove_frame {o : naive.snapshotter} {f : Faults} {ms tx : storage.MetaStore}
    {fs : DirFS} {key id : String} {k : storage.Kind}
    (h3 : storage.Remove ms key = .ok (id, k, tx)) (q : String)
    (hq1 : q ≠ Join [o.root, "snapshots", id])
    (hq2 : q ≠ Join [o.root, "snapshots", "rm-" ++ id]) :
    (naive.Remove o f ms fs key).fs q = fs q := by
  unfold naive.Remove
  cases h1 : f.Begin with
  | some e => rfl
  | none =>
    cases h2 : f.Storage with
    | some e => simp [storageCall, h2]
    | none =>
      simp only [storageCall, h2, h3]
      have hq1' : q ≠ naive.getSnapshotDir o id := hq1
      have e1 := osRename_other f.Rename fs _ _ q hq1' hq2
      generalize osRename f.Rename fs (naive.getSnapshotDir o id)
        (Join [o.root, "snapshots", "rm-" ++ id]) = rn at e1 ⊢
      obtain ⟨re, rfs⟩ := rn
      simp only at e1
      have hfin : ∀ (g : DirFS) (renamed : String), g q = fs q → (renamed = "" ∨ q ≠ renamed) →
          (match f.Commit with
            | some e =>
              (⟨ms, if renamed ≠ "" then
                  (osRename f.RenameBack g renamed (naive.getSnapshotDir o id)).2 else g,
                .commitFailed, .error (.wrap e "failed to commit")⟩ : Outcome DirFS Unit)
            | none =>
              ⟨tx, if renamed ≠ "" then (osRemoveAll f.RemoveRenamed g renamed).2 else g,
                .committed, .ok ()⟩).fs q = fs q := by
        intro g renamed hg hr
        cases f.Commit with
        | some e =>
          simp only
          by_cases hrn : renamed = ""
          · simp [hrn, hg]
          · have hqr : q ≠ renamed := hr.resolve_left hrn
            simp only [ne_eq, hrn, not_false_eq_true, if_true]
            rw [osRename_other _ _ _ _ _ hqr hq1', hg]
        | none =>
          simp only
          by_cases hrn : renamed = ""
          · simp [hrn, hg]
          · have hqr : q ≠ renamed := hr.resolve_left hrn
            simp only [ne_eq, hrn, not_false_eq_true, if_true]
            rw [osRemoveAll_other _ _ _ _ hqr, hg]
      cases re with
      | some e =>
        simp only
        cases osIsNotExist e with
        | false => exact e1
        | true => exact hfin rfs "" e1 (Or.inl rfl)
      | none => exact hfin rfs _ e1 (Or.inr hq2)

theorem btrfs_Remove_frame_kind {b : btrfs.Snapshotter} {f : Faults} {ms tx : storage.MetaStore}
    {fs : btrfs.VolFS} {key id : String} {k : storage.Kind}
    (h3 : storage.Remove ms key = .ok (id, k, tx)) (q : String)
    (hq1 : q ≠ Join [b.root, if k = .KindActive then "active" else "snapshots", id])
    (hq2 : q ≠ Join [b.root, if k = .KindActive then "active" else "snapshots", "rm-" ++ id]) :
    (btrfs.Remove b f ms fs key).fs.vols q = fs.vols q := by
  unfold btrfs.Remove
  cases h1 : f.Begin with
  | some e => rfl
  | none =>
    cases h2 : f.Storage with
    | some e => simp [storageCall, h2]
    | none =>
      simp only [storageCall, h2, h3]
      cases k with
      | KindActive =>
        simp only [if_true] at hq1 hq2 ⊢
        cases btrfs.SubvolInfo f.SubvolInfo fs (Join [b.root, "active", id]) with
        | error e => rfl
        | ok info => exact btrfs_Remove_rest_frame f ms tx fs _ _ q info.Readonly hq1 hq2
      | KindCommitted =>
        simp only [reduceCtorEq, if_false] at hq1 hq2 ⊢
        exact btrfs_Remove_rest_frame f ms tx fs _ _ q true hq1 hq2

theorem unit_paths (r s : String) (n : Nat) (hs : plainElem s.data) :
    Join [r, s, Nat.repr n] = Join [r, s] ++ "/" ++ Nat.repr n ∧
    Join [r, s, "rm-" ++ Nat.repr n] = Join [r, s] ++ "/" ++ ("rm-" ++ Nat.repr n) := by
  obtain ⟨pre, hpre⟩ := Join_plain r
  exact ⟨(hpre s _ hs (plain_repr n)).2.1, (hpre s _ hs (plain_rm n)).2.1⟩

theorem plain_area (k : storage.Kind) :
    plainElem (if k = storage.Kind.KindActive then "active" else "snapshots" : String).data := by
  cases k
  · exact plain_active
  · exact plain_snapshots

/-- Claim C18 (the transient path of `Remove`).  Let the metadata `Remove` return
the ID and kind of the record for `key`.  For each driver, with `dir` the
directory of the storage unit (`<root>/snapshots` for overlay and naive; for btrfs
`<root>/active` for an Active record and `<root>/snapshots` for a Committed one):
`Remove`, under any failures, changes nothing but `dir/<ID>` and `dir/rm-<ID>`;
and in a run where the move and the transaction commit succeed and only the final
deletion of the transient unit fails, the unit that was at `dir/<ID>` is found at
`dir/rm-<ID>`, and `dir/<ID>` is gone. -/
theorem remove_transient_path (oo : overlay.snapshotter) (no : naive.snapshotter)
    (bo : btrfs.Snapshotter) (f : Faults) (ms tx : storage.MetaStore) (dfs : DirFS)
    (vfs : btrfs.VolFS) (key id : String) (k : storage.Kind)
    (hwf : storage.WellFormed ms) (hrem : storage.Remove ms key = .ok (id, k, tx)) :
    ((∀ q, q ≠ Join [oo.root, "snapshots"] ++ "/" ++ id →
        q ≠ Join [oo.root, "snapshots"] ++ "/" ++ ("rm-" ++ id) →
        (overlay.Remove oo f ms dfs key).fs q = dfs q) ∧
     (∀ d, f.Begin = none → f.Storage = none → f.Rename = none → f.Commit = none →
        f.RemoveRenamed ≠ none → dfs (Join [oo.root, "snapshots"] ++ "/" ++ id) = some d →
        (overlay.Remove oo f ms dfs key).fs
            (Join [oo.root, "snapshots"] ++ "/" ++ ("rm-" ++ id)) = some d ∧
        (overlay.Remove oo f ms dfs key).fs (Join [oo.root, "snapshots"] ++ "/" ++ id) = none)) ∧
    ((∀ q, q ≠ Join [no.root, "snapshots"] ++ "/" ++ id →
        q ≠ Join [no.root, "snapshots"] ++ "/" ++ ("rm-" ++ id) →
        (naive.Remove no f ms dfs key).fs q = dfs q) ∧
     (∀ d, f.Begin = none → f.Storage = none → f.Rename = none → f.Commit = none →
        f.RemoveRenamed ≠ none → dfs (Join [no.root, "snapshots"] ++ "/" ++ id) = some d →
        (naive.Remove no f ms dfs key).fs
            (Join [no.root, "snapshots"] ++ "/" ++ ("rm-" ++ id)) = some d ∧
        (naive.Remove no f ms dfs key).fs (Join [no.root, "snapshots"] ++ "/" ++ id) = none)) ∧
    ((∀ q, q ≠ Join [bo.root, if k = .KindActive then "active" else "snapshots"] ++ "/" ++ id →
        q ≠ Join [bo.root, if k = .KindActive then "active" else "snapshots"] ++ "/" ++
          ("rm-" ++ id) →
        (btrfs.Remove bo f ms vfs key).fs.vols q = vfs.vols q) ∧
     (∀ v, f.Begin = none → f.Storage = none → f.SubvolInfo = none → f.SubvolSnapshot = none →
        f.SubvolDelete = none → f.Commit = none → f.SubvolCleanup ≠ none →
        vfs.vols (Join [bo.root, if k = .KindActive then "active" else "snapshots"] ++ "/" ++ id) =
          some v →
        vfs.vols (Join [bo.root, if k = .KindActive then "active" else "snapshots"] ++ "/" ++
          ("rm-" ++ id)) = none →
        (btrfs.Remove bo f ms vfs key).fs.vols
            (Join [bo.root, if k = .KindActive then "active" else "snapshots"] ++ "/" ++
              ("rm-" ++ id)) =
          some ⟨vfs.nextID, if k = .KindActive then v.Readonly else true, v.tree⟩ ∧
        (btrfs.Remove bo f ms vfs key).fs.vols
            (Join [bo.root, if k = .KindActive then "active" else "snapshots"] ++ "/" ++ id) =
          none)) := by
  obtain ⟨-, -, ⟨n, -, hidn⟩, -, -⟩ := storage_Remove_others hwf hrem
  have po := unit_paths oo.root "snapshots" n plain_snapshots
  have pn := unit_paths no.root "snapshots" n plain_snapshots
  have pb := unit_paths bo.root (if k = .KindActive then "active" else "snapshots") n
    (plain_area k)
  have hne : ∀ r s : String, plainElem s.data →
      Join [r, s, Nat.repr n] ≠ Join [r, s, "rm-" ++ Nat.repr n] :=
    fun r s hs => unit_path_ne_rm r s s n n hs hs
  rw [hidn] at hrem ⊢
  rw [← po.1, ← po.2, ← pn.1, ← pn.2, ← pb.1, ← pb.2]
  refine ⟨⟨fun q h1 h2 => overlay_Remove_frame hrem q h1 h2, ?_⟩,
    ⟨fun q h1 h2 => naive_Remove_frame hrem q h1 h2, ?_⟩,
    ⟨fun q h1 h2 => btrfs_Remove_frame_kind hrem q h1 h2, ?_⟩⟩
  · intro d h1 h2 h3 h4 h5 h6
    obtain ⟨e', he'⟩ := Option.ne_none_iff_exists'.mp h5
    have := hne oo.root "snapshots" plain_snapshots
    simp [overlay.Remove, h1, h2, h3, h4, he', storageCall, hrem, osRename, h6, osRemoveAll,
      DirFS.set, this]
  · intro d h1 h2 h3 h4 h5 h6
    obtain ⟨e', he'⟩ := Option.ne_none_iff_exists'.mp h5
    have := hne no.root "snapshots" plain_snapshots
    have hrn : Join [no.root, "snapshots", "rm-" ++ Nat.repr n] ≠ "" := by
      rw [← Join_nested _ _ _ plain_snapshots (plain_rm n)]
      exact snapshots_path_ne_empty _ _
    simp [naive.Remove, naive.getSnapshotDir, h1, h2, h3, h4, he', storageCall, hrem, osRename,
      h6, osRemoveAll, DirFS.set, this, hrn]
  · intro v h1 h2 h3 h4 h5 h6 h7 h8 h9
    obtain ⟨e', he'⟩ := Option.ne_none_iff_exists'.mp h7
    cases k with
    | KindActive =>
      simp only [if_true] at h8 h9 ⊢
      have := hne bo.root "active" plain_active
      simp [btrfs.Remove, h1, h2, h3, h4, h5, h6, he', storageCall, hrem, btrfs.SubvolInfo,
        btrfs.SubvolSnapshot, btrfs.SubvolDelete, btrfs.VolFS.set, h8, h9, this, this.symm]
    | KindCommitted =>
      simp only [reduceCtorEq, if_false] at h8 h9 ⊢
      have := hne bo.root "snapshots" plain_snapshots
      simp [btrfs.Remove, h1, h2, h3, h4, h5, h6, he', storageCall, hrem,
        btrfs.SubvolSnapshot, btrfs.SubvolDelete, btrfs.VolFS.set, h8, h9, this, this.symm]

theorem WellFormed_one_active (ps : List String) (ro : Bool) (key : String) :
    storage.WellFormed ⟨1, [⟨"1", ps, ro, key⟩], []⟩ := by
  refine ⟨?_, ?_, ?_, ?_, ?_⟩
  · intro a ha
    simp only [List.mem_singleton] at ha
    subst ha
    exact ⟨1, Nat.le_refl _, rfl⟩
  · simp
  · intro a ha b hb _
    simp only [List.mem_singleton] at ha hb
    rw [ha, hb]
  · simp
  · simp

/-- Witness for C18: overlay `Remove("k")` for the Active ID 1 whose final
`os.RemoveAll` fails: the directory is found at `/r/snapshots/rm-1`. -/
theorem remove_transient_path_witness :
    (overlay.Remove ⟨"/r"⟩ { RemoveRenamed := some .StorageFailure }
        ⟨1, [⟨"1", [], false, "k"⟩], []⟩
        (fun q => if q = "/r/snapshots/1" then some ["fs", "work"] else none) "k").fs
          (Join ["/r", "snapshots"] ++ "/" ++ ("rm-" ++ "1")) = some ["fs", "work"] ∧
    (overlay.Remove ⟨"/r"⟩ { RemoveRenamed := some .StorageFailure }
        ⟨1, [⟨"1", [], false, "k"⟩], []⟩
        (fun q => if q = "/r/snapshots/1" then some ["fs", "work"] else none) "k").fs
          (Join ["/r", "snapshots"] ++ "/" ++ "1") = none :=
  (remove_transient_path ⟨"/r"⟩ ⟨"/r"⟩ ⟨"/dev/sda1", "/r"⟩ { RemoveRenamed := some .StorageFailure }
    ⟨1, [⟨"1", [], false, "k"⟩], []⟩ ⟨1, [], []⟩
    (fun q => if q = "/r/snapshots/1" then some ["fs", "work"] else none)
    ⟨fun _ => none, 256⟩ "k" "1" .KindActive (WellFormed_one_active _ _ _) (by decide)).1.2
    ["fs", "work"] rfl rfl rfl rfl (by decide) (by decide)

/-- Counterexample to C19 as stated: the naive view `v` (ID 2) on the committed
snapshot `n1` has no directory.  In `Remove("v")` the metadata `Remove` succeeds and
the rename of `/r/snapshots/2` fails because it does not exist; `Remove` returns
success, the transaction is committed and the record for `v` is gone. -/
theorem naive_remove_missing_directory_succeeds :
    storage.Remove ⟨2, [⟨"2", ["1"], true, "v"⟩], [⟨"1", [], "n1"⟩]⟩ "v" =
      .ok ("2", .KindActive, ⟨2, [], [⟨"1", [], "n1"⟩]⟩) ∧
    (osRename none (fun q => if q = "/r/snapshots/1" then some ["etc"] else none)
        (naive.getSnapshotDir ⟨"/r"⟩ "2") (Join ["/r", "snapshots", "rm-" ++ "2"])).1 =
      some .NotExist ∧
    (naive.Remove ⟨"/r"⟩ {} ⟨2, [⟨"2", ["1"], true, "v"⟩], [⟨"1", [], "n1"⟩]⟩
        (fun q => if q = "/r/snapshots/1" then some ["etc"] else none) "v").ret = .ok () ∧
    (naive.Remove ⟨"/r"⟩ {} ⟨2, [⟨"2", ["1"], true, "v"⟩], [⟨"1", [], "n1"⟩]⟩
        (fun q => if q = "/r/snapshots/1" then some ["etc"] else none) "v").tx = .committed ∧
    (naive.Remove ⟨"/r"⟩ {} ⟨2, [⟨"2", ["1"], true, "v"⟩], [⟨"1", [], "n1"⟩]⟩
        (fun q => if q = "/r/snapshots/1" then some ["etc"] else none) "v").ms =
      ⟨2, [], [⟨"1", [], "n1"⟩]⟩ := by
  refine ⟨by decide, by decide, by decide, by decide, by decide⟩

theorem btrfs_SubvolSnapshot_err {fault : Option Error} {fs fs' : btrfs.VolFS} {dst src : String}
    {ro : Bool} {e : Error} (h : btrfs.SubvolSnapshot fault fs dst src ro = (some e, fs')) :
    fs' = fs := by
  unfold btrfs.SubvolSnapshot at h
  split at h
  · simp only [Prod.mk.injEq] at h; exact h.2.symm
  · cases fault with
    | some e' => simp only [Prod.mk.injEq] at h; exact h.2.symm
    | none =>
      simp only at h
      split at h
      · simp only [Prod.mk.injEq] at h; exact h.2.symm
      · simp at h

/-- Claim C19, amended (`Remove` when the move to the transient path fails).  Let
the transaction be open and the metadata `Remove` have succeeded.  overlay: if
the rename fails, for any reason, `Remove` returns that error wrapped, the
transaction is rolled back, and metadata and filesystem are unchanged.  btrfs:
the same when the snapshot to the transient path fails (the error is returned
as it is), and when the deletion of the source fails the error is returned
wrapped and the transaction is rolled back.  naive: the same as overlay when the
rename fails for a reason other than the directory not existing; when the rename
fails because the directory does not exist, `Remove` goes on without a transient
path, and if the transaction commit succeeds it returns success with the record
removed. -/
theorem remove_move_failure_rolls_back (oo : overlay.snapshotter) (no : naive.snapshotter)
    (bo : btrfs.Snapshotter) (f : Faults) (ms tx : storage.MetaStore) (dfs : DirFS)
    (vfs : btrfs.VolFS) (key id : String) (k : storage.Kind) (e : Error)
    (hbegin : f.Begin = none)
    (hrem : storageCall f (storage.Remove ms key) = .ok (id, k, tx)) :
    (∀ fs', osRename f.Rename dfs (Join [oo.root, "snapshots", id])
        (Join [oo.root, "snapshots", "rm-" ++ id]) = (some e, fs') →
      (overlay.Remove oo f ms dfs key).ret = .error (.wrap e "failed to rename") ∧
      (overlay.Remove oo f ms dfs key).tx = .rolledBack ∧
      (overlay.Remove oo f ms dfs key).ms = ms ∧
      (overlay.Remove oo f ms dfs key).fs = dfs) ∧
    (∀ fs', osRename f.Rename dfs (Join [no.root, "snapshots", id])
        (Join [no.root, "snapshots", "rm-" ++ id]) = (some e, fs') →
      (osIsNotExist e = false →
        (naive.Remove no f ms dfs key).ret = .error (.wrap e "failed to rename") ∧
        (naive.Remove no f ms dfs key).tx = .rolledBack ∧
        (naive.Remove no f ms dfs key).ms = ms ∧
        (naive.Remove no f ms dfs key).fs = dfs) ∧
      (osIsNotExist e = true → f.Commit = none →
        (naive.Remove no f ms dfs key).ret = .ok () ∧
        (naive.Remove no f ms dfs key).tx = .committed ∧
        (naive.Remove no f ms dfs key).ms = tx ∧
        (naive.Remove no f ms dfs key).fs = dfs)) ∧
    (∀ (ro : Bool) fs',
      (k = .KindActive → ∃ info, btrfs.SubvolInfo f.SubvolInfo vfs (Join [bo.root, "active", id]) =
        .ok info ∧ ro = info.Readonly) →
      (k ≠ .KindActive → ro = true) →
      (btrfs.SubvolSnapshot f.SubvolSnapshot vfs
          (Join [bo.root, if k = .KindActive then "active" else "snapshots", "rm-" ++ id])
          (Join [bo.root, if k = .KindActive then "active" else "snapshots", id]) ro =
          (some e, fs') →
        (btrfs.Remove bo f ms vfs key).ret = .error e ∧
        (btrfs.Remove bo f ms vfs key).tx = .rolledBack ∧
        (btrfs.Remove bo f ms vfs key).ms = ms ∧
        (btrfs.Remove bo f ms vfs key).fs = vfs) ∧
      (∀ fs1 fs2,
        btrfs.SubvolSnapshot f.SubvolSnapshot vfs
          (Join [bo.root, if k = .KindActive then "active" else "snapshots", "rm-" ++ id])
          (Join [bo.root, if k = .KindActive then "active" else "snapshots", id]) ro =
          (none, fs1) →
        btrfs.SubvolDelete f.SubvolDelete fs1
          (Join [bo.root, if k = .KindActive then "active" else "snapshots", id]) = (some e, fs2) →
        (btrfs.Remove bo f ms vfs key).ret = .error (.wrap e "failed to remove snapshot") ∧
        (btrfs.Remove bo f ms vfs key).tx = .rolledBack ∧
        (btrfs.Remove bo f ms vfs key).ms = ms)) := by
  refine ⟨?_, ?_, ?_⟩
  · intro fs' hr
    have := osRename_err hr
    subst this
    simp [overlay.Remove, hbegin, hrem, hr]
  · intro fs' hr
    have := osRename_err hr
    subst this
    have hr' : osRename f.Rename fs' (naive.getSnapshotDir no id)
        (Join [no.root, "snapshots", "rm-" ++ id]) = (some e, fs') := hr
    constructor
    · intro hne
      simp [naive.Remove, hbegin, hrem, hr', hne]
    · intro hne hc
      simp [naive.Remove, hbegin, hrem, hr', hne, hc]
  · intro ro fs' hact hcom
    cases k with
    | KindActive =>
      obtain ⟨info, hinfo, hro⟩ := hact rfl
      subst hro
      simp only [if_true]
      constructor
      · intro hs
        have := btrfs_SubvolSnapshot_err hs
        subst this
        simp [btrfs.Remove, hbegin, hrem, hinfo, hs]
      · intro fs1 fs2 hs hd
        simp [btrfs.Remove, hbegin, hrem, hinfo, hs, hd]
    | KindCommitted =>
      have hro := hcom (by simp)
      subst hro
      simp only [reduceCtorEq, if_false]
      constructor
      · intro hs
        have := btrfs_SubvolSnapshot_err hs
        subst this
        simp [btrfs.Remove, hbegin, hrem, hs]
      · intro fs1 fs2 hs hd
        simp [btrfs.Remove, hbegin, hrem, hs, hd]

/-- Witness for C19, amended: overlay `Remove("k")` whose rename fails. -/
theorem remove_move_failure_rolls_back_witness :
    (overlay.Remove ⟨"/r"⟩ { Rename := some .StorageFailure } ⟨1, [⟨"1", [], false, "k"⟩], []⟩
        (fun q => if q = "/r/snapshots/1" then some ["fs", "work"] else none) "k").ret =
      .error (.wrap .StorageFailure "failed to rename") ∧
    (overlay.Remove ⟨"/r"⟩ { Rename := some .StorageFailure } ⟨1, [⟨"1", [], false, "k"⟩], []⟩
        (fun q => if q = "/r/snapshots/1" then some ["fs", "work"] else none) "k").tx =
      .rolledBack ∧
    (overlay.Remove ⟨"/r"⟩ { Rename := some .StorageFailure } ⟨1, [⟨"1", [], false, "k"⟩], []⟩
        (fun q => if q = "/r/snapshots/1" then some ["fs", "work"] else none) "k").ms =
      ⟨1, [⟨"1", [], false, "k"⟩], []⟩ ∧
    (overlay.Remove ⟨"/r"⟩ { Rename := some .StorageFailure } ⟨1, [⟨"1", [], false, "k"⟩], []⟩
        (fun q => if q = "/r/snapshots/1" then some ["fs", "work"] else none) "k").fs =
      (fun q => if q = "/r/snapshots/1" then some ["fs", "work"] else none) :=
  (remove_move_failure_rolls_back ⟨"/r"⟩ ⟨"/r"⟩ ⟨"/dev/sda1", "/r"⟩
    { Rename := some .StorageFailure } ⟨1, [⟨"1", [], false, "k"⟩], []⟩ ⟨1, [], []⟩
    (fun q => if q = "/r/snapshots/1" then some ["fs", "work"] else none)
    ⟨fun _ => none, 256⟩ "k" "1" .KindActive .StorageFailure rfl (by decide)).1
    (fun q => if q = "/r/snapshots/1" then some ["fs", "work"] else none) (by rfl)

/-! ## `Remove`: a failed transaction commit after the move -/

theorem renameBack_restores {fs fs1 : DirFS} {path renamed : String} (hne : path ≠ renamed)
    (h : osRename none fs path renamed = (none, fs1)) :
    (osRename none fs1 renamed path).2 path = fs path ∧
    (osRename none fs1 renamed path).2 renamed = none ∧
    (fs renamed = none → (osRename none fs1 renamed path).2 = fs) := by
  obtain ⟨d, hd, h1⟩ := osRename_ok h
  subst h1
  have hr : ((fs.set path none).set renamed (some d)) renamed = some d := by
    simp [DirFS.set]
  have hne' : renamed ≠ path := fun e => hne e.symm
  refine ⟨?_, ?_, ?_⟩
  · simp [osRename, hr, DirFS.set, hd]
  · simp [osRename, hr, DirFS.set, hne']
  · intro hfree
    funext q
    simp only [osRename, hr, DirFS.set]
    by_cases hq1 : q = path
    · simp [DirFS.set, hq1, hd]
    · by_cases hq2 : q = renamed
      · simp [DirFS.set, hq2, hne', hfree]
      · simp [DirFS.set, hq1, hq2]

/-- Claim C20 (overlay and naive `Remove`, the transaction commit fails after the
move).  Let the metadata `Remove` return the ID of the record for `key`, the
rename of `<root>/snapshots/<ID>` to `<root>/snapshots/rm-<ID>` succeed, and the
transaction commit fail with `e`.  Then, whatever the rename back does, `Remove`
returns `e` wrapped as "failed to commit" and the metadata is unchanged; and when
the rename back succeeds, the directory is again at `snapshots/<ID>` with its
content, no `rm-<ID>` entry exists, every other path is unchanged, and the whole
filesystem equals the one before the call when no `rm-<ID>` entry existed then. -/
theorem remove_commit_failure_renames_back (oo : overlay.snapshotter) (no : naive.snapshotter)
    (f : Faults) (ms tx : storage.MetaStore) (fs : DirFS) (key id : String) (k : storage.Kind)
    (e : Error) (hwf : storage.WellFormed ms) (hbegin : f.Begin = none)
    (hstore : f.Storage = none) (hrem : storage.Remove ms key = .ok (id, k, tx))
    (hcommit : f.Commit = some e) :
    (∀ fs1, osRename f.Rename fs (Join [oo.root, "snapshots", id])
        (Join [oo.root, "snapshots", "rm-" ++ id]) = (none, fs1) →
      (overlay.Remove oo f ms fs key).ret = .error (.wrap e "failed to commit") ∧
      (overlay.Remove oo f ms fs key).tx = .commitFailed ∧
      (overlay.Remove oo f ms fs key).ms = ms ∧
      (f.RenameBack = none →
        (overlay.Remove oo f ms fs key).fs (Join [oo.root, "snapshots", id]) =
          fs (Join [oo.root, "snapshots", id]) ∧
        (fs (Join [oo.root, "snapshots", id])).isSome = true ∧
        (overlay.Remove oo f ms fs key).fs (Join [oo.root, "snapshots", "rm-" ++ id]) = none ∧
        (∀ q, q ≠ Join [oo.root, "snapshots", "rm-" ++ id] →
          (overlay.Remove oo f ms fs key).fs q = fs q) ∧
        (fs (Join [oo.root, "snapshots", "rm-" ++ id]) = none →
          (overlay.Remove oo f ms fs key).fs = fs))) ∧
    (∀ fs1, osRename f.Rename fs (naive.getSnapshotDir no id)
        (Join [no.root, "snapshots", "rm-" ++ id]) = (none, fs1) →
      (naive.Remove no f ms fs key).ret = .error (.wrap e "failed to commit") ∧
      (naive.Remove no f ms fs key).tx = .commitFailed ∧
      (naive.Remove no f ms fs key).ms = ms ∧
      (f.RenameBack = none →
        (naive.Remove no f ms fs key).fs (naive.getSnapshotDir no id) =
          fs (naive.getSnapshotDir no id) ∧
        (fs (naive.getSnapshotDir no id)).isSome = true ∧
        (naive.Remove no f ms fs key).fs (Join [no.root, "snapshots", "rm-" ++ id]) = none ∧
        (∀ q, q ≠ Join [no.root, "snapshots", "rm-" ++ id] →
          (naive.Remove no f ms fs key).fs q = fs q) ∧
        (fs (Join [no.root, "snapshots", "rm-" ++ id]) = none →
          (naive.Remove no f ms fs key).fs = fs))) := by
  have hid : ∃ n, id = Nat.repr n := by
    rcases storage_Remove_ok hrem with ⟨-, a, ha, -, hai, -⟩ | ⟨-, c, hc, -, hci, -⟩
    · obtain ⟨n, -, hn⟩ := hwf.1 a ha
      exact ⟨n, by rw [← hai, hn]⟩
    · obtain ⟨n, -, hn⟩ := hwf.2.1 c hc
      exact ⟨n, by rw [← hci, hn]⟩
  obtain ⟨n, hn⟩ := hid
  subst hn
  have hrnm : f.Rename = none → ∀ r : String,
      osRename f.Rename fs (Join [r, "snapshots", Nat.repr n])
        (Join [r, "snapshots", "rm-" ++ Nat.repr n]) =
      osRename none fs (Join [r, "snapshots", Nat.repr n])
        (Join [r, "snapshots", "rm-" ++ Nat.repr n]) := by
    intro h r; rw [h]
  have hfault : ∀ (r : String) fs1, osRename f.Rename fs (Join [r, "snapshots", Nat.repr n])
      (Join [r, "snapshots", "rm-" ++ Nat.repr n]) = (none, fs1) →
      osRename none fs (Join [r, "snapshots", Nat.repr n])
        (Join [r, "snapshots", "rm-" ++ Nat.repr n]) = (none, fs1) := by
    intro r fs1 h
    obtain ⟨d, hd, h1⟩ := osRename_ok h
    simp [osRename, hd, h1]
  refine ⟨?_, ?_⟩
  · intro fs1 hr
    have hne := unit_path_ne_rm oo.root "snapshots" "snapshots" n n plain_snapshots plain_snapshots
    obtain ⟨d, hd, -⟩ := osRename_ok hr
    have hback := renameBack_restores hne (hfault _ _ hr)
    have hfs : ∀ hb : f.RenameBack = none, (overlay.Remove oo f ms fs key).fs =
        (osRename none fs1 (Join [oo.root, "snapshots", "rm-" ++ Nat.repr n])
          (Join [oo.root, "snapshots", Nat.repr n])).2 := by
      intro hb
      simp [overlay.Remove, hbegin, hstore, storageCall, hrem, hr, hcommit, hb]
    refine ⟨?_, ?_, ?_, ?_⟩
    · simp [overlay.Remove, hbegin, hstore, storageCall, hrem, hr, hcommit]
    · simp [overlay.Remove, hbegin, hstore, storageCall, hrem, hr, hcommit]
    · simp [overlay.Remove, hbegin, hstore, storageCall, hrem, hr, hcommit]
    · intro hb
      rw [hfs hb]
      refine ⟨hback.1, by rw [hd]; rfl, hback.2.1, ?_, hback.2.2⟩
      intro q hq
      by_cases hq1 : q = Join [oo.root, "snapshots", Nat.repr n]
      · rw [hq1]; exact hback.1
      · rw [← hfs hb]
        exact overlay_Remove_frame hrem q hq1 hq
  · intro fs1 hr
    have hne := unit_path_ne_rm no.root "snapshots" "snapshots" n n plain_snapshots plain_snapshots
    have hr' : osRename f.Rename fs (Join [no.root, "snapshots", Nat.repr n])
        (Join [no.root, "snapshots", "rm-" ++ Nat.repr n]) = (none, fs1) := hr
    obtain ⟨d, hd, -⟩ := osRename_ok hr'
    have hback := renameBack_restores hne (hfault _ _ hr')
    have hrn : Join [no.root, "snapshots", "rm-" ++ Nat.repr n] ≠ "" := by
      unfold Join
      by_cases hx : no.root = ""
      · simp only [hx, List.dropWhile, decide_True, String.reduceEq, decide_False]
        exact Clean_ne_empty _
      · simp only [List.dropWhile, hx, decide_False]
        exact Clean_ne_empty _
    have hfs : ∀ hb : f.RenameBack = none, (naive.Remove no f ms fs key).fs =
        (osRename none fs1 (Join [no.root, "snapshots", "rm-" ++ Nat.repr n])
          (Join [no.root, "snapshots", Nat.repr n])).2 := by
      intro hb
      simp [naive.Remove, naive.getSnapshotDir, hbegin, hstore, storageCall, hrem, hr', hcommit,
        hb, hrn]
    refine ⟨?_, ?_, ?_, ?_⟩
    · simp [naive.Remove, hbegin, hstore, storageCall, hrem, hr, hcommit]
    · simp [naive.Remove, hbegin, hstore, storageCall, hrem, hr, hcommit]
    · simp [naive.Remove, hbegin, hstore, storageCall, hrem, hr, hcommit]
    · intro hb
      rw [hfs hb]
      refine ⟨hback.1, by show (fs (Join [no.root, "snapshots", Nat.repr n])).isSome = true; rw [hd]; rfl,
        hback.2.1, ?_, hback.2.2⟩
      intro q hq
      by_cases hq1 : q = Join [no.root, "snapshots", Nat.repr n]
      · rw [hq1]; exact hback.1
      · rw [← hfs hb]
        exact naive_Remove_frame hrem q hq1 hq

/-- Witness for C20: overlay `Remove("k")` for the Active ID 1 whose transaction
commit fails: the commit error is returned and the filesystem is the one before
the call. -/
theorem remove_commit_failure_renames_back_witness :
    (overlay.Remove ⟨"/r"⟩ { Commit := some .StorageFailure } ⟨1, [⟨"1", [], false, "k"⟩], []⟩
        (fun q => if q = "/r/snapshots/1" then some ["fs", "work"] else none) "k").ret =
      .error (.wrap .StorageFailure "failed to commit") ∧
    (overlay.Remove ⟨"/r"⟩ { Commit := some .StorageFailure } ⟨1, [⟨"1", [], false, "k"⟩], []⟩
        (fun q => if q = "/r/snapshots/1" then some ["fs", "work"] else none) "k").fs =
      (fun q => if q = "/r/snapshots/1" then some ["fs", "work"] else none) :=
  have h := (remove_commit_failure_renames_back ⟨"/r"⟩ ⟨"/r"⟩ { Commit := some .StorageFailure }
    ⟨1, [⟨"1", [], false, "k"⟩], []⟩ ⟨1, [], []⟩
    (fun q => if q = "/r/snapshots/1" then some ["fs", "work"] else none) "k" "1" .KindActive
    .StorageFailure (WellFormed_one_active _ _ _) rfl rfl (by decide) rfl).1
    (osRename none (fun q => if q = "/r/snapshots/1" then some ["fs", "work"] else none)
      (Join ["/r", "snapshots", "1"]) (Join ["/r", "snapshots", "rm-" ++ "1"])).2
    (Prod.ext (by decide) rfl)
  ⟨h.1, (h.2.2.2 rfl).2.2.2.2 (by decide)⟩

/-! ## `Remove`: what is left on disk after a successful call -/

/-- Claim C21 (overlay and naive `Remove`, the disk after a successful call), the
code at the failing input: `Remove("k")` for the Active ID 1 whose final
`os.RemoveAll` of the transient directory fails.  In both drivers the failure is
only logged: `Remove` returns without error, the record is gone, and
`/r/snapshots/rm-1` exists afterwards with the content of the directory. -/
theorem overlay_remove_success_leaves_transient_directory :
    (overlay.Remove ⟨"/r"⟩ { RemoveRenamed := some .StorageFailure }
        ⟨1, [⟨"1", [], false, "k"⟩], []⟩
        (fun q => if q = "/r/snapshots/1" then some ["fs", "work"] else none) "k").ret = .ok () ∧
    (overlay.Remove ⟨"/r"⟩ { RemoveRenamed := some .StorageFailure }
        ⟨1, [⟨"1", [], false, "k"⟩], []⟩
        (fun q => if q = "/r/snapshots/1" then some ["fs", "work"] else none) "k").fs
      "/r/snapshots/rm-1" = some ["fs", "work"] ∧
    (overlay.Remove ⟨"/r"⟩ { RemoveRenamed := some .StorageFailure }
        ⟨1, [⟨"1", [], false, "k"⟩], []⟩
        (fun q => if q = "/r/snapshots/1" then some ["fs", "work"] else none) "k").fs
      "/r/snapshots/1" = none ∧
    (overlay.Remove ⟨"/r"⟩ { RemoveRenamed := some .StorageFailure }
        ⟨1, [⟨"1", [], false, "k"⟩], []⟩
        (fun q => if q = "/r/snapshots/1" then some ["fs", "work"] else none) "k").ms =
      ⟨1, [], []⟩ ∧
    (naive.Remove ⟨"/r"⟩ { RemoveRenamed := some .StorageFailure }
        ⟨1, [⟨"1", [], false, "k"⟩], []⟩
        (fun q => if q = "/r/snapshots/1" then some ["etc"] else none) "k").ret = .ok () ∧
    (naive.Remove ⟨"/r"⟩ { RemoveRenamed := some .StorageFailure }
        ⟨1, [⟨"1", [], false, "k"⟩], []⟩
        (fun q => if q = "/r/snapshots/1" then some ["etc"] else none) "k").fs
      "/r/snapshots/rm-1" = some ["etc"] ∧
    (naive.Remove ⟨"/r"⟩ { RemoveRenamed := some .StorageFailure }
        ⟨1, [⟨"1", [], false, "k"⟩], []⟩
        (fun q => if q = "/r/snapshots/1" then some ["etc"] else none) "k").ms =
      ⟨1, [], []⟩ := by
  refine ⟨by decide, by decide, by decide, by decide, by decide, by decide, by decide⟩

theorem storage_Remove_numeral {ms tx : storage.MetaStore} {key id : String} {k : storage.Kind}
    (hwf : storage.WellFormed ms) (hrem : storage.Remove ms key = .ok (id, k, tx)) :
    ∃ n, id = Nat.repr n := by
  rcases storage_Remove_ok hrem with ⟨-, a, ha, -, hai, -⟩ | ⟨-, c, hc, -, hci, -⟩
  · obtain ⟨n, -, hn⟩ := hwf.1 a ha
    exact ⟨n, by rw [← hai, hn]⟩
  · obtain ⟨n, -, hn⟩ := hwf.2.1 c hc
    exact ⟨n, by rw [← hci, hn]⟩

theorem Join_three_ne_empty (r x : String) : Join [r, "snapshots", x] ≠ "" := by
  unfold Join
  by_cases hx : r = ""
  · simp only [hx, List.dropWhile, decide_True, String.reduceEq, decide_False]
    exact Clean_ne_empty _
  · simp only [List.dropWhile, hx, decide_False]
    exact Clean_ne_empty _

/-- What a successful `Remove` of overlay and naive does leave on disk.  Let the
metadata be well formed and `Remove(key)` return without error; `id` is the ID
the metadata `Remove` returned.  Then `snapshots/<ID>` does not exist
afterwards.  In overlay the directory was moved to `snapshots/rm-<ID>`: that
path is gone when the final `os.RemoveAll` succeeded, and still holds the
directory when it failed.  In naive the same holds when the directory existed;
when it did not, `Remove` leaves the filesystem as it was (the rename is taken
not to report a missing directory while the directory exists). -/
theorem remove_success_removes_directory (oo : overlay.snapshotter) (no : naive.snapshotter)
    (f : Faults) (ms : storage.MetaStore) (fs : DirFS) (key : String)
    (hwf : storage.WellFormed ms) :
    ((overlay.Remove oo f ms fs key).ret = .ok () →
      ∃ id k tx, storage.Remove ms key = .ok (id, k, tx) ∧
        (overlay.Remove oo f ms fs key).fs (Join [oo.root, "snapshots", id]) = none ∧
        (fs (Join [oo.root, "snapshots", id])).isSome = true ∧
        (f.RemoveRenamed = none →
          (overlay.Remove oo f ms fs key).fs (Join [oo.root, "snapshots", "rm-" ++ id]) = none) ∧
        (f.RemoveRenamed ≠ none →
          (overlay.Remove oo f ms fs key).fs (Join [oo.root, "snapshots", "rm-" ++ id]) =
            fs (Join [oo.root, "snapshots", id]))) ∧
    ((naive.Remove no f ms fs key).ret = .ok () →
      (∀ e, f.Rename = some e → osIsNotExist e = false) →
      ∃ id k tx, storage.Remove ms key = .ok (id, k, tx) ∧
        (naive.Remove no f ms fs key).fs (Join [no.root, "snapshots", id]) = none ∧
        (fs (Join [no.root, "snapshots", id]) = none → (naive.Remove no f ms fs key).fs = fs) ∧
        ((fs (Join [no.root, "snapshots", id])).isSome = true → f.RemoveRenamed = none →
          (naive.Remove no f ms fs key).fs (Join [no.root, "snapshots", "rm-" ++ id]) = none) ∧
        ((fs (Join [no.root, "snapshots", id])).isSome = true → f.RemoveRenamed ≠ none →
          (naive.Remove no f ms fs key).fs (Join [no.root, "snapshots", "rm-" ++ id]) =
            fs (Join [no.root, "snapshots", id]))) := by
  constructor
  · intro h
    unfold overlay.Remove at h
    cases h1 : f.Begin with
    | some e => simp [h1] at h
    | none =>
      cases h2 : f.Storage with
      | some e => simp [h1, h2, storageCall] at h
      | none =>
        cases h3 : storage.Remove ms key with
        | error e => simp [h1, h2, h3, storageCall] at h
        | ok r =>
          obtain ⟨id, k, tx⟩ := r
          obtain ⟨n, hn⟩ := storage_Remove_numeral hwf h3
          subst hn
          have hne := unit_path_ne_rm oo.root "snapshots" "snapshots" n n plain_snapshots
            plain_snapshots
          refine ⟨_, k, tx, rfl, ?_⟩
          cases h4 : fs (Join [oo.root, "snapshots", Nat.repr n]) with
          | none => simp [h1, h2, h3, storageCall, osRename, h4] at h
          | some d =>
            cases h5 : f.Rename with
            | some e => simp [h1, h2, h3, storageCall, osRename, h4, h5] at h
            | none =>
              cases h6 : f.Commit with
              | some e => simp [h1, h2, h3, storageCall, osRename, h4, h5, h6] at h
              | none =>
                refine ⟨?_, rfl, ?_, ?_⟩
                · cases h7 : f.RemoveRenamed <;>
                    simp [overlay.Remove, h1, h2, h3, storageCall, osRename, h4, h5, h6, h7,
                      osRemoveAll, DirFS.set, hne]
                · intro h7
                  simp [overlay.Remove, h1, h2, h3, storageCall, osRename, h4, h5, h6, h7,
                    osRemoveAll, DirFS.set]
                · intro h7
                  obtain ⟨e', he'⟩ := Option.ne_none_iff_exists'.mp h7
                  simp [overlay.Remove, h1, h2, h3, storageCall, osRename, h4, h5, h6, he',
                    osRemoveAll, DirFS.set]
  · intro h hren
    unfold naive.Remove at h
    cases h1 : f.Begin with
    | some e => simp [h1] at h
    | none =>
      cases h2 : f.Storage with
      | some e => simp [h1, h2, storageCall] at h
      | none =>
        cases h3 : storage.Remove ms key with
        | error e => simp [h1, h2, h3, storageCall] at h
        | ok r =>
          obtain ⟨id, k, tx⟩ := r
          obtain ⟨n, hn⟩ := storage_Remove_numeral hwf h3
          subst hn
          have hne := unit_path_ne_rm no.root "snapshots" "snapshots" n n plain_snapshots
            plain_snapshots
          have hrn := Join_three_ne_empty no.root ("rm-" ++ Nat.repr n)
          refine ⟨_, k, tx, rfl, ?_⟩
          cases h6 : f.Commit with
          | some e =>
            cases h4 : fs (Join [no.root, "snapshots", Nat.repr n]) with
            | none =>
              simp [naive.getSnapshotDir, h1, h2, h3, storageCall, osRename, h4, h6,
                osIsNotExist] at h
            | some d =>
              cases h5 : f.Rename with
              | some e' =>
                cases h8 : osIsNotExist e' <;>
                  simp [naive.getSnapshotDir, h1, h2, h3, storageCall, osRename, h4, h5, h6,
                    h8] at h
              | none =>
                simp [naive.getSnapshotDir, h1, h2, h3, storageCall, osRename, h4, h5, h6] at h
          | none =>
            cases h4 : fs (Join [no.root, "snapshots", Nat.repr n]) with
            | none =>
              have hfs : (naive.Remove no f ms fs key).fs = fs := by
                simp [naive.Remove, naive.getSnapshotDir, h1, h2, h3, storageCall, osRename, h4,
                  h6, osIsNotExist]
              refine ⟨by rw [hfs]; exact h4, fun _ => hfs, ?_, ?_⟩ <;> intro hs <;> simp at hs
            | some d =>
              cases h5 : f.Rename with
              | some e' =>
                cases h8 : osIsNotExist e' with
                | false =>
                  simp [naive.getSnapshotDir, h1, h2, h3, storageCall, osRename, h4, h5, h6,
                    h8] at h
                | true => rw [hren e' h5] at h8; cases h8
              | none =>
                refine ⟨?_, ?_, ?_, ?_⟩
                · cases h7 : f.RemoveRenamed <;>
                    simp [naive.Remove, naive.getSnapshotDir, h1, h2, h3, storageCall, osRename,
                      h4, h5, h6, h7, osRemoveAll, DirFS.set, hne, hrn]
                · intro hs; simp at hs
                · intro _ h7
                  simp [naive.Remove, naive.getSnapshotDir, h1, h2, h3, storageCall, osRename,
                    h4, h5, h6, h7, osRemoveAll, DirFS.set, hrn]
                · intro _ h7
                  obtain ⟨e', he'⟩ := Option.ne_none_iff_exists'.mp h7
                  simp [naive.Remove, naive.getSnapshotDir, h1, h2, h3, storageCall, osRename,
                    h4, h5, h6, he', osRemoveAll, DirFS.set, hrn]

/-! ## overlay: the directory of a new snapshot -/

/-- Claim C22 (overlay `Prepare` and `View`, the directory of the new snapshot).
Let `createActive` succeed; `a` is the Active record the metadata store made.
Then the directory `snapshots/<a.ID>` exists and holds exactly the entry `fs`
for a view and exactly the entries `fs` and `work` for a mutable snapshot,
whatever the parent chain; the temporary directory is gone and every other path,
the directories of the parents among them, is as before. -/
theorem overlay_createActive_directory_layout (o : overlay.snapshotter) (f : Faults)
    (ms : storage.MetaStore) (fs : DirFS) (key parent : String) (ro : Bool) (M : List Mount)
    (h : (overlay.createActive o f ms fs key parent ro).ret = .ok M) :
    ∃ a tx, storage.CreateActive ms key parent ro = .ok (a, tx) ∧
      (overlay.createActive o f ms fs key parent ro).fs (Join [o.root, "snapshots", a.ID]) =
        some (if ro = true then ["fs"] else ["fs", "work"]) ∧
      (overlay.Prepare o f ms fs key parent = overlay.createActive o f ms fs key parent false) ∧
      (overlay.View o f ms fs key parent = overlay.createActive o f ms fs key parent true) ∧
      ∀ q, q ≠ Join [o.root, "snapshots", a.ID] →
        q ≠ Join [o.root, "snapshots", "new-" ++ Nat.repr f.tempSuffix] →
        (overlay.createActive o f ms fs key parent ro).fs q = fs q := by
  obtain ⟨a, tx, hc, -, -, -, -, hfs⟩ := overlay_createActive_ok h
  have hid := (storage_CreateActive_ok hc).2.1
  have e1 : Join [Join [o.root, "snapshots"], a.ID] = Join [o.root, "snapshots", a.ID] := by
    rw [hid]; exact Join_nested _ _ _ plain_snapshots (plain_repr _)
  have e2 : Join [Join [o.root, "snapshots"], "new-" ++ Nat.repr f.tempSuffix] =
      Join [o.root, "snapshots", "new-" ++ Nat.repr f.tempSuffix] :=
    Join_nested _ _ _ plain_snapshots (plain_new _)
  rw [e1, e2] at hfs
  refine ⟨a, tx, hc, ?_, rfl, rfl, ?_⟩
  · rw [hfs]; simp
  · intro q h1 h2
    rw [hfs]; simp [h1, h2]

/-- Witness for C22: overlay `View("v", "n1")` on the committed snapshot `n1`
(ID 1): the directory `/r/snapshots/2` holds exactly `fs`. -/
theorem overlay_createActive_directory_layout_witness :
    ∃ a tx, storage.CreateActive ⟨1, [], [⟨"1", [], "n1"⟩]⟩ "v" "n1" true = .ok (a, tx) ∧
      (overlay.createActive ⟨"/r"⟩ {} ⟨1, [], [⟨"1", [], "n1"⟩]⟩
        (fun q => if q = "/r/snapshots/1" then some ["fs", "work"] else none) "v" "n1" true).fs
          (Join ["/r", "snapshots", a.ID]) = some ["fs"] :=
  match overlay_createActive_directory_layout ⟨"/r"⟩ {} ⟨1, [], [⟨"1", [], "n1"⟩]⟩
      (fun q => if q = "/r/snapshots/1" then some ["fs", "work"] else none) "v" "n1" true
      [⟨"bind", "/r/snapshots/1/fs", ["ro", "rbind"]⟩] (by decide) with
  | ⟨a, tx, h1, h2, _⟩ => ⟨a, tx, h1, h2⟩

/-! ## `Stat` -/

/-- Claim C23 (`Stat` of the three drivers).  For every key, store state and
environment: `Stat` leaves the metadata and the filesystem as they are and its
transaction is never committed; when the read-only transaction opens, `Stat`
returns exactly what `GetInfo` gives for the key on the current store state
(its `Info` or its error) and the transaction is rolled back; when the
transaction cannot be opened, `Stat` returns that error. -/
theorem stat_returns_info_and_changes_nothing (oo : overlay.snapshotter)
    (no : naive.snapshotter) (bo : btrfs.Snapshotter) (f : Faults) (ms : storage.MetaStore)
    (dfs : DirFS) (vfs : btrfs.VolFS) (key : String) :
    ((overlay.Stat oo f ms dfs key).ms = ms ∧ (overlay.Stat oo f ms dfs key).fs = dfs ∧
      (overlay.Stat oo f ms dfs key).tx ≠ .committed ∧
      (f.Begin = none →
        (overlay.Stat oo f ms dfs key).ret = storageCall f (storage.GetInfo ms key) ∧
        (overlay.Stat oo f ms dfs key).tx = .rolledBack ∧
        (f.Storage = none → (overlay.Stat oo f ms dfs key).ret = storage.GetInfo ms key)) ∧
      (∀ e, f.Begin = some e → (overlay.Stat oo f ms dfs key).ret = .error e)) ∧
    ((naive.Stat no f ms dfs key).ms = ms ∧ (naive.Stat no f ms dfs key).fs = dfs ∧
      (naive.Stat no f ms dfs key).tx ≠ .committed ∧
      (f.Begin = none →
        (naive.Stat no f ms dfs key).ret = storageCall f (storage.GetInfo ms key) ∧
        (naive.Stat no f ms dfs key).tx = .rolledBack ∧
        (f.Storage = none → (naive.Stat no f ms dfs key).ret = storage.GetInfo ms key)) ∧
      (∀ e, f.Begin = some e → (naive.Stat no f ms dfs key).ret = .error e)) ∧
    ((btrfs.Stat bo f ms vfs key).ms = ms ∧ (btrfs.Stat bo f ms vfs key).fs = vfs ∧
      (btrfs.Stat bo f ms vfs key).tx ≠ .committed ∧
      (f.Begin = none →
        (btrfs.Stat bo f ms vfs key).ret = storageCall f (storage.GetInfo ms key) ∧
        (btrfs.Stat bo f ms vfs key).tx = .rolledBack ∧
        (f.Storage = none → (btrfs.Stat bo f ms vfs key).ret = storage.GetInfo ms key)) ∧
      (∀ e, f.Begin = some e → (btrfs.Stat bo f ms vfs key).ret = .error e)) := by
  cases h : f.Begin <;>
    simp +contextual [overlay.Stat, naive.Stat, btrfs.Stat, h, storageCall]

/-! ## btrfs `Remove`: a failed transaction commit -/

/-- Counterexample to C24 as stated: btrfs `Remove("k")` for the Active ID 1 where
the transaction commit fails, the restore of `/r/active/1` from `/r/active/rm-1`
succeeds, and the deferred deletion of `/r/active/rm-1` fails.  That failure is
only logged: the source volume exists again, and the transient volume is still
there. -/
theorem btrfs_remove_restore_keeps_transient_volume :
    (btrfs.Remove ⟨"/dev/sda1", "/r"⟩
        { Commit := some .StoreUnavailable, SubvolCleanup := some .StorageFailure }
        ⟨1, [⟨"1", [], false, "k"⟩], []⟩
        ⟨fun q => if q = "/r/active/1" then some ⟨256, false, 7⟩ else none, 257⟩ "k").ret =
      .error .StoreUnavailable ∧
    (btrfs.Remove ⟨"/dev/sda1", "/r"⟩
        { Commit := some .StoreUnavailable, SubvolCleanup := some .StorageFailure }
        ⟨1, [⟨"1", [], false, "k"⟩], []⟩
        ⟨fun q => if q = "/r/active/1" then some ⟨256, false, 7⟩ else none, 257⟩ "k").fs.vols
      "/r/active/1" = some ⟨258, false, 7⟩ ∧
    (btrfs.Remove ⟨"/dev/sda1", "/r"⟩
        { Commit := some .StoreUnavailable, SubvolCleanup := some .StorageFailure }
        ⟨1, [⟨"1", [], false, "k"⟩], []⟩
        ⟨fun q => if q = "/r/active/1" then some ⟨256, false, 7⟩ else none, 257⟩ "k").fs.vols
      "/r/active/rm-1" = some ⟨257, false, 7⟩ := by
  refine ⟨by decide, by decide, by decide⟩

/-- Claim C24, amended (btrfs `Remove`, the transaction commit fails after the
move).  Let the metadata `Remove` return the ID and kind of the record for `key`,
the volume `v` at the source path be snapshotted to the free path `rm-<ID>` of the
same area and deleted, and the transaction commit fail with `e`.  Then `Remove`
returns `e` and the metadata is unchanged.  If the restore fails, the transient
volume is left in place and the source is gone.  If the restore succeeds, the
source path holds a volume with the tree and flag of `v` again, and the transient
volume is deleted when the deferred deletion succeeds and still there when it
fails. -/
theorem btrfs_remove_commit_failure_restore (b : btrfs.Snapshotter) (f : Faults)
    (ms tx : storage.MetaStore) (vfs : btrfs.VolFS) (key id : String) (k : storage.Kind)
    (e : Error) (v : btrfs.Subvol) (hwf : storage.WellFormed ms) (hbegin : f.Begin = none)
    (hstore : f.Storage = none) (hrem : storage.Remove ms key = .ok (id, k, tx))
    (hsrc : vfs.vols (Join [b.root, if k = .KindActive then "active" else "snapshots", id]) =
      some v)
    (hfree : vfs.vols
      (Join [b.root, if k = .KindActive then "active" else "snapshots", "rm-" ++ id]) = none)
    (hinfo : f.SubvolInfo = none) (hsnap : f.SubvolSnapshot = none)
    (hdel : f.SubvolDelete = none) (hcommit : f.Commit = some e) :
    (btrfs.Remove b f ms vfs key).ret = .error e ∧
    (btrfs.Remove b f ms vfs key).tx = .commitFailed ∧
    (btrfs.Remove b f ms vfs key).ms = ms ∧
    (f.SubvolRestore ≠ none →
      (btrfs.Remove b f ms vfs key).fs.vols
          (Join [b.root, if k = .KindActive then "active" else "snapshots", "rm-" ++ id]) =
        some ⟨vfs.nextID, if k = .KindActive then v.Readonly else true, v.tree⟩ ∧
      (btrfs.Remove b f ms vfs key).fs.vols
          (Join [b.root, if k = .KindActive then "active" else "snapshots", id]) = none) ∧
    (f.SubvolRestore = none →
      (btrfs.Remove b f ms vfs key).fs.vols
          (Join [b.root, if k = .KindActive then "active" else "snapshots", id]) =
        some ⟨vfs.nextID + 1, if k = .KindActive then v.Readonly else true, v.tree⟩ ∧
      (f.SubvolCleanup = none →
        (btrfs.Remove b f ms vfs key).fs.vols
          (Join [b.root, if k = .KindActive then "active" else "snapshots", "rm-" ++ id]) =
            none) ∧
      (f.SubvolCleanup ≠ none →
        (btrfs.Remove b f ms vfs key).fs.vols
          (Join [b.root, if k = .KindActive then "active" else "snapshots", "rm-" ++ id]) =
            some ⟨vfs.nextID, if k = .KindActive then v.Readonly else true, v.tree⟩)) := by
  obtain ⟨n, hn⟩ := storage_Remove_numeral hwf hrem
  subst hn
  have hne : ∀ s : String, plainElem s.data →
      Join [b.root, s, Nat.repr n] ≠ Join [b.root, s, "rm-" ++ Nat.repr n] :=
    fun s hs => unit_path_ne_rm b.root s s n n hs hs
  cases k with
  | KindActive =>
    simp only [if_true] at hsrc hfree ⊢
    have := hne "active" plain_active
    refine ⟨?_, ?_, ?_, ?_, ?_⟩
    · cases hr : f.SubvolRestore <;>
        simp [btrfs.Remove, hbegin, hstore, hinfo, hsnap, hdel, hcommit, hr, storageCall, hrem,
          btrfs.SubvolInfo, btrfs.SubvolSnapshot, btrfs.SubvolDelete, btrfs.VolFS.set, hsrc,
          hfree, this, this.symm]
    · cases hr : f.SubvolRestore <;>
        simp [btrfs.Remove, hbegin, hstore, hinfo, hsnap, hdel, hcommit, hr, storageCall, hrem,
          btrfs.SubvolInfo, btrfs.SubvolSnapshot, btrfs.SubvolDelete, btrfs.VolFS.set, hsrc,
          hfree, this, this.symm]
    · cases hr : f.SubvolRestore <;>
        simp [btrfs.Remove, hbegin, hstore, hinfo, hsnap, hdel, hcommit, hr, storageCall, hrem,
          btrfs.SubvolInfo, btrfs.SubvolSnapshot, btrfs.SubvolDelete, btrfs.VolFS.set, hsrc,
          hfree, this, this.symm]
    · intro hr
      obtain ⟨e1, hr⟩ := Option.ne_none_iff_exists'.mp hr
      simp [btrfs.Remove, hbegin, hstore, hinfo, hsnap, hdel, hcommit, hr, storageCall, hrem,
        btrfs.SubvolInfo, btrfs.SubvolSnapshot, btrfs.SubvolDelete, btrfs.VolFS.set, hsrc,
        hfree, this, this.symm]
    · intro hr
      refine ⟨?_, ?_, ?_⟩
      · cases hc : f.SubvolCleanup <;>
          simp [btrfs.Remove, hbegin, hstore, hinfo, hsnap, hdel, hcommit, hr, hc, storageCall,
            hrem, btrfs.SubvolInfo, btrfs.SubvolSnapshot, btrfs.SubvolDelete, btrfs.VolFS.set,
            hsrc, hfree, this, this.symm]
      · intro hc
        simp [btrfs.Remove, hbegin, hstore, hinfo, hsnap, hdel, hcommit, hr, hc, storageCall,
          hrem, btrfs.SubvolInfo, btrfs.SubvolSnapshot, btrfs.SubvolDelete, btrfs.VolFS.set,
          hsrc, hfree, this, this.symm]
      · intro hc
        obtain ⟨e2, hc⟩ := Option.ne_none_iff_exists'.mp hc
        simp [btrfs.Remove, hbegin, hstore, hinfo, hsnap, hdel, hcommit, hr, hc, storageCall,
          hrem, btrfs.SubvolInfo, btrfs.SubvolSnapshot, btrfs.SubvolDelete, btrfs.VolFS.set,
          hsrc, hfree, this, this.symm]
  | KindCommitted =>
    simp only [reduceCtorEq, if_false] at hsrc hfree ⊢
    have := hne "snapshots" plain_snapshots
    refine ⟨?_, ?_, ?_, ?_, ?_⟩
    · cases hr : f.SubvolRestore <;>
        simp [btrfs.Remove, hbegin, hstore, hsnap, hdel, hcommit, hr, storageCall, hrem,
          btrfs.SubvolSnapshot, btrfs.SubvolDelete, btrfs.VolFS.set, hsrc,
          hfree, this, this.symm]
    · cases hr : f.SubvolRestore <;>
        simp [btrfs.Remove, hbegin, hstore, hsnap, hdel, hcommit, hr, storageCall, hrem,
          btrfs.SubvolSnapshot, btrfs.SubvolDelete, btrfs.VolFS.set, hsrc,
          hfree, this, this.symm]
    · cases hr : f.SubvolRestore <;>
        simp [btrfs.Remove, hbegin, hstore, hsnap, hdel, hcommit, hr, storageCall, hrem,
          btrfs.SubvolSnapshot, btrfs.SubvolDelete, btrfs.VolFS.set, hsrc,
          hfree, this, this.symm]
    · intro hr
      obtain ⟨e1, hr⟩ := Option.ne_none_iff_exists'.mp hr
      simp [btrfs.Remove, hbegin, hstore, hsnap, hdel, hcommit, hr, storageCall, hrem,
        btrfs.SubvolSnapshot, btrfs.SubvolDelete, btrfs.VolFS.set, hsrc,
        hfree, this, this.symm]
    · intro hr
      refine ⟨?_, ?_, ?_⟩
      · cases hc : f.SubvolCleanup <;>
          simp [btrfs.Remove, hbegin, hstore, hsnap, hdel, hcommit, hr, hc, storageCall,
            hrem, btrfs.SubvolSnapshot, btrfs.SubvolDelete, btrfs.VolFS.set,
            hsrc, hfree, this, this.symm]
      · intro hc
        simp [btrfs.Remove, hbegin, hstore, hsnap, hdel, hcommit, hr, hc, storageCall,
          hrem, btrfs.SubvolSnapshot, btrfs.SubvolDelete, btrfs.VolFS.set,
          hsrc, hfree, this, this.symm]
      · intro hc
        obtain ⟨e2, hc⟩ := Option.ne_none_iff_exists'.mp hc
        simp [btrfs.Remove, hbegin, hstore, hsnap, hdel, hcommit, hr, hc, storageCall,
          hrem, btrfs.SubvolSnapshot, btrfs.SubvolDelete, btrfs.VolFS.set,
          hsrc, hfree, this, this.symm]

/-- Witness for C24, amended: btrfs `Remove("k")` for the Active ID 1 where only
the transaction commit fails: the source volume is restored and the transient
volume is deleted. -/
theorem btrfs_remove_commit_failure_restore_witness :
    (btrfs.Remove ⟨"/dev/sda1", "/r"⟩ { Commit := some .StoreUnavailable }
        ⟨1, [⟨"1", [], false, "k"⟩], []⟩
        ⟨fun q => if q = "/r/active/1" then some ⟨256, false, 7⟩ else none, 257⟩ "k").ret =
      .error .StoreUnavailable ∧
    (btrfs.Remove ⟨"/dev/sda1", "/r"⟩ { Commit := some .StoreUnavailable }
        ⟨1, [⟨"1", [], false, "k"⟩], []⟩
        ⟨fun q => if q = "/r/active/1" then some ⟨256, false, 7⟩ else none, 257⟩ "k").fs.vols
      (Join ["/r", "active", "1"]) = some ⟨258, false, 7⟩ ∧
    (btrfs.Remove ⟨"/dev/sda1", "/r"⟩ { Commit := some .StoreUnavailable }
        ⟨1, [⟨"1", [], false, "k"⟩], []⟩
        ⟨fun q => if q = "/r/active/1" then some ⟨256, false, 7⟩ else none, 257⟩ "k").fs.vols
      (Join ["/r", "active", "rm-" ++ "1"]) = none :=
  have h := btrfs_remove_commit_failure_restore ⟨"/dev/sda1", "/r"⟩
    { Commit := some .StoreUnavailable } ⟨1, [⟨"1", [], false, "k"⟩], []⟩ ⟨1, [], []⟩
    ⟨fun q => if q = "/r/active/1" then some ⟨256, false, 7⟩ else none, 257⟩ "k" "1" .KindActive
    .StoreUnavailable ⟨256, false, 7⟩ (WellFormed_one_active _ _ _) rfl rfl (by decide)
    (by decide) (by decide) rfl rfl rfl rfl
  ⟨h.1, (h.2.2.2.2 rfl).1, (h.2.2.2.2 rfl).2.1 rfl⟩

/-! ## naive: removing a view on a parent -/

/-- Counterexample to C28 as stated: a run of the naive driver on the store with
the committed snapshot `n1` (ID 1).  A `Prepare("x", "n1")` whose transaction
commit fails leaves the directory `/r/snapshots/2` behind with no record for it.
`View("v", "n1")` then succeeds, is given the ID 2 and makes no directory;
`Remove("v")` succeeds, finds `/r/snapshots/2` and deletes it: the filesystem
after `Remove` differs from the one before `View`. -/
theorem naive_view_then_remove_deletes_leftover_directory :
    (naive.Prepare ⟨"/r"⟩ { Commit := some .StoreUnavailable } ⟨1, [], [⟨"1", [], "n1"⟩]⟩
        (fun q => if q = "/r/snapshots/1" then some ["etc"] else none) "x" "n1").ret =
      .error (.wrap .StoreUnavailable "commit failed") ∧
    (naive.Prepare ⟨"/r"⟩ { Commit := some .StoreUnavailable } ⟨1, [], [⟨"1", [], "n1"⟩]⟩
        (fun q => if q = "/r/snapshots/1" then some ["etc"] else none) "x" "n1").ms =
      ⟨1, [], [⟨"1", [], "n1"⟩]⟩ ∧
    (naive.Prepare ⟨"/r"⟩ { Commit := some .StoreUnavailable } ⟨1, [], [⟨"1", [], "n1"⟩]⟩
        (fun q => if q = "/r/snapshots/1" then some ["etc"] else none) "x" "n1").fs
      "/r/snapshots/2" = some ["etc"] ∧
    (naive.View ⟨"/r"⟩ {} ⟨1, [], [⟨"1", [], "n1"⟩]⟩
        (naive.Prepare ⟨"/r"⟩ { Commit := some .StoreUnavailable } ⟨1, [], [⟨"1", [], "n1"⟩]⟩
          (fun q => if q = "/r/snapshots/1" then some ["etc"] else none) "x" "n1").fs
        "v" "n1").ret = .ok [⟨"bind", "/r/snapshots/1", ["ro", "rbind"]⟩] ∧
    (naive.View ⟨"/r"⟩ {} ⟨1, [], [⟨"1", [], "n1"⟩]⟩
        (naive.Prepare ⟨"/r"⟩ { Commit := some .StoreUnavailable } ⟨1, [], [⟨"1", [], "n1"⟩]⟩
          (fun q => if q = "/r/snapshots/1" then some ["etc"] else none) "x" "n1").fs
        "v" "n1").ms = ⟨2, [⟨"2", ["1"], true, "v"⟩], [⟨"1", [], "n1"⟩]⟩ ∧
    (naive.View ⟨"/r"⟩ {} ⟨1, [], [⟨"1", [], "n1"⟩]⟩
        (naive.Prepare ⟨"/r"⟩ { Commit := some .StoreUnavailable } ⟨1, [], [⟨"1", [], "n1"⟩]⟩
          (fun q => if q = "/r/snapshots/1" then some ["etc"] else none) "x" "n1").fs
        "v" "n1").fs "/r/snapshots/2" = some ["etc"] ∧
    (naive.Remove ⟨"/r"⟩ {} ⟨2, [⟨"2", ["1"], true, "v"⟩], [⟨"1", [], "n1"⟩]⟩
        (naive.View ⟨"/r"⟩ {} ⟨1, [], [⟨"1", [], "n1"⟩]⟩
          (naive.Prepare ⟨"/r"⟩ { Commit := some .StoreUnavailable } ⟨1, [], [⟨"1", [], "n1"⟩]⟩
            (fun q => if q = "/r/snapshots/1" then some ["etc"] else none) "x" "n1").fs
          "v" "n1").fs "v").ret = .ok () ∧
    (naive.Remove ⟨"/r"⟩ {} ⟨2, [⟨"2", ["1"], true, "v"⟩], [⟨"1", [], "n1"⟩]⟩
        (naive.View ⟨"/r"⟩ {} ⟨1, [], [⟨"1", [], "n1"⟩]⟩
          (naive.Prepare ⟨"/r"⟩ { Commit := some .StoreUnavailable } ⟨1, [], [⟨"1", [], "n1"⟩]⟩
            (fun q => if q = "/r/snapshots/1" then some ["etc"] else none) "x" "n1").fs
          "v" "n1").fs "v").fs "/r/snapshots/2" = none := by
  refine ⟨by decide, by decide, by decide, by decide, by decide, by decide, by decide, by decide⟩

/-- Claim C28, amended (naive `View` on a parent, then `Remove`).  Let `View(k, p)`
with a non-empty parent name `p` succeed in a state where the path
`snapshots/<ID>` of the ID about to be handed out holds nothing, and let the
transaction of the following `Remove(k)` open, reach the store and commit.  Then
`p` names a Committed record, `View` made no directory (the filesystem is as
before), `Remove(k)` returns without error although the rename finds no
directory, the filesystem after `Remove` equals the one before `View`, so the
parent's directory is as it was, and the Active and Committed records are those
from before `View`. -/
theorem naive_view_then_remove (o : naive.snapshotter) (f1 f2 : Faults)
    (ms : storage.MetaStore) (fs : DirFS) (k p : String) (M : List Mount)
    (hp : p ≠ "")
    (hview : (naive.View o f1 ms fs k p).ret = .ok M)
    (hfree : fs (naive.getSnapshotDir o (Nat.repr (ms.seq + 1))) = none)
    (hbegin : f2.Begin = none) (hstore : f2.Storage = none) (hcommit : f2.Commit = none) :
    (∃ c ∈ ms.committed, c.Name = p ∧
      (naive.Remove o f2 (naive.View o f1 ms fs k p).ms (naive.View o f1 ms fs k p).fs k).fs
          (naive.getSnapshotDir o c.ID) = fs (naive.getSnapshotDir o c.ID)) ∧
    (naive.View o f1 ms fs k p).fs = fs ∧
    (naive.Remove o f2 (naive.View o f1 ms fs k p).ms (naive.View o f1 ms fs k p).fs k).ret =
      .ok () ∧
    (naive.Remove o f2 (naive.View o f1 ms fs k p).ms (naive.View o f1 ms fs k p).fs k).tx =
      .committed ∧
    (naive.Remove o f2 (naive.View o f1 ms fs k p).ms (naive.View o f1 ms fs k p).fs k).fs =
      fs ∧
    (naive.Remove o f2 (naive.View o f1 ms fs k p).ms
      (naive.View o f1 ms fs k p).fs k).ms.active = ms.active ∧
    (naive.Remove o f2 (naive.View o f1 ms fs k p).ms
      (naive.View o f1 ms fs k p).fs k).ms.committed = ms.committed := by
  unfold naive.View at hview ⊢
  obtain ⟨a, tx, hc, -, hms, -, hcase⟩ := naive_createActive_ok hview
  obtain ⟨hkey, hid, -, htx, hnew, -, hpar⟩ := storage_CreateActive_ok hc
  obtain ⟨c, hcm, hcn, -⟩ := hpar hp
  have hfs : (naive.createActive o f1 ms fs k p true).fs = fs := by
    rcases hcase with ⟨-, -, h⟩ | ⟨h, -⟩
    · exact h
    · rcases h with h | h
      · cases h
      · exact absurd h hp
  rw [hms, hfs]
  have hfind : tx.active.find? (fun b => b.Key = k) = some a := by
    rw [htx]; simp [List.find?, hkey]
  have hfilter : tx.active.filter (fun b => ¬ b.Key = k) = ms.active := by
    rw [htx]
    simp only [List.filter, hkey, not_true_eq_false, decide_False]
    rw [List.filter_eq_self]
    intro b hb
    simpa using hnew b hb
  have hrem : storage.Remove tx k =
      .ok (a.ID, .KindActive, { tx with active := tx.active.filter (fun b => ¬ b.Key = k) }) := by
    simp [storage.Remove, hfind]
  rw [← hid] at hfree
  have hR : naive.Remove o f2 tx fs k =
      ⟨{ tx with active := tx.active.filter (fun b => ¬ b.Key = k) }, fs, .committed, .ok ()⟩ := by
    simp [naive.Remove, hbegin, hstore, hcommit, storageCall, hrem, osRename, hfree,
      osIsNotExist]
  rw [hR]
  refine ⟨⟨c, hcm, hcn, rfl⟩, rfl, rfl, rfl, rfl, ?_, ?_⟩
  · exact hfilter
  · rw [htx]

/-- Witness for C28, amended: on the store with the committed snapshot `n1` (ID 1),
`View("v", "n1")` and then `Remove("v")` leave the filesystem as it was. -/
theorem naive_view_then_remove_witness :
    (naive.Remove ⟨"/r"⟩ {}
        (naive.View ⟨"/r"⟩ {} ⟨1, [], [⟨"1", [], "n1"⟩]⟩
          (fun q => if q = "/r/snapshots/1" then some ["etc"] else none) "v" "n1").ms
        (naive.View ⟨"/r"⟩ {} ⟨1, [], [⟨"1", [], "n1"⟩]⟩
          (fun q => if q = "/r/snapshots/1" then some ["etc"] else none) "v" "n1").fs "v").ret =
      .ok () ∧
    (naive.Remove ⟨"/r"⟩ {}
        (naive.View ⟨"/r"⟩ {} ⟨1, [], [⟨"1", [], "n1"⟩]⟩
          (fun q => if q = "/r/snapshots/1" then some ["etc"] else none) "v" "n1").ms
        (naive.View ⟨"/r"⟩ {} ⟨1, [], [⟨"1", [], "n1"⟩]⟩
          (fun q => if q = "/r/snapshots/1" then some ["etc"] else none) "v" "n1").fs "v").fs =
      (fun q => if q = "/r/snapshots/1" then some ["etc"] else none) :=
  have h := naive_view_then_remove ⟨"/r"⟩ {} {} ⟨1, [], [⟨"1", [], "n1"⟩]⟩
    (fun q => if q = "/r/snapshots/1" then some ["etc"] else none) "v" "n1"
    [⟨"bind", "/r/snapshots/1", ["ro", "rbind"]⟩] (by decide) (by decide) (by decide) rfl rfl rfl
  ⟨h.2.2.1, h.2.2.2.2.1⟩

/-! ## plugin: `Load` and `Register` -/

/-- Claim C25 (`Load` and a panic of `loadPlugins`).  `Load` never panics; when
`loadPlugins` returns, `Load` returns its result; when it panics with an error,
`Load` returns that error, and when it panics with another non-nil value, `Load`
returns `fmt.Errorf("%s", v)`.  But when `loadPlugins` panics with the nil value,
`recover()` returns nil and `Load` returns the nil error. -/
theorem load_nil_panic_returns_nil :
    plugin.Load (.panics .nil) = .returns none ∧
    (∀ body, ∃ r, plugin.Load body = .returns r) ∧
    (∀ r, plugin.Load (.returns r) = .returns r) ∧
    (∀ e, plugin.Load (.panics (.err e)) = .returns (some e)) ∧
    (∀ x, plugin.Load (.panics (.val x)) = .returns (some (.Errorf "%s" x))) := by
  refine ⟨rfl, fun body => ⟨_, rfl⟩, ?_, fun e => rfl, fun x => rfl⟩
  intro r
  simp [plugin.Load, plugin.recover]

/-- Claim C29 (`Register`).  For every registry, name and registration:
`Register` returns an error exactly when the name is already registered; then
the registry is unchanged; otherwise `Registrations()` afterwards maps the name
to the registration and every other name as before. -/
theorem register_rejects_registered_name (reg : plugin.Registry) (name : String)
    (r : Option plugin.Registration) :
    ((plugin.Register reg name r).2 ≠ none ↔ reg name ≠ none) ∧
    (reg name ≠ none →
      plugin.Registrations (plugin.Register reg name r).1 = reg ∧
      (plugin.Register reg name r).2 =
        some (.Errorf "plugin already registered as %q" (.str name))) ∧
    (reg name = none →
      (plugin.Register reg name r).2 = none ∧
      plugin.Registrations (plugin.Register reg name r).1 name = some r ∧
      ∀ k, k ≠ name → plugin.Registrations (plugin.Register reg name r).1 k = reg k) := by
  cases h : reg name with
  | none => simp +contextual [plugin.Register, plugin.Registrations, h]
  | some v => simp [plugin.Register, plugin.Registrations, h]

/-! ## windows: `Containers` -/

theorem containersLoop_ok (cs : List (String × windows.container))
    (list : List (Option windows.container)) :
    windows.containersLoop none cs list = .ok (list ++ cs.map (fun p => some p.2)) := by
  induction cs generalizing list with
  | nil => simp [windows.containersLoop]
  | cons p rest ih =>
    obtain ⟨i, c⟩ := p
    simp [windows.containersLoop, ih]

/-- Claim C30 (`Containers` of the windows runtime).  For a context that is not
done, `Containers` returns as many nil entries as the table has containers,
followed by the containers: for the table with the one container `c1` it
returns the two entries nil and `c1`; in general the list is twice as long as
the table. -/
theorem containers_starts_with_nil_entries :
    windows.Containers [("c1", ⟨"c1"⟩)] none = .ok [none, some ⟨"c1"⟩] ∧
    (∀ cs, windows.Containers cs none =
      .ok (List.replicate cs.length none ++ cs.map (fun p => some p.2))) ∧
    (∀ cs list, windows.Containers cs none = .ok list → list.length = 2 * cs.length) := by
  refine ⟨by decide, fun cs => containersLoop_ok cs _, ?_⟩
  intro cs list h
  rw [windows.Containers, containersLoop_ok] at h
  cases h
  simp
  omega

/-! ## descriptor: `Unmarshal` on hostile input -/

/-- Claim C26 (`Unmarshal` and `skipDescriptor` on arbitrary input).  Two inputs
on which `Unmarshal` panics.  The first is an unknown field of group wire type
(tag 0x23) holding a length-delimited field (tag 0x2A) whose declared length is
`2 ^ 63 - 1`: in `skipDescriptor` the sum `iNdEx + length` wraps around to a
negative number, the group loop takes it as its next index, and `dAtA[iNdEx]` is
evaluated at a negative index.  The second is the field `MediaType` (tag 0x0A)
with the same declared length: `postIndex` wraps around to a negative number,
passes the check `postIndex > l`, and `dAtA[iNdEx:postIndex]` is evaluated with
a negative upper bound. -/
theorem unmarshal_panics_on_wrapped_length :
    descriptor.Unmarshal ⟨[], [], 0⟩
        [0x23, 0x2A, 0xFF, 0xFF, 0xFF, 0xFF, 0xFF, 0xFF, 0xFF, 0xFF, 0x7F] =
      .panic (.indexOutOfRange (-9223372036854775798) 11) ∧
    descriptor.Unmarshal ⟨[], [], 0⟩
        [0x0A, 0xFF, 0xFF, 0xFF, 0xFF, 0xFF, 0xFF, 0xFF, 0xFF, 0x7F] =
      .panic (.sliceBoundsOutOfRange 10 (-9223372036854775799) 10) := by
  constructor <;> decide

/-! ## descriptor: varints -/

namespace descriptor

theorem varintBytes_small {v : Nat} (h : v < 128) : varintBytes v = [v] := by
  rw [varintBytes, if_pos h]

theorem varintBytes_big {v : Nat} (h : ¬ v < 128) :
    varintBytes v = (v % 128 + 128) :: varintBytes (v / 128) := by
  rw [varintBytes, if_neg h]

theorem varintBytes_length_pos (v : Nat) : 0 < (varintBytes v).length := by
  by_cases h : v < 128
  · rw [varintBytes_small h]; simp
  · rw [varintBytes_big h]; simp

theorem varintBytes_length_le (k : Nat) : ∀ v, v < 2 ^ (7 * (k + 1)) →
    (varintBytes v).length ≤ k + 1 := by
  induction k with
  | zero =>
    intro v hv
    rw [varintBytes_small (by simpa using hv)]; simp
  | succ k ih =>
    intro v hv
    by_cases h : v < 128
    · rw [varintBytes_small h]; simp
    · rw [varintBytes_big h]
      have : v / 128 < 2 ^ (7 * (k + 1)) := by
        rw [Nat.div_lt_iff_lt_mul (by norm_num)]
        calc v < 2 ^ (7 * (k + 1 + 1)) := hv
          _ = 2 ^ (7 * (k + 1)) * 128 := by rw [show 7 * (k + 1 + 1) = 7 * (k + 1) + 7 by ring, pow_add]; norm_num
      have := ih _ this
      simp only [List.length_cons]
      omega

theorem varintBytes_length_le_ten {v : Nat} (hv : v < 2 ^ 64) : (varintBytes v).length ≤ 10 := by
  apply varintBytes_length_le 9
  calc v < 2 ^ 64 := hv
    _ ≤ 2 ^ (7 * (9 + 1)) := by norm_num

theorem low_bits (v : Nat) : (v &&& 0x7f) = v % 128 :=
  Nat.and_pow_two_sub_one_eq_mod v 7

theorem or_high_bit : ∀ a, a < 128 → a ||| 0x80 = a + 128 := by decide

theorem shiftRight_seven (x : Nat) : x >>> 7 = x / 128 := by
  rw [Nat.shiftRight_eq_div_pow]

theorem sovLoop_eq : ∀ fuel x n, (varintBytes x).length ≤ fuel →
    sovLoop fuel x n = n + (varintBytes x).length := by
  intro fuel
  induction fuel with
  | zero =>
    intro x n h
    have := varintBytes_length_pos x
    omega
  | succ fuel ih =>
    intro x n h
    rw [sovLoop]
    simp only [shiftRight_seven]
    by_cases hx : x < 128
    · rw [varintBytes_small hx]
      have : x / 128 = 0 := by omega
      rw [if_pos this]; simp
    · rw [varintBytes_big hx] at h ⊢
      have h0 : ¬ x / 128 = 0 := by omega
      rw [if_neg h0, ih _ _ (by simpa using h)]
      simp only [List.length_cons]
      omega

theorem sovDescriptor_eq {x : Nat} (hx : x < 2 ^ 64) :
    sovDescriptor x = (varintBytes x).length := by
  rw [sovDescriptor, sovLoop_eq _ _ _ (varintBytes_length_le_ten hx)]
  simp

end descriptor

/-! ## descriptor: `Marshal` writes the wire format -/

namespace descriptor

theorem bind_ok {α β : Type} (a : α) (k : α → Res β) : (Res.ok a).bind k = k a := rfl

theorem store_append (w zs : List Nat) (z b : Nat) :
    store (w ++ z :: zs) w.length b = .ok (w ++ b :: zs) := by
  simp [store]

theorem store_room (w zs : List Nat) (b : Nat) (h : 0 < zs.length) :
    store (w ++ zs) w.length b = .ok ((w ++ [b]) ++ zs.drop 1) := by
  cases zs with
  | nil => simp at h
  | cons z zs => rw [store_append]; simp

theorem encodeVarint_append : ∀ fuel v (w zs : List Nat), (varintBytes v).length ≤ fuel →
    (varintBytes v).length ≤ zs.length →
    encodeVarintDescriptor fuel (w ++ zs) w.length v =
      .ok ((w ++ varintBytes v) ++ zs.drop (varintBytes v).length,
        w.length + (varintBytes v).length) := by
  intro fuel
  induction fuel with
  | zero =>
    intro v w zs h
    have := varintBytes_length_pos v
    omega
  | succ fuel ih =>
    intro v w zs h hz
    rw [encodeVarintDescriptor]
    have h128 : (1 <<< 7 : Nat) = 128 := by decide
    rw [h128]
    by_cases hv : v < 128
    · rw [varintBytes_small hv] at hz ⊢
      have e : uint8 v = v := by unfold uint8; omega
      rw [if_neg (by omega), e, store_room w zs v (by simpa using hz)]
      simp [Res.bind]
    · rw [varintBytes_big hv] at h hz ⊢
      have hb : v % 128 < 128 := Nat.mod_lt _ (by norm_num)
      have e : uint8 ((v &&& 0x7f) ||| 0x80) = v % 128 + 128 := by
        rw [low_bits, or_high_bit _ hb]; unfold uint8; omega
      simp only [List.length_cons] at h hz
      rw [if_pos (by omega), e, store_room w zs _ (by omega)]
      simp only [Res.bind, shiftRight_seven]
      have := ih (v / 128) (w ++ [v % 128 + 128]) (zs.drop 1) (by omega)
        (by simp only [List.length_drop]; omega)
      simp only [List.length_append, List.length_singleton] at this
      rw [this]
      simp [List.drop_drop, Nat.add_comm, Nat.add_assoc, Nat.add_left_comm]

theorem copyAt_append (w zs s : List Nat) (h : s.length ≤ zs.length) :
    copyAt (w ++ zs) w.length s = .ok ((w ++ s) ++ zs.drop s.length, s.length) := by
  unfold copyAt
  simp only [List.length_append, Nat.le_add_right, if_true, Nat.add_sub_cancel_left]
  rw [Nat.min_eq_right h]
  simp [List.take_of_length_le]

theorem stringField_length (tag : Nat) (s : List Nat) (h : s.length > 0) :
    (stringField tag s).length = 1 + s.length + (varintBytes s.length).length := by
  simp [stringField, h]; omega

/-- The statements of `MarshalTo` for a string field write `stringField`. -/
theorem marshal_stringField (tag : Nat) (s w zs : List Nat) (hs : s.length < 2 ^ 64)
    (hz : (stringField tag s).length ≤ zs.length) :
    (if s.length > 0 then
      (store (w ++ zs) w.length tag).bind fun dAtA =>
      (encodeVarintDescriptor 10 dAtA (w.length + 1) s.length).bind fun (dAtA, i) =>
      (copyAt dAtA i s).bind fun (dAtA, n) => Res.ok (dAtA, i + n)
    else .ok (w ++ zs, w.length)) =
      .ok ((w ++ stringField tag s) ++ zs.drop (stringField tag s).length,
        w.length + (stringField tag s).length) := by
  by_cases h : s.length > 0
  · rw [stringField_length tag s h] at hz
    rw [if_pos h, store_room w zs tag (by omega)]
    simp only [Res.bind]
    have h10 := varintBytes_length_le_ten hs
    have e1 := encodeVarint_append 10 s.length (w ++ [tag]) (zs.drop 1) h10
      (by simp only [List.length_drop]; omega)
    simp only [List.length_append, List.length_singleton] at e1
    rw [e1]
    simp only []
    have e2 := copyAt_append ((w ++ [tag]) ++ varintBytes s.length)
      ((zs.drop 1).drop (varintBytes s.length).length) s
      (by simp only [List.length_drop]; omega)
    simp only [List.length_append, List.length_singleton] at e2
    rw [e2]
    simp [stringField, h, List.drop_drop, Nat.add_comm, Nat.add_assoc, Nat.add_left_comm]
  · have : s = [] := by
      cases s with
      | nil => rfl
      | cons a t => simp at h
    subst this
    simp [stringField]

theorem uint64_lt (x : Int) : uint64 x < 2 ^ 64 := by
  unfold uint64
  have : x % 2 ^ 64 < 2 ^ 64 := Int.emod_lt_of_pos _ (by norm_num)
  have h0 : 0 ≤ x % 2 ^ 64 := Int.emod_nonneg _ (by norm_num)
  omega

/-- The statements of `MarshalTo` for `MediaSize` write `sizeField`. -/
theorem marshal_sizeField (x : Int) (w zs : List Nat)
    (hz : (sizeField x).length ≤ zs.length) :
    (if x ≠ 0 then
      (store (w ++ zs) w.length 0x18).bind fun dAtA =>
      encodeVarintDescriptor 10 dAtA (w.length + 1) (uint64 x)
    else .ok (w ++ zs, w.length)) =
      .ok ((w ++ sizeField x) ++ zs.drop (sizeField x).length,
        w.length + (sizeField x).length) := by
  by_cases h : x ≠ 0
  · simp only [sizeField, if_pos h, List.length_cons] at hz ⊢
    rw [store_room w zs _ (by omega)]
    simp only [Res.bind]
    have h10 := varintBytes_length_le_ten (uint64_lt x)
    have e1 := encodeVarint_append 10 (uint64 x) (w ++ [0x18]) (zs.drop 1) h10
      (by simp only [List.length_drop]; omega)
    simp only [List.length_append, List.length_singleton] at e1
    rw [e1]
    simp [List.drop_drop, Nat.add_comm, Nat.add_assoc, Nat.add_left_comm]
  · simp only [sizeField, if_neg h]
    simp

theorem Size_eq (m : Descriptor) (h1 : m.MediaType.length < 2 ^ 64)
    (h2 : m.Digest.length < 2 ^ 64) : Size m = (wireBytes m).length := by
  unfold Size wireBytes
  simp only [List.length_append, Nat.zero_add]
  have a1 : (stringField 0xa m.MediaType).length =
      if m.MediaType.length > 0 then 1 + m.MediaType.length + sovDescriptor m.MediaType.length
      else 0 := by
    by_cases h : m.MediaType.length > 0
    · rw [if_pos h, stringField_length _ _ h, sovDescriptor_eq h1]
    · rw [if_neg h]; simp [stringField, h]
  have a2 : (stringField 0x12 m.Digest).length =
      if m.Digest.length > 0 then 1 + m.Digest.length + sovDescriptor m.Digest.length
      else 0 := by
    by_cases h : m.Digest.length > 0
    · rw [if_pos h, stringField_length _ _ h, sovDescriptor_eq h2]
    · rw [if_neg h]; simp [stringField, h]
  have a3 : (sizeField m.MediaSize).length =
      if m.MediaSize ≠ 0 then 1 + sovDescriptor (uint64 m.MediaSize) else 0 := by
    by_cases h : m.MediaSize ≠ 0
    · rw [if_pos h, sovDescriptor_eq (uint64_lt _)]; simp [sizeField, h]; omega
    · rw [if_neg h]; simp [sizeField, h]
  rw [a1, a2, a3]
  split_ifs <;> omega

theorem MarshalTo_eq (m : Descriptor) (zs : List Nat) (h1 : m.MediaType.length < 2 ^ 64)
    (h2 : m.Digest.length < 2 ^ 64) (hz : (wireBytes m).length ≤ zs.length) :
    MarshalTo m zs = .ok (wireBytes m ++ zs.drop (wireBytes m).length, (wireBytes m).length) := by
  unfold MarshalTo
  simp only [wireBytes, List.length_append] at hz
  have s1 := marshal_stringField 0xa m.MediaType [] zs h1 (by omega)
  have s2 := marshal_stringField 0x12 m.Digest (stringField 0xa m.MediaType)
    (zs.drop (stringField 0xa m.MediaType).length) h2
    (by simp only [List.length_drop]; omega)
  have s3 := marshal_sizeField m.MediaSize
    (stringField 0xa m.MediaType ++ stringField 0x12 m.Digest)
    ((zs.drop (stringField 0xa m.MediaType).length).drop (stringField 0x12 m.Digest).length)
    (by simp only [List.length_drop]; omega)
  simp only [List.nil_append, List.length_nil, Nat.zero_add, List.length_append] at s1 s2 s3 ⊢
  rw [s1]
  simp only [bind_ok]
  rw [s2]
  simp only [bind_ok]
  rw [s3]
  simp [wireBytes, List.drop_drop, Nat.add_comm, Nat.add_assoc, Nat.add_left_comm]

theorem Marshal_eq (m : Descriptor) (h1 : m.MediaType.length < 2 ^ 64)
    (h2 : m.Digest.length < 2 ^ 64) : Marshal m = .ok (wireBytes m) := by
  unfold Marshal
  simp only []
  rw [MarshalTo_eq m _ h1 h2 (by rw [Size_eq m h1 h2]; simp)]
  simp [Res.bind, Size_eq m h1 h2]

end descriptor

/-! ## descriptor: `Unmarshal` reads the wire format -/

namespace descriptor

theorem getD_at (pre rest : List Nat) (b : Nat) : (pre ++ b :: rest).getD pre.length 0 = b := by
  induction pre with
  | nil => rfl
  | cons a t ih => simpa using ih

theorem index_at (pre rest : List Nat) (b : Nat) :
    index (pre ++ b :: rest) (pre.length : Int) = .ok b := by
  unfold index
  have h : (0 : Int) ≤ (pre.length : Int) ∧
      ((pre.length : Int) < ((pre ++ b :: rest).length : Nat)) := by
    constructor
    · exact Int.natCast_nonneg _
    · simp only [List.length_append, List.length_cons]; omega
  rw [if_pos h, Int.toNat_ofNat, getD_at]

theorem or_eq_add {acc x shift : Nat} (h : acc < 2 ^ shift) :
    acc ||| (x * 2 ^ shift) = acc + x * 2 ^ shift := by
  rw [Nat.or_comm, Nat.mul_comm, ← Nat.mul_add_lt_is_or h, Nat.add_comm]

theorem readVarint_varintBytes : ∀ fuel v shift acc (pre rest : List Nat),
    (varintBytes v).length ≤ fuel → shift < 64 → v * 2 ^ shift < 2 ^ 64 → acc < 2 ^ shift →
    readVarint (pre ++ (varintBytes v ++ rest))
        (((pre ++ (varintBytes v ++ rest)).length : Nat) : Int) fuel shift (pre.length : Int) acc =
      .ok (acc + v * 2 ^ shift, ((pre.length + (varintBytes v).length : Nat) : Int)) := by
  intro fuel
  induction fuel with
  | zero =>
    intro v shift acc pre rest h
    have := varintBytes_length_pos v
    omega
  | succ fuel ih =>
    intro v shift acc pre rest hf hs hv hacc
    rw [readVarint, if_neg (by omega)]
    have hpos := varintBytes_length_pos v
    have hlt : ¬ ((pre.length : Int) ≥ (((pre ++ (varintBytes v ++ rest)).length : Nat) : Int)) := by
      simp only [List.length_append]; omega
    rw [if_neg hlt]
    by_cases h128 : v < 128
    · rw [varintBytes_small h128]
      have hi := index_at pre rest v
      simp only [List.singleton_append]
      rw [hi, bind_ok]
      have e1 : (v &&& 0x7F) = v := by rw [low_bits]; omega
      have e2 : (v <<< shift) % 2 ^ 64 = v * 2 ^ shift := by
        rw [Nat.shiftLeft_eq, Nat.mod_eq_of_lt hv]
      simp only [e1, e2, or_eq_add hacc]
      rw [if_pos (by omega)]
      simp
    · have hvb := varintBytes_big h128
      have hdata : pre ++ (varintBytes v ++ rest) =
          pre ++ (v % 128 + 128) :: (varintBytes (v / 128) ++ rest) := by
        rw [hvb]; simp
      have hi : index (pre ++ (varintBytes v ++ rest)) (pre.length : Int) =
          .ok (v % 128 + 128) := by
        rw [hdata]; exact index_at _ _ _
      rw [hi, bind_ok]
      have hb : v % 128 < 128 := Nat.mod_lt _ (by norm_num)
      have e1 : ((v % 128 + 128) &&& 0x7F) = v % 128 := by rw [low_bits]; omega
      have hP : 0 < 2 ^ shift := Nat.two_pow_pos shift
      have hle : v % 128 * 2 ^ shift ≤ v * 2 ^ shift :=
        Nat.mul_le_mul_right _ (Nat.mod_le _ _)
      have e2 : ((v % 128) <<< shift) % 2 ^ 64 = v % 128 * 2 ^ shift := by
        rw [Nat.shiftLeft_eq, Nat.mod_eq_of_lt (by omega)]
      simp only [e1, e2, or_eq_add hacc]
      rw [if_neg (by omega)]
      have hsplit : v = v % 128 + 128 * (v / 128) := (Nat.mod_add_div v 128).symm
      have hpow : 2 ^ (shift + 7) = 2 ^ shift * 128 := by rw [pow_add]; norm_num
      have h7 : shift + 7 < 64 := by
        have : 2 ^ (shift + 7) < 2 ^ 64 := by
          rw [hpow]
          calc 2 ^ shift * 128 = 128 * 2 ^ shift := Nat.mul_comm _ _
            _ ≤ v * 2 ^ shift := Nat.mul_le_mul_right _ (by omega)
            _ < 2 ^ 64 := hv
        exact (Nat.pow_lt_pow_iff_right (by norm_num)).mp this
      have hv' : v / 128 * 2 ^ (shift + 7) < 2 ^ 64 := by
        rw [hpow]
        calc v / 128 * (2 ^ shift * 128) = (128 * (v / 128)) * 2 ^ shift := by ring
          _ ≤ v * 2 ^ shift := Nat.mul_le_mul_right _ (by omega)
          _ < 2 ^ 64 := hv
      have hacc' : acc + v % 128 * 2 ^ shift < 2 ^ (shift + 7) := by
        rw [hpow]
        have : v % 128 * 2 ^ shift ≤ 127 * 2 ^ shift := Nat.mul_le_mul_right _ (by omega)
        omega
      have hlen : (varintBytes (v / 128)).length ≤ fuel := by
        rw [hvb] at hf; simpa using hf
      have := ih (v / 128) (shift + 7) (acc + v % 128 * 2 ^ shift) (pre ++ [v % 128 + 128]) rest
        hlen h7 hv' hacc'
      have hdata' : (pre ++ [v % 128 + 128]) ++ (varintBytes (v / 128) ++ rest) =
          pre ++ (varintBytes v ++ rest) := by
        rw [hdata]; simp
      rw [hdata'] at this
      have hidx : (((pre ++ [v % 128 + 128]).length : Nat) : Int) = (pre.length : Int) + 1 := by
        simp
      rw [hidx] at this
      rw [this]
      have hres : acc + v % 128 * 2 ^ shift + v / 128 * 2 ^ (shift + 7) = acc + v * 2 ^ shift := by
        rw [hpow]
        conv_rhs => rw [hsplit]
        ring
      rw [hres, hvb]
      simp only [List.length_append, List.length_singleton, List.length_cons, List.length_nil]
      congr 2
      omega

theorem readVarint_at (v : Nat) (pre rest : List Nat) (hv : v < 2 ^ 64) :
    readVarint (pre ++ (varintBytes v ++ rest))
        (((pre ++ (varintBytes v ++ rest)).length : Nat) : Int) 11 0 (pre.length : Int) 0 =
      .ok (v, ((pre.length + (varintBytes v).length : Nat) : Int)) := by
  have := readVarint_varintBytes 11 v 0 0 pre rest
    (by have := varintBytes_length_le_ten hv; omega) (by norm_num) (by simpa using hv)
    (by norm_num)
  simpa using this

end descriptor

namespace descriptor

theorem readTag (t : Nat) (pre rest : List Nat) (ht : t < 128) :
    readVarint (pre ++ t :: rest) (((pre ++ t :: rest).length : Nat) : Int) 11 0
        (pre.length : Int) 0 = .ok (t, ((pre.length + 1 : Nat) : Int)) := by
  have := readVarint_at t pre rest (by omega)
  rw [varintBytes_small ht] at this
  simpa using this

theorem int64_small {n : Nat} (h : n < 2 ^ 63) : int64 n = (n : Int) := by
  unfold int64
  have : n % 2 ^ 64 = n := Nat.mod_eq_of_lt (by omega)
  rw [this, if_pos h]

theorem uint64_natCast {n : Nat} (h : n < 2 ^ 64) : uint64 (n : Int) = n := by
  unfold uint64
  have : ((n : Int) % 2 ^ 64) = (n : Int) := Int.emod_eq_of_lt (Int.natCast_nonneg _) (by omega)
  rw [this, Int.toNat_ofNat]

theorem wrapInt_natCast {n : Nat} (h : n < 2 ^ 63) : wrapInt (n : Int) = (n : Int) := by
  unfold wrapInt
  rw [uint64_natCast (by omega), int64_small h]

theorem int64_uint64 {x : Int} (h1 : -2 ^ 63 ≤ x) (h2 : x < 2 ^ 63) : int64 (uint64 x) = x := by
  unfold int64
  have hlt := uint64_lt x
  rw [Nat.mod_eq_of_lt hlt]
  unfold uint64 at hlt ⊢
  have h0 : 0 ≤ x % 2 ^ 64 := Int.emod_nonneg _ (by norm_num)
  have hcast : ((x % 2 ^ 64).toNat : Int) = x % 2 ^ 64 := Int.toNat_of_nonneg h0
  by_cases hx : 0 ≤ x
  · have e : x % 2 ^ 64 = x := Int.emod_eq_of_lt hx (by omega)
    rw [if_pos (by omega), hcast, e]
  · have e : x % 2 ^ 64 = x + 2 ^ 64 := by
      have : (x + 2 ^ 64) % 2 ^ 64 = x + 2 ^ 64 := Int.emod_eq_of_lt (by omega) (by omega)
      rw [← this, Int.add_emod_self]
    rw [if_neg (by omega), hcast, e]
    omega

theorem slice_at (a s rest : List Nat) :
    slice (a ++ (s ++ rest)) (a.length : Int) ((a.length + s.length : Nat) : Int) = .ok s := by
  unfold slice
  have h : (0 : Int) ≤ (a.length : Int) ∧ (a.length : Int) ≤ ((a.length + s.length : Nat) : Int) ∧
      ((a.length + s.length : Nat) : Int) ≤ (((a ++ (s ++ rest)).length : Nat) : Int) := by
    simp only [List.length_append]
    omega
  rw [if_pos h]
  have e : (((a.length + s.length : Nat) : Int) - (a.length : Int)).toNat = s.length := by
    omega
  rw [Int.toNat_ofNat, e]
  simp

/-- The rounds of the loop of `Unmarshal` at the field `MediaType`: one if the
string is not empty, none if it is. -/
theorem unmarshalLoop_MediaType (fuel : Nat) (m : Descriptor) (D pre s rest : List Nat)
    (hm : m.MediaType = []) (hD : D = pre ++ (stringField 0xa s ++ rest))
    (hfit : D.length < 2 ^ 63) :
    unmarshalLoop D (fuel + (if s.length > 0 then 1 else 0)) m (pre.length : Int) =
      unmarshalLoop D fuel { m with MediaType := s }
        (((pre ++ stringField 0xa s).length : Nat) : Int) := by
  by_cases hs : s.length > 0
  · rw [if_pos hs]
    have hD1 : D = pre ++ 0xa :: (varintBytes s.length ++ (s ++ rest)) := by
      rw [hD]; simp [stringField, hs]
    have hD2 : D = (pre ++ [0xa]) ++ (varintBytes s.length ++ (s ++ rest)) := by
      rw [hD1]; simp
    have hD3 : D = ((pre ++ [0xa]) ++ varintBytes s.length) ++ (s ++ rest) := by
      rw [hD1]; simp
    have hlen : D.length =
        pre.length + 1 + (varintBytes s.length).length + s.length + rest.length := by
      rw [hD1]; simp only [List.length_append, List.length_cons]; omega
    have htag : readVarint D ((D.length : Nat) : Int) 11 0 (pre.length : Int) 0 =
        .ok (0xa, ((pre.length + 1 : Nat) : Int)) := by
      rw [hD1]; exact readTag 0xa pre _ (by norm_num)
    have hread : readVarint D ((D.length : Nat) : Int) 11 0 ((pre.length + 1 : Nat) : Int) 0 =
        .ok (s.length, ((pre.length + 1 + (varintBytes s.length).length : Nat) : Int)) := by
      have := readVarint_at s.length (pre ++ [0xa]) (s ++ rest) (by omega)
      rw [← hD2] at this
      simpa using this
    have hslice : slice D ((pre.length + 1 + (varintBytes s.length).length : Nat) : Int)
        ((pre.length + 1 + (varintBytes s.length).length + s.length : Nat) : Int) = .ok s := by
      have := slice_at ((pre ++ [0xa]) ++ varintBytes s.length) s rest
      have e1 : ((pre ++ [0xa]) ++ varintBytes s.length).length =
          pre.length + 1 + (varintBytes s.length).length := by
        simp only [List.length_append, List.length_singleton]
      rw [← hD3, e1] at this
      exact this
    have hpost : wrapInt (((pre.length + 1 + (varintBytes s.length).length : Nat) : Int) +
        int64 s.length) =
        ((pre.length + 1 + (varintBytes s.length).length + s.length : Nat) : Int) := by
      rw [int64_small (by omega), ← Int.natCast_add, wrapInt_natCast (by omega)]
    have hint : int64 s.length = (s.length : Int) := int64_small (by omega)
    have hcond : ((pre.length : Int) < ((D.length : Nat) : Int)) := by omega
    have hf1 : int32 (0xa >>> 3) = 1 := by decide
    have hw : (0xa &&& 0x7 : Nat) = 2 := by decide
    have hlast : (pre ++ stringField 0xa s).length =
        pre.length + 1 + (varintBytes s.length).length + s.length := by
      simp only [stringField, if_pos hs, List.length_append, List.length_cons]; omega
    rw [unmarshalLoop]
    simp only [hcond, if_true, htag, bind_ok, hf1, hw, hread, hpost, hslice]
    rw [hlast, hint, if_neg (by decide), if_neg (by decide), if_neg (by decide),
      if_neg (by omega), if_neg (by omega)]
  · have hnil : s = [] := by
      cases s with
      | nil => rfl
      | cons a t => simp at hs
    subst hnil
    have : ({ m with MediaType := [] } : Descriptor) = m := by
      cases m; simp only at hm; subst hm; rfl
    rw [this]
    simp [stringField]

/-- The rounds of the loop of `Unmarshal` at the field `Digest`: one if the
string is not empty, none if it is. -/
theorem unmarshalLoop_Digest (fuel : Nat) (m : Descriptor) (D pre s rest : List Nat)
    (hm : m.Digest = []) (hD : D = pre ++ (stringField 0x12 s ++ rest))
    (hfit : D.length < 2 ^ 63) :
    unmarshalLoop D (fuel + (if s.length > 0 then 1 else 0)) m (pre.length : Int) =
      unmarshalLoop D fuel { m with Digest := s }
        (((pre ++ stringField 0x12 s).length : Nat) : Int) := by
  by_cases hs : s.length > 0
  · rw [if_pos hs]
    have hD1 : D = pre ++ 0x12 :: (varintBytes s.length ++ (s ++ rest)) := by
      rw [hD]; simp [stringField, hs]
    have hD2 : D = (pre ++ [0x12]) ++ (varintBytes s.length ++ (s ++ rest)) := by
      rw [hD1]; simp
    have hD3 : D = ((pre ++ [0x12]) ++ varintBytes s.length) ++ (s ++ rest) := by
      rw [hD1]; simp
    have hlen : D.length =
        pre.length + 1 + (varintBytes s.length).length + s.length + rest.length := by
      rw [hD1]; simp only [List.length_append, List.length_cons]; omega
    have htag : readVarint D ((D.length : Nat) : Int) 11 0 (pre.length : Int) 0 =
        .ok (0x12, ((pre.length + 1 : Nat) : Int)) := by
      rw [hD1]; exact readTag 0x12 pre _ (by norm_num)
    have hread : readVarint D ((D.length : Nat) : Int) 11 0 ((pre.length + 1 : Nat) : Int) 0 =
        .ok (s.length, ((pre.length + 1 + (varintBytes s.length).length : Nat) : Int)) := by
      have := readVarint_at s.length (pre ++ [0x12]) (s ++ rest) (by omega)
      rw [← hD2] at this
      simpa using this
    have hslice : slice D ((pre.length + 1 + (varintBytes s.length).length : Nat) : Int)
        ((pre.length + 1 + (varintBytes s.length).length + s.length : Nat) : Int) = .ok s := by
      have := slice_at ((pre ++ [0x12]) ++ varintBytes s.length) s rest
      have e1 : ((pre ++ [0x12]) ++ varintBytes s.length).length =
          pre.length + 1 + (varintBytes s.length).length := by
        simp only [List.length_append, List.length_singleton]
      rw [← hD3, e1] at this
      exact this
    have hpost : wrapInt (((pre.length + 1 + (varintBytes s.length).length : Nat) : Int) +
        int64 s.length) =
        ((pre.length + 1 + (varintBytes s.length).length + s.length : Nat) : Int) := by
      rw [int64_small (by omega), ← Int.natCast_add, wrapInt_natCast (by omega)]
    have hint : int64 s.length = (s.length : Int) := int64_small (by omega)
    have hcond : ((pre.length : Int) < ((D.length : Nat) : Int)) := by omega
    have hf1 : int32 (0x12 >>> 3) = 2 := by decide
    have hw : (0x12 &&& 0x7 : Nat) = 2 := by decide
    have hlast : (pre ++ stringField 0x12 s).length =
        pre.length + 1 + (varintBytes s.length).length + s.length := by
      simp only [stringField, if_pos hs, List.length_append, List.length_cons]; omega
    rw [unmarshalLoop]
    simp only [hcond, if_true, htag, bind_ok, hf1, hw, hread, hpost, hslice]
    rw [hlast, hint, if_neg (by decide), if_neg (by decide), if_neg (by decide), if_neg (by decide),
      if_neg (by omega), if_neg (by omega)]
  · have hnil : s = [] := by
      cases s with
      | nil => rfl
      | cons a t => simp at hs
    subst hnil
    have : ({ m with Digest := [] } : Descriptor) = m := by
      cases m; simp only at hm; subst hm; rfl
    rw [this]
    simp [stringField]

/-- The rounds of the loop of `Unmarshal` at the field `MediaSize`: one if the
value is not 0, none if it is. -/
theorem unmarshalLoop_MediaSize (fuel : Nat) (m : Descriptor) (D pre rest : List Nat) (x : Int)
    (hm : m.MediaSize = 0) (hx1 : -2 ^ 63 ≤ x) (hx2 : x < 2 ^ 63)
    (hD : D = pre ++ (sizeField x ++ rest)) :
    unmarshalLoop D (fuel + (if x ≠ 0 then 1 else 0)) m (pre.length : Int) =
      unmarshalLoop D fuel { m with MediaSize := x }
        (((pre ++ sizeField x).length : Nat) : Int) := by
  by_cases hx : x ≠ 0
  · rw [if_pos hx]
    have hD1 : D = pre ++ 0x18 :: (varintBytes (uint64 x) ++ rest) := by
      rw [hD]; simp [sizeField, hx]
    have hD2 : D = (pre ++ [0x18]) ++ (varintBytes (uint64 x) ++ rest) := by
      rw [hD1]; simp
    have hlen : D.length = pre.length + 1 + (varintBytes (uint64 x)).length + rest.length := by
      rw [hD1]; simp only [List.length_append, List.length_cons]; omega
    have htag : readVarint D ((D.length : Nat) : Int) 11 0 (pre.length : Int) 0 =
        .ok (0x18, ((pre.length + 1 : Nat) : Int)) := by
      rw [hD1]; exact readTag 0x18 pre _ (by norm_num)
    have hread : readVarint D ((D.length : Nat) : Int) 11 0 ((pre.length + 1 : Nat) : Int) 0 =
        .ok (uint64 x, ((pre.length + 1 + (varintBytes (uint64 x)).length : Nat) : Int)) := by
      have := readVarint_at (uint64 x) (pre ++ [0x18]) rest (uint64_lt x)
      rw [← hD2] at this
      simpa using this
    have hcond : ((pre.length : Int) < ((D.length : Nat) : Int)) := by omega
    have hf1 : int32 (0x18 >>> 3) = 3 := by decide
    have hw : (0x18 &&& 0x7 : Nat) = 0 := by decide
    have hlast : (pre ++ sizeField x).length =
        pre.length + 1 + (varintBytes (uint64 x)).length := by
      simp only [sizeField, if_pos hx, List.length_append, List.length_cons]; omega
    rw [unmarshalLoop]
    simp only [hcond, if_true, htag, bind_ok, hf1, hw, hread, int64_uint64 hx1 hx2]
    rw [hlast, if_neg (by decide), if_neg (by decide), if_neg (by decide), if_neg (by decide),
      if_neg (by decide)]
  · have h0 : x = 0 := by simpa using hx
    subst h0
    have : ({ m with MediaSize := 0 } : Descriptor) = m := by
      cases m; simp only at hm; subst hm; rfl
    rw [this]
    simp [sizeField]

theorem unmarshalLoop_end (fuel : Nat) (m : Descriptor) (D : List Nat) :
    unmarshalLoop D (fuel + 1) m ((D.length : Nat) : Int) = .ok m := by
  rw [unmarshalLoop]
  simp

end descriptor

namespace descriptor

theorem Size_ge (m : Descriptor) : m.MediaType.length + m.Digest.length ≤ Size m := by
  unfold Size
  simp only [Nat.zero_add]
  split_ifs <;> omega

theorem stringField_count (tag : Nat) (s : List Nat) :
    (if s.length > 0 then 1 else 0) ≤ (stringField tag s).length := by
  by_cases h : s.length > 0
  · rw [if_pos h, stringField_length tag s h]; omega
  · rw [if_neg h]; omega

theorem sizeField_count (x : Int) : (if x ≠ 0 then 1 else 0) ≤ (sizeField x).length := by
  by_cases h : x ≠ 0
  · rw [if_pos h]; simp [sizeField, h]
  · rw [if_neg h]; omega

theorem Unmarshal_wireBytes (d : Descriptor) (hlo : -2 ^ 63 ≤ d.MediaSize)
    (hhi : d.MediaSize < 2 ^ 63) (hfit : (wireBytes d).length < 2 ^ 63) :
    Unmarshal ⟨[], [], 0⟩ (wireBytes d) = .ok d := by
  unfold Unmarshal
  have hD : wireBytes d = [] ++ (stringField 0xa d.MediaType ++
      (stringField 0x12 d.Digest ++ sizeField d.MediaSize)) := rfl
  have hD2 : wireBytes d = stringField 0xa d.MediaType ++
      (stringField 0x12 d.Digest ++ sizeField d.MediaSize) := rfl
  have hD3 : wireBytes d = (stringField 0xa d.MediaType ++ stringField 0x12 d.Digest) ++
      (sizeField d.MediaSize ++ []) := by
    rw [hD2]; simp
  have hlen : (wireBytes d).length = (stringField 0xa d.MediaType).length +
      (stringField 0x12 d.Digest).length + (sizeField d.MediaSize).length := by
    rw [hD2]; simp only [List.length_append]; omega
  have c1 := stringField_count 0xa d.MediaType
  have c2 := stringField_count 0x12 d.Digest
  have c3 := sizeField_count d.MediaSize
  generalize hgen : wireBytes d = D at *
  have hfuel : D.length + 1 =
      (((D.length - (if d.MediaType.length > 0 then 1 else 0) -
          (if d.Digest.length > 0 then 1 else 0) - (if d.MediaSize ≠ 0 then 1 else 0)) + 1 +
        (if d.MediaSize ≠ 0 then 1 else 0)) + (if d.Digest.length > 0 then 1 else 0)) +
        (if d.MediaType.length > 0 then 1 else 0) := by
    omega
  rw [hfuel]
  have s1 := unmarshalLoop_MediaType
    (((D.length - (if d.MediaType.length > 0 then 1 else 0) -
          (if d.Digest.length > 0 then 1 else 0) - (if d.MediaSize ≠ 0 then 1 else 0)) + 1 +
        (if d.MediaSize ≠ 0 then 1 else 0)) + (if d.Digest.length > 0 then 1 else 0))
    ⟨[], [], 0⟩ D [] d.MediaType (stringField 0x12 d.Digest ++ sizeField d.MediaSize) rfl hD hfit
  have e0 : (((([] : List Nat).length : Nat) : Int)) = 0 := rfl
  rw [e0, List.nil_append] at s1
  rw [s1]
  have s2 := unmarshalLoop_Digest
    ((D.length - (if d.MediaType.length > 0 then 1 else 0) -
          (if d.Digest.length > 0 then 1 else 0) - (if d.MediaSize ≠ 0 then 1 else 0)) + 1 +
        (if d.MediaSize ≠ 0 then 1 else 0))
    { (⟨[], [], 0⟩ : Descriptor) with MediaType := d.MediaType } D
    (stringField 0xa d.MediaType) d.Digest (sizeField d.MediaSize) rfl hD2 hfit
  rw [s2]
  have s3 := unmarshalLoop_MediaSize
    ((D.length - (if d.MediaType.length > 0 then 1 else 0) -
          (if d.Digest.length > 0 then 1 else 0) - (if d.MediaSize ≠ 0 then 1 else 0)) + 1)
    { ({ (⟨[], [], 0⟩ : Descriptor) with MediaType := d.MediaType }) with Digest := d.Digest } D
    (stringField 0xa d.MediaType ++ stringField 0x12 d.Digest) [] d.MediaSize rfl hlo hhi hD3
  rw [s3]
  have hend : ((stringField 0xa d.MediaType ++ stringField 0x12 d.Digest) ++
      sizeField d.MediaSize).length = D.length := by
    rw [hlen]; simp only [List.length_append]
  rw [hend, unmarshalLoop_end]

end descriptor

/-- Claim C27 (the round trip of a descriptor).  For every descriptor whose
`MediaSize` is an `int64` and whose encoding fits a Go slice (`Size` is below
`2 ^ 63`): `Marshal` succeeds and returns exactly `Size` bytes, and `Unmarshal`
of these bytes into an empty descriptor succeeds and gives the descriptor
back. -/
theorem marshal_unmarshal_round_trip (d : descriptor.Descriptor)
    (hlo : -2 ^ 63 ≤ d.MediaSize) (hhi : d.MediaSize < 2 ^ 63)
    (hfit : descriptor.Size d < 2 ^ 63) :
    ∃ dAtA, descriptor.Marshal d = .ok dAtA ∧ dAtA.length = descriptor.Size d ∧
      descriptor.Unmarshal ⟨[], [], 0⟩ dAtA = .ok d := by
  have hge := descriptor.Size_ge d
  have h1 : d.MediaType.length < 2 ^ 64 := by omega
  have h2 : d.Digest.length < 2 ^ 64 := by omega
  have hS := descriptor.Size_eq d h1 h2
  exact ⟨descriptor.wireBytes d, descriptor.Marshal_eq d h1 h2, hS.symm,
    descriptor.Unmarshal_wireBytes d hlo hhi (by rw [← hS]; exact hfit)⟩

/-- Witness for C27: the descriptor with `MediaType` "a", `Digest` "bc" and the
negative `MediaSize` -1. -/
theorem marshal_unmarshal_round_trip_witness :
    ∃ dAtA, descriptor.Marshal ⟨[97], [98, 99], -1⟩ = .ok dAtA ∧
      dAtA.length = descriptor.Size ⟨[97], [98, 99], -1⟩ ∧
      descriptor.Unmarshal ⟨[], [], 0⟩ dAtA = .ok ⟨[97], [98, 99], -1⟩ :=
  marshal_unmarshal_round_trip ⟨[97], [98, 99], -1⟩ (by decide) (by decide) (by decide)

/-! ## `Mounts` after `Prepare`/`View` and any calls that spare the key -/

theorem storageCall_ok {α : Type} {f : Faults} {r : Except Error α} {x : α}
    (h : storageCall f r = .ok x) : r = .ok x := by
  unfold storageCall at h
  cases hs : f.Storage with
  | some e => rw [hs] at h; cases h
  | none => rw [hs] at h; exact h

theorem find?_filter_other (l : List storage.Active) (k key : String) (h : k ≠ key) :
    (l.filter (fun b => ¬ b.Key = k)).find? (fun a => a.Key = key) =
      l.find? (fun a => a.Key = key) := by
  rw [List.find?_filter]
  congr 1
  funext a
  by_cases hk : a.Key = key
  · have hb : ¬ a.Key = k := fun e => h (e.symm.trans hk)
    have hb' : ¬ key = k := fun e => h e.symm
    simp [hk, hb, hb']
  · simp [hk]

theorem GetActive_find {ms : storage.MetaStore} {key : String} {a : storage.Active} :
    storage.GetActive ms key = .ok a ↔ ms.active.find? (fun b => b.Key = key) = some a := by
  unfold storage.GetActive
  cases h : ms.active.find? (fun b => b.Key = key) <;> simp

theorem GetActive_after_CreateActive {ms tx : storage.MetaStore} {k parent key : String}
    {ro : Bool} {a a' : storage.Active} (hc : storage.CreateActive ms k parent ro = .ok (a', tx))
    (h : storage.GetActive ms key = .ok a) : storage.GetActive tx key = .ok a := by
  obtain ⟨hk, -, -, htx, hnew, -⟩ := storage_CreateActive_ok hc
  rw [GetActive_find] at h ⊢
  have hmem := List.mem_of_find?_eq_some h
  have hkey : a.Key = key := by simpa using List.find?_some h
  have hne : ¬ a'.Key = key := by
    intro e
    exact hnew a hmem (hkey.trans (e.symm.trans hk))
  subst htx
  simp [List.find?, hne, h]

theorem GetActive_after_CommitActive {ms tx : storage.MetaStore} {k name id key : String}
    {a : storage.Active} (hc : storage.CommitActive ms k name = .ok (id, tx)) (hne : k ≠ key)
    (h : storage.GetActive ms key = .ok a) : storage.GetActive tx key = .ok a := by
  obtain ⟨-, b, -, -, -, -, htx⟩ := storage_CommitActive_ok hc
  rw [GetActive_find] at h ⊢
  subst htx
  simp only
  rw [find?_filter_other _ _ _ hne]
  exact h

theorem GetActive_after_Remove {ms tx : storage.MetaStore} {k id key : String}
    {kind : storage.Kind} {a : storage.Active}
    (hc : storage.Remove ms k = .ok (id, kind, tx)) (hne : k ≠ key)
    (h : storage.GetActive ms key = .ok a) : storage.GetActive tx key = .ok a := by
  rw [GetActive_find] at h ⊢
  rcases storage_Remove_ok hc with ⟨-, b, -, -, -, htx⟩ | ⟨-, c, -, -, -, -, htx⟩
  · subst htx
    simp only
    rw [find?_filter_other _ _ _ hne]
    exact h
  · subst htx
    exact h

theorem overlay_createActive_ms (o : overlay.snapshotter) (f : Faults) (ms : storage.MetaStore)
    (fs : DirFS) (key parent : String) (ro : Bool) :
    (overlay.createActive o f ms fs key parent ro).ms = ms ∨
    ∃ a tx, storage.CreateActive ms key parent ro = .ok (a, tx) ∧
      (overlay.createActive o f ms fs key parent ro).ms = tx := by
  unfold overlay.createActive
  simp only
  split
  · exact Or.inl rfl
  · split
    · exact Or.inl rfl
    · split
      · exact Or.inl rfl
      · split
        · exact Or.inl rfl
        · split
          · exact Or.inl rfl
          · rename_i active tx hst
            split
            · exact Or.inl rfl
            · split
              · exact Or.inl rfl
              · exact Or.inr ⟨active, tx, storageCall_ok hst, rfl⟩

theorem naive_createActive_ms (o : naive.snapshotter) (f : Faults) (ms : storage.MetaStore)
    (fs : DirFS) (key parent : String) (ro : Bool) :
    (naive.createActive o f ms fs key parent ro).ms = ms ∨
    ∃ a tx, storage.CreateActive ms key parent ro = .ok (a, tx) ∧
      (naive.createActive o f ms fs key parent ro).ms = tx := by
  unfold naive.createActive
  simp only
  repeat' split
  all_goals first
    | exact Or.inl rfl
    | exact Or.inr ⟨_, _, storageCall_ok (by assumption), rfl⟩

theorem overlay_Commit_ms (o : overlay.snapshotter) (f : Faults) (ms : storage.MetaStore)
    (fs : DirFS) (name key : String) :
    (overlay.Commit o f ms fs name key).ms = ms ∨
    ∃ id tx, storage.CommitActive ms key name = .ok (id, tx) ∧
      (overlay.Commit o f ms fs name key).ms = tx := by
  unfold overlay.Commit
  repeat' split
  all_goals first
    | exact Or.inl rfl
    | exact Or.inr ⟨_, _, storageCall_ok (by assumption), rfl⟩

theorem naive_Commit_ms (o : naive.snapshotter) (f : Faults) (ms : storage.MetaStore)
    (fs : DirFS) (name key : String) :
    (naive.Commit o f ms fs name key).ms = ms ∨
    ∃ id tx, storage.CommitActive ms key name = .ok (id, tx) ∧
      (naive.Commit o f ms fs name key).ms = tx := by
  unfold naive.Commit
  repeat' split
  all_goals first
    | exact Or.inl rfl
    | exact Or.inr ⟨_, _, storageCall_ok (by assumption), rfl⟩

theorem overlay_Remove_ms (o : overlay.snapshotter) (f : Faults) (ms : storage.MetaStore)
    (fs : DirFS) (key : String) :
    (overlay.Remove o f ms fs key).ms = ms ∨
    ∃ id k tx, storage.Remove ms key = .ok (id, k, tx) ∧
      (overlay.Remove o f ms fs key).ms = tx := by
  unfold overlay.Remove
  simp only
  repeat' split
  all_goals first
    | exact Or.inl rfl
    | exact Or.inr ⟨_, _, _, storageCall_ok (by assumption), rfl⟩

theorem naive_Remove_ms (o : naive.snapshotter) (f : Faults) (ms : storage.MetaStore)
    (fs : DirFS) (key : String) :
    (naive.Remove o f ms fs key).ms = ms ∨
    ∃ id k tx, storage.Remove ms key = .ok (id, k, tx) ∧
      (naive.Remove o f ms fs key).ms = tx := by
  unfold naive.Remove
  simp only
  repeat' split
  all_goals first
    | exact Or.inl rfl
    | exact Or.inr ⟨_, _, _, storageCall_ok (by assumption), rfl⟩

theorem overlay_after_keeps (o : overlay.snapshotter) (s : storage.MetaStore × DirFS)
    (c : Faults × Call) (key : String) (a : storage.Active) (hs : c.2.spares key = true)
    (h : storage.GetActive s.1 key = .ok a) :
    storage.GetActive (overlay.after o s c).1 key = .ok a := by
  obtain ⟨f, call⟩ := c
  cases call with
  | Prepare k p =>
    rcases overlay_createActive_ms o f s.1 s.2 k p false with e | ⟨a', tx, hc, e⟩
    · simp only [overlay.after, overlay.Prepare, e]; exact h
    · simp only [overlay.after, overlay.Prepare, e]; exact GetActive_after_CreateActive hc h
  | View k p =>
    rcases overlay_createActive_ms o f s.1 s.2 k p true with e | ⟨a', tx, hc, e⟩
    · simp only [overlay.after, overlay.View, e]; exact h
    · simp only [overlay.after, overlay.View, e]; exact GetActive_after_CreateActive hc h
  | Commit n k =>
    have hne : k ≠ key := by simpa [Call.spares] using hs
    rcases overlay_Commit_ms o f s.1 s.2 n k with e | ⟨id, tx, hc, e⟩
    · simp only [overlay.after, e]; exact h
    · simp only [overlay.after, e]; exact GetActive_after_CommitActive hc hne h
  | Remove k =>
    have hne : k ≠ key := by simpa [Call.spares] using hs
    rcases overlay_Remove_ms o f s.1 s.2 k with e | ⟨id, kind, tx, hc, e⟩
    · simp only [overlay.after, e]; exact h
    · simp only [overlay.after, e]; exact GetActive_after_Remove hc hne h
  | Mounts k =>
    simp only [overlay.after, (overlay_Mounts_frame o f s.1 s.2 k).1]; exact h
  | Stat k =>
    have : (overlay.Stat o f s.1 s.2 k).ms = s.1 := by
      unfold overlay.Stat; cases f.Begin <;> rfl
    simp only [overlay.after, this]; exact h

theorem naive_after_keeps (o : naive.snapshotter) (s : storage.MetaStore × DirFS)
    (c : Faults × Call) (key : String) (a : storage.Active) (hs : c.2.spares key = true)
    (h : storage.GetActive s.1 key = .ok a) :
    storage.GetActive (naive.after o s c).1 key = .ok a := by
  obtain ⟨f, call⟩ := c
  cases call with
  | Prepare k p =>
    rcases naive_createActive_ms o f s.1 s.2 k p false with e | ⟨a', tx, hc, e⟩
    · simp only [naive.after, naive.Prepare, e]; exact h
    · simp only [naive.after, naive.Prepare, e]; exact GetActive_after_CreateActive hc h
  | View k p =>
    rcases naive_createActive_ms o f s.1 s.2 k p true with e | ⟨a', tx, hc, e⟩
    · simp only [naive.after, naive.View, e]; exact h
    · simp only [naive.after, naive.View, e]; exact GetActive_after_CreateActive hc h
  | Commit n k =>
    have hne : k ≠ key := by simpa [Call.spares] using hs
    rcases naive_Commit_ms o f s.1 s.2 n k with e | ⟨id, tx, hc, e⟩
    · simp only [naive.after, e]; exact h
    · simp only [naive.after, e]; exact GetActive_after_CommitActive hc hne h
  | Remove k =>
    have hne : k ≠ key := by simpa [Call.spares] using hs
    rcases naive_Remove_ms o f s.1 s.2 k with e | ⟨id, kind, tx, hc, e⟩
    · simp only [naive.after, e]; exact h
    · simp only [naive.after, e]; exact GetActive_after_Remove hc hne h
  | Mounts k =>
    simp only [naive.after, (naive_Mounts_frame o f s.1 s.2 k).1]; exact h
  | Stat k =>
    have : (naive.Stat o f s.1 s.2 k).ms = s.1 := by
      unfold naive.Stat; cases f.Begin <;> rfl
    simp only [naive.after, this]; exact h

theorem overlay_run_keeps (o : overlay.snapshotter) (key : String) (a : storage.Active) :
    ∀ (calls : List (Faults × Call)) (s : storage.MetaStore × DirFS),
    (∀ c ∈ calls, c.2.spares key = true) → storage.GetActive s.1 key = .ok a →
    storage.GetActive (overlay.run o s calls).1 key = .ok a := by
  intro calls
  induction calls with
  | nil => intro s _ h; exact h
  | cons c rest ih =>
    intro s hs h
    simp only [overlay.run, List.foldl_cons]
    exact ih _ (fun c' hc' => hs c' (List.mem_cons_of_mem _ hc'))
      (overlay_after_keeps o s c key a (hs c (List.mem_cons_self _ _)) h)

theorem naive_run_keeps (o : naive.snapshotter) (key : String) (a : storage.Active) :
    ∀ (calls : List (Faults × Call)) (s : storage.MetaStore × DirFS),
    (∀ c ∈ calls, c.2.spares key = true) → storage.GetActive s.1 key = .ok a →
    storage.GetActive (naive.run o s calls).1 key = .ok a := by
  intro calls
  induction calls with
  | nil => intro s _ h; exact h
  | cons c rest ih =>
    intro s hs h
    simp only [naive.run, List.foldl_cons]
    exact ih _ (fun c' hc' => hs c' (List.mem_cons_of_mem _ hc'))
      (naive_after_keeps o s c key a (hs c (List.mem_cons_self _ _)) h)

/-- Counterexample to C7 as stated: overlay `Prepare("k", "")` on the empty store
succeeds with one bind mount; the following `Mounts("k")`, with no call in
between, fails because its read-only transaction cannot be opened. -/
theorem mounts_fails_when_store_unavailable :
    (overlay.Prepare ⟨"/r"⟩ {} ⟨0, [], []⟩ (fun _ => none) "k" "").ret =
      .ok [⟨"bind", "/r/snapshots/1/fs", ["rw", "rbind"]⟩] ∧
    (overlay.Mounts ⟨"/r"⟩ { Begin := some .StoreUnavailable }
        (overlay.Prepare ⟨"/r"⟩ {} ⟨0, [], []⟩ (fun _ => none) "k" "").ms
        (overlay.Prepare ⟨"/r"⟩ {} ⟨0, [], []⟩ (fun _ => none) "k" "").fs "k").ret =
      .error .StoreUnavailable := by
  refine ⟨by decide, by decide⟩

/-- Claim C7, amended (overlay and naive, `Mounts` after `Prepare`/`View`).  Let
`Prepare(key, parent)` or `View(key, parent)` succeed with mount list `M`, under
any injected failures that still let it succeed, and let any sequence of calls
of the driver follow (`Prepare`, `View`, `Commit`, `Remove`, `Mounts`, `Stat`,
each succeeding or failing in its own environment), none of them a `Commit` or
a `Remove` of `key`.  Then a `Mounts(key)` whose read-only transaction opens and
whose lookup the store answers (`g.Begin` and `g.Storage` are `none`) succeeds
and returns exactly `M`.  `Mounts`, under any failures and on any state, leaves
the metadata and the filesystem as they were; and when its transaction cannot
be opened it returns that error. -/
theorem mounts_recovers_created_mounts (oo : overlay.snapshotter) (no : naive.snapshotter)
    (f g : Faults) (ms : storage.MetaStore) (fs : DirFS) (key parent : String) (M : List Mount)
    (calls : List (Faults × Call)) (hspare : ∀ c ∈ calls, c.2.spares key = true)
    (hbegin : g.Begin = none) (hstore : g.Storage = none) :
    (∀ r, (r = overlay.Prepare oo f ms fs key parent ∨ r = overlay.View oo f ms fs key parent) →
      r.ret = .ok M →
      (overlay.Mounts oo g (overlay.run oo (r.ms, r.fs) calls).1
        (overlay.run oo (r.ms, r.fs) calls).2 key).ret = .ok M) ∧
    (∀ r, (r = naive.Prepare no f ms fs key parent ∨ r = naive.View no f ms fs key parent) →
      r.ret = .ok M →
      (naive.Mounts no g (naive.run no (r.ms, r.fs) calls).1
        (naive.run no (r.ms, r.fs) calls).2 key).ret = .ok M) ∧
    (∀ (g' : Faults) (ms' : storage.MetaStore) (fs' : DirFS) (key' : String),
      (overlay.Mounts oo g' ms' fs' key').ms = ms' ∧ (overlay.Mounts oo g' ms' fs' key').fs = fs' ∧
      (naive.Mounts no g' ms' fs' key').ms = ms' ∧ (naive.Mounts no g' ms' fs' key').fs = fs') ∧
    (∀ (g' : Faults) (ms' : storage.MetaStore) (fs' : DirFS) (key' : String) (e : Error),
      g'.Begin = some e →
      (overlay.Mounts oo g' ms' fs' key').ret = .error e ∧
      (naive.Mounts no g' ms' fs' key').ret = .error e) := by
  have hov : ∀ ro, (overlay.createActive oo f ms fs key parent ro).ret = .ok M →
      (overlay.Mounts oo g
        (overlay.run oo ((overlay.createActive oo f ms fs key parent ro).ms,
          (overlay.createActive oo f ms fs key parent ro).fs) calls).1
        (overlay.run oo ((overlay.createActive oo f ms fs key parent ro).ms,
          (overlay.createActive oo f ms fs key parent ro).fs) calls).2 key).ret = .ok M := by
    intro ro hr
    obtain ⟨a, tx, hc, hM, hms, -⟩ := overlay_createActive_ok hr
    have h0 : storage.GetActive (overlay.createActive oo f ms fs key parent ro).ms key = .ok a := by
      rw [hms]; exact storage_GetActive_after_create hc
    have h1 := overlay_run_keeps oo key a calls
      ((overlay.createActive oo f ms fs key parent ro).ms,
        (overlay.createActive oo f ms fs key parent ro).fs) hspare h0
    simp [overlay.Mounts, hbegin, hstore, storageCall, h1, hM]
  have hnv : ∀ ro, (naive.createActive no f ms fs key parent ro).ret = .ok M →
      (naive.Mounts no g
        (naive.run no ((naive.createActive no f ms fs key parent ro).ms,
          (naive.createActive no f ms fs key parent ro).fs) calls).1
        (naive.run no ((naive.createActive no f ms fs key parent ro).ms,
          (naive.createActive no f ms fs key parent ro).fs) calls).2 key).ret = .ok M := by
    intro ro hr
    obtain ⟨a, tx, hc, hM, hms, -⟩ := naive_createActive_ok hr
    have h0 : storage.GetActive (naive.createActive no f ms fs key parent ro).ms key = .ok a := by
      rw [hms]; exact storage_GetActive_after_create hc
    have h1 := naive_run_keeps no key a calls
      ((naive.createActive no f ms fs key parent ro).ms,
        (naive.createActive no f ms fs key parent ro).fs) hspare h0
    simp [naive.Mounts, hbegin, hstore, storageCall, h1, hM]
  refine ⟨?_, ?_, ?_, ?_⟩
  · rintro r (rfl | rfl) hr
    · exact hov false hr
    · exact hov true hr
  · rintro r (rfl | rfl) hr
    · exact hnv false hr
    · exact hnv true hr
  · intro g' ms' fs' key'
    exact ⟨(overlay_Mounts_frame oo g' ms' fs' key').1, (overlay_Mounts_frame oo g' ms' fs' key').2,
      (naive_Mounts_frame no g' ms' fs' key').1, (naive_Mounts_frame no g' ms' fs' key').2⟩
  · intro g' ms' fs' key' e he
    simp [overlay.Mounts, naive.Mounts, he]

/-- Witness for C7, amended: `Prepare("k", "")` on the empty store; then
`Prepare("k2", "")`, `Prepare("k3", "")`, `Commit("n3", "k3")` and a failing
`View("k", "")` follow, so that `k2` is the newest Active record; then
`Mounts("k")` returns the mounts of `k`. -/
theorem mounts_recovers_created_mounts_witness :
    (overlay.Prepare ⟨"/r"⟩ {} ⟨0, [], []⟩ (fun _ => none) "k" "").ret =
        .ok [⟨"bind", "/r/snapshots/1/fs", ["rw", "rbind"]⟩] ∧
    (overlay.Mounts ⟨"/r"⟩ {}
        (overlay.run ⟨"/r"⟩
          ((overlay.Prepare ⟨"/r"⟩ {} ⟨0, [], []⟩ (fun _ => none) "k" "").ms,
            (overlay.Prepare ⟨"/r"⟩ {} ⟨0, [], []⟩ (fun _ => none) "k" "").fs)
          [({}, .Prepare "k2" ""), ({}, .Prepare "k3" ""), ({}, .Commit "n3" "k3"), ({}, .View "k" "")]).1
        (overlay.run ⟨"/r"⟩
          ((overlay.Prepare ⟨"/r"⟩ {} ⟨0, [], []⟩ (fun _ => none) "k" "").ms,
            (overlay.Prepare ⟨"/r"⟩ {} ⟨0, [], []⟩ (fun _ => none) "k" "").fs)
          [({}, .Prepare "k2" ""), ({}, .Prepare "k3" ""), ({}, .Commit "n3" "k3"), ({}, .View "k" "")]).2
        "k").ret =
      .ok [⟨"bind", "/r/snapshots/1/fs", ["rw", "rbind"]⟩] :=
  ⟨by decide,
    (mounts_recovers_created_mounts ⟨"/r"⟩ ⟨"/r"⟩ {} {} ⟨0, [], []⟩ (fun _ => none) "k" ""
      [⟨"bind", "/r/snapshots/1/fs", ["rw", "rbind"]⟩]
      [({}, .Prepare "k2" ""), ({}, .Prepare "k3" ""), ({}, .Commit "n3" "k3"), ({}, .View "k" "")]
      (by decide) rfl rfl).1 _ (Or.inl rfl) (by decide)⟩
